import Mathlib

/-!
Value bridge of `rct/ScriptEngine.cpp`

A shallow embedding of the conversion layer between the host `Value` and the values of the
embedded script engine (`toV8_helper`, `toV8`, `toString`, `fromV8`, `objectFromV8Object`,
`adoptFunction`, `createObject`, `ObjectPrivate::init`, `ScriptEngine::fromObject`,
`ScriptEngine::toObject`), followed by the theorems about it.

Modelling conventions.

* Engine values are finite trees. An engine object carries an identity (`id`), so that two
  handles can be compared the way `v8::Persistent::operator==` compares them.
* The host side (the `ScriptEngine::Object` instances, the `ObjectData` blocks, the counters
  used for allocation) is an explicit state `Engine` threaded through every operation.
* A failed `assert`, a `ToLocalChecked` on an empty handle, the use of an empty handle where
  the engine needs a value and a conversion whose behaviour the language leaves undefined are
  results of their own (`Fault`), never silently replaced by a value.
* Exhaustion of resources (allocation failure, strings beyond the engine's maximal length,
  lists longer than `INT_MAX`) is outside the model.
-/

namespace Rct

/-! ## Bytes and host strings -/

/-- One byte of a host string. -/
abbrev Byte := Fin 256

/-- Modelled from the spec: the host `String` (`rct/String.h`, not among the sources), a
sequence of bytes with an explicit length. -/
abbrev HString := List Byte

/-- The bytes a `const char *` consumer sees: everything before the first zero byte (this is
what `String::constData()` hands to an interface that takes no length, and what
`String(const char *)` copies). -/
def cstr : List Byte → List Byte
  | [] => []
  | b :: bs => if b.val = 0 then [] else b :: cstr bs

/-! ## Doubles -/

/-- An IEEE-754 binary64 number: not-a-number, an infinity, or the finite number
`(-1)^neg * m * 2^e`. The numbers produced by the operations below are in the format's normal
form (`2^52 ≤ m < 2^53` and `-1074 ≤ e ≤ 971`, or `m < 2^52` and `e = -1074`). -/
inductive Double where
  | nan
  | inf (neg : Bool)
  | fin (neg : Bool) (m : Nat) (e : Int)
  deriving DecidableEq, Repr

namespace Double

/-- Helper of `log2`: at most `fuel` halvings. -/
def log2Aux : Nat → Nat → Nat
  | 0, _ => 0
  | fuel + 1, n => if n < 2 then 0 else log2Aux fuel (n / 2) + 1

/-- The position of the leading binary digit of `n` (`2^(log2 n) ≤ n < 2^(log2 n + 1)` for
`n > 0`). -/
def log2 (n : Nat) : Nat := log2Aux n n

/-- Numerator and denominator of `a / (b * 2^e)`. -/
def scaled (a b : Nat) (e : Int) : Nat × Nat :=
  if 0 ≤ e then (a, b * 2 ^ e.toNat) else (a * 2 ^ (-e).toNat, b)

/-- The integer nearest to `num / den`, ties to even. -/
def roundHalfEven (num den : Nat) : Nat :=
  if den < 2 * (num % den) ∨ (2 * (num % den) = den ∧ (num / den) % 2 = 1) then num / den + 1
  else num / den

/-- The exponent `e` for which `a / (b * 2^e)` has exactly 53 binary digits before the point
(`a, b > 0`). -/
def exponent (a b : Nat) : Int :=
  if (scaled a b ((log2 a : Int) - (log2 b : Int) - 52)).1 /
      (scaled a b ((log2 a : Int) - (log2 b : Int) - 52)).2 < 2 ^ 52
  then (log2 a : Int) - (log2 b : Int) - 52 - 1
  else (log2 a : Int) - (log2 b : Int) - 52

/-- The double with sign `neg`, significand `q ≤ 2^53` and exponent `e`: a significand of
`2^53` is renormalised, an exponent above the format's largest gives an infinity. -/
def pack (neg : Bool) (q : Nat) (e : Int) : Double :=
  if q = 2 ^ 53 then (if 971 < e + 1 then inf neg else fin neg (2 ^ 52) (e + 1))
  else if 971 < e then inf neg else fin neg q e

/-- Round-to-nearest-even of the non-negative rational `a / b` (`b > 0`), with sign `neg`: the
exponent is that of `exponent`, but not below the least exponent of the format, and the
significand is the quotient at that exponent, rounded. -/
def roundQuot (neg : Bool) (a b : Nat) : Double :=
  if a = 0 then fin neg 0 (-1074)
  else
    pack neg
      (roundHalfEven (scaled a b (max (exponent a b) (-1074))).1
        (scaled a b (max (exponent a b) (-1074))).2)
      (max (exponent a b) (-1074))

/-- The double that holds the whole number `c` (`0 < c < 2^53`) with sign `neg`. -/
def whole (neg : Bool) (c : Nat) : Double :=
  fin neg (c * 2 ^ (52 - log2 c)) ((log2 c : Int) - 52)

/-- Conversion of an integer to double (`static_cast<double>` of an integer type; the implicit
conversion of an `int32_t` to an engine number). -/
def ofInt (n : Int) : Double := roundQuot (decide (n < 0)) n.natAbs 1

/-- The integer obtained by dropping the fractional part of a finite double (rounding toward
zero); nothing for not-a-number and the infinities. -/
def trunc? : Double → Option Int
  | nan => none
  | inf _ => none
  | fin neg m e =>
    let a : Nat := if 0 ≤ e then m * 2 ^ e.toNat else m / 2 ^ (-e).toNat
    some (if neg then -(a : Int) else (a : Int))

/-- Whether a finite double is a whole number. -/
def isWhole : Double → Bool
  | fin _ m e => decide (0 ≤ e) || decide (m % 2 ^ (-e).toNat = 0)
  | _ => false

/-- Whether the double is minus zero. -/
def isMinusZero : Double → Bool
  | fin true 0 _ => true
  | _ => false

/-- The test behind `v8::Value::IsInt32` for an engine number: a whole number in the range of
`int32_t` that is not minus zero. -/
def isInt32 (d : Double) : Bool :=
  d.isWhole && !d.isMinusZero &&
    (match d.trunc? with
     | some i => decide (-(2 : Int) ^ 31 ≤ i) && decide (i < (2 : Int) ^ 31)
     | none => false)

/-- Whether `|d| ≤ k` for the natural number `k` (false for not-a-number). -/
def absLeNat (d : Double) (k : Nat) : Bool :=
  match d with
  | nan => false
  | inf _ => false
  | fin _ m e => if 0 ≤ e then decide (m * 2 ^ e.toNat ≤ k) else decide (m ≤ k * 2 ^ (-e).toNat)

/-- IEEE division `x / y`. -/
def div : Double → Double → Double
  | nan, _ => nan
  | _, nan => nan
  | inf _, inf _ => nan
  | inf s, fin t _ _ => inf (xor s t)
  | fin s _ _, inf t => fin (xor s t) 0 (-1074)
  | fin s m e, fin t k f =>
    if k = 0 then (if m = 0 then nan else inf (xor s t))
    else if e ≤ f then roundQuot (xor s t) m (k * 2 ^ (f - e).toNat)
    else roundQuot (xor s t) (m * 2 ^ (e - f).toNat) k

end Double

/-! ## Engine strings and the UTF-8 codec of the engine -/

/-- A string of the engine, as its sequence of code points (a surrogate pair counts as the one
code point it encodes, an unpaired surrogate as itself). -/
abbrev JsString := List Nat

/-- The byte with value `n mod 256`. -/
def byte (n : Nat) : Byte := ⟨n % 256, Nat.mod_lt _ (by decide)⟩

/-- A UTF-8 continuation byte (`80..BF`). -/
def isCont (b : Byte) : Bool := decide (0x80 ≤ b.val) && decide (b.val ≤ 0xBF)

/-- The lead byte `b0` and the byte `b1` begin a well-formed two-byte sequence. -/
def lead2 (b0 b1 : Byte) : Bool := decide (0xC2 ≤ b0.val) && decide (b0.val ≤ 0xDF) && isCont b1

/-- The bytes `b0 b1` begin a well-formed three-byte sequence (no overlong form, no
surrogate). -/
def lead3 (b0 b1 : Byte) : Bool :=
  (decide (b0.val = 0xE0) && decide (0xA0 ≤ b1.val) && decide (b1.val ≤ 0xBF)) ||
  (decide (0xE1 ≤ b0.val) && decide (b0.val ≤ 0xEC) && isCont b1) ||
  (decide (b0.val = 0xED) && decide (0x80 ≤ b1.val) && decide (b1.val ≤ 0x9F)) ||
  (decide (0xEE ≤ b0.val) && decide (b0.val ≤ 0xEF) && isCont b1)

/-- The bytes `b0 b1` begin a well-formed four-byte sequence (no overlong form, nothing above
`U+10FFFF`). -/
def lead4 (b0 b1 : Byte) : Bool :=
  (decide (b0.val = 0xF0) && decide (0x90 ≤ b1.val) && decide (b1.val ≤ 0xBF)) ||
  (decide (0xF1 ≤ b0.val) && decide (b0.val ≤ 0xF3) && isCont b1) ||
  (decide (b0.val = 0xF4) && decide (0x80 ≤ b1.val) && decide (b1.val ≤ 0x8F))

/-- Helper of `utf8Decode`: decodes at most `fuel` code points. -/
def utf8DecodeAux : Nat → List Byte → JsString
  | 0, _ => []
  | _ + 1, [] => []
  | fuel + 1, b0 :: rest =>
    if b0.val < 0x80 then b0.val :: utf8DecodeAux fuel rest
    else
      match rest with
      | [] => [0xFFFD]
      | b1 :: r1 =>
        if lead2 b0 b1 then ((b0.val - 0xC0) * 64 + (b1.val - 0x80)) :: utf8DecodeAux fuel r1
        else
          match r1 with
          | [] => 0xFFFD :: utf8DecodeAux fuel rest
          | b2 :: r2 =>
            if lead3 b0 b1 && isCont b2 then
              ((b0.val - 0xE0) * 4096 + (b1.val - 0x80) * 64 + (b2.val - 0x80))
                :: utf8DecodeAux fuel r2
            else
              match r2 with
              | [] => 0xFFFD :: utf8DecodeAux fuel rest
              | b3 :: r3 =>
                if lead4 b0 b1 && isCont b2 && isCont b3 then
                  ((b0.val - 0xF0) * 262144 + (b1.val - 0x80) * 4096 + (b2.val - 0x80) * 64
                    + (b3.val - 0x80)) :: utf8DecodeAux fuel r3
                else 0xFFFD :: utf8DecodeAux fuel rest

/-- The decoder behind `v8::String::NewFromUtf8`: well-formed sequences give their code point,
a byte that begins no well-formed sequence gives `U+FFFD`. (How many replacement characters an
ill-formed run gives depends on the engine version; no theorem below depends on it.) -/
def utf8Decode (bs : List Byte) : JsString := utf8DecodeAux bs.length bs

/-- The UTF-8 encoding of one code point as `v8::String::Utf8Value` writes it; an unpaired
surrogate is written as `U+FFFD`. -/
def utf8EncodeChar (c : Nat) : List Byte :=
  if c < 0x80 then [byte c]
  else if c < 0x800 then [byte (0xC0 + c / 64), byte (0x80 + c % 64)]
  else if c < 0x10000 then
    if 0xD800 ≤ c ∧ c ≤ 0xDFFF then [byte 0xEF, byte 0xBF, byte 0xBD]
    else [byte (0xE0 + c / 4096), byte (0x80 + c / 64 % 64), byte (0x80 + c % 64)]
  else if c < 0x110000 then
    [byte (0xF0 + c / 262144), byte (0x80 + c / 4096 % 64), byte (0x80 + c / 64 % 64),
     byte (0x80 + c % 64)]
  else [byte 0xEF, byte 0xBF, byte 0xBD]

/-- The bytes of `v8::String::Utf8Value`. -/
def utf8Encode : JsString → List Byte
  | [] => []
  | c :: cs => utf8EncodeChar c ++ utf8Encode cs

/-- Well-formed UTF-8 (RFC 3629). -/
def validUtf8 : List Byte → Bool
  | [] => true
  | b0 :: rest =>
    if b0.val < 0x80 then validUtf8 rest
    else
      match rest with
      | [] => false
      | b1 :: r1 =>
        if lead2 b0 b1 then validUtf8 r1
        else
          match r1 with
          | [] => false
          | b2 :: r2 =>
            if lead3 b0 b1 && isCont b2 then validUtf8 r2
            else
              match r2 with
              | [] => false
              | b3 :: r3 => if lead4 b0 b1 && isCont b2 && isCont b3 then validUtf8 r3 else false

/-- The code points of a decimal digit string without sign, or nothing. -/
def digitsValue : List Nat → Option Nat
  | [] => none
  | cs => cs.foldl (fun acc c =>
      match acc with
      | none => none
      | some n => if 48 ≤ c ∧ c ≤ 57 then some (n * 10 + (c - 48)) else none) (some 0)

/-- The array index a property name denotes, if it is the canonical decimal form of a number
below `2^32 - 1`: such names address the indexed elements of an engine object. -/
def arrayIndex? (s : JsString) : Option Nat :=
  match s with
  | [] => none
  | [48] => some 0
  | 48 :: _ => none
  | cs =>
    if cs.length ≤ 10 then
      match digitsValue cs with
      | some n => if n < 4294967295 then some n else none
      | none => none
    else none

/-- The name `__proto__`, which the engine's objects inherit as an accessor. -/
def protoName : JsString := [95, 95, 112, 114, 111, 116, 111, 95, 95]

/-! ## Engine values -/

/-- A value of the script engine. An object carries its identity `id`, whether it is callable,
its private-symbol slots (keyed by the identity of the private symbol), its internal fields,
its own indexed elements (ascending) and its own named properties (in creation order, each
name once). Arrays and dates are kept apart from the other objects because the bridge tests
`IsDate` and `IsArray` before `IsObject`. An `external` (the wrapper of a host pointer that
`v8::External::New` makes) is an object without properties of its own. `symbol` stands for the
kinds the bridge does not know. -/
inductive V8Value where
  | undefined
  | null
  | boolean (b : Bool)
  | number (d : Double)
  | string (s : JsString)
  | symbol (id : Nat)
  | external (ptr : Nat)
  | date (t : Double)
  | array (elems : List V8Value)
  | object (id : Nat) (callable : Bool) (privates : List (Nat × V8Value))
      (internalFields : List V8Value) (elements : List (Nat × V8Value))
      (named : List (JsString × V8Value))

/-- A handle (`v8::Local`, `v8::Persistent`): empty or holding a value. -/
abbrev Handle := Option V8Value

namespace V8Value

/-- The test `v8::Value::IsInt32`. -/
def isInt32 : V8Value → Bool
  | number d => d.isInt32
  | _ => false

/-- The test `v8::Value::IsFunction`. -/
def isFunction : V8Value → Bool
  | object _ callable _ _ _ _ => callable
  | _ => false

/-- The test `v8::Value::IsObject`. -/
def isObject : V8Value → Bool
  | object _ _ _ _ _ _ => true
  | array _ => true
  | date _ => true
  | external _ => true
  | _ => false

/-- The number an `Int32` value holds (`v8::Int32::Value`, `v8::Value::IntegerValue` of an
`Int32`). -/
def int32Value : V8Value → Int
  | number d => (d.trunc?).getD 0
  | _ => 0

/-- The identity of an object. -/
def objectId? : V8Value → Option Nat
  | object id _ _ _ _ _ => some id
  | _ => none

end V8Value

/-- The private slot of an object under the private symbol `sym` (`v8::Object::GetPrivate`); a
missing slot reads as `undefined`. -/
def getPrivate : List (Nat × V8Value) → Nat → V8Value
  | [], _ => .undefined
  | (k, v) :: rest, sym => if k = sym then v else getPrivate rest sym

/-- Store of an indexed element, keeping the elements in ascending order of index. -/
def setElement : List (Nat × V8Value) → Nat → V8Value → List (Nat × V8Value)
  | [], i, v => [(i, v)]
  | (j, w) :: rest, i, v =>
    if i < j then (i, v) :: (j, w) :: rest
    else if i = j then (i, v) :: rest
    else (j, w) :: setElement rest i v

/-- Store of a named property: an existing name keeps its place, a new one goes last. -/
def setNamed : List (JsString × V8Value) → JsString → V8Value → List (JsString × V8Value)
  | [], k, v => [(k, v)]
  | (j, w) :: rest, k, v => if j = k then (j, v) :: rest else (j, w) :: setNamed rest k v

/-- The own properties of a plain object (prototype `Object.prototype` of a pristine context)
after `v8::Object::Set(key, value)`: an array-index name stores an element, `__proto__` goes
to the inherited accessor and adds no own property, any other name stores a named property. -/
def objSet (elements : List (Nat × V8Value)) (named : List (JsString × V8Value))
    (key : JsString) (v : V8Value) : List (Nat × V8Value) × List (JsString × V8Value) :=
  match arrayIndex? key with
  | some i => (setElement elements i v, named)
  | none => if key = protoName then (elements, named) else (elements, setNamed named key v)

/-- The conversion of a `long long` to `int32_t`. -/
def wrapInt32 (n : Int) : Int := (n + 2 ^ 31) % 2 ^ 32 - 2 ^ 31

/-- The conversion of a `uint64_t` to the signed 64-bit `time_t`. -/
def wrapInt64 (n : Int) : Int := (n + 2 ^ 63) % 2 ^ 64 - 2 ^ 63

/-- The time value an engine date stores for the requested time `t` (the `TimeClip` of the
language standard): not-a-number beyond `8.64e15` ms, else `t` without its fraction. -/
def timeClip (t : Double) : Double :=
  if t.absLeNat 8640000000000000 then
    match t.trunc? with
    | some i => Double.ofInt i
    | none => Double.nan
  else Double.nan

/-! ## Host values -/

/-- The source's `enum CustomType`. -/
inductive CustomType where
  | CustomType_Invalid
  | CustomType_Global
  | CustomType_Object
  | CustomType_Function
  | CustomType_AdoptedFunction
  | CustomType_ClassObject
  deriving DecidableEq, Repr

open CustomType

/-- The enumerator values of `CustomType`. -/
def CustomType.toInt : CustomType → Int
  | CustomType_Invalid => 0
  | CustomType_Global => 1
  | CustomType_Object => 2
  | CustomType_Function => 3
  | CustomType_AdoptedFunction => 4
  | CustomType_ClassObject => 5

/-- The source's `struct ScriptEngineCustom`: the tag (`Value::Custom::type`), the persistent
handle `object` and the shared pointer `scriptObject` (the address of a
`ScriptEngine::Object`, or null). -/
structure ScriptEngineCustom where
  type : Int
  object : Handle
  scriptObject : Option Nat

/-- Modelled from the spec: the host `Value` (`rct/Value.h`, not among the sources), a tagged
union over Invalid (the default-constructed value), Undefined, Boolean, Integer (`long long`),
Double, String, Date (whole seconds since the epoch), List, Map and Custom. A map is given by
its entries in iteration order, each key once. The Custom payload is the bridge's
`ScriptEngineCustom` (a null pointer is possible). -/
inductive Value where
  | invalid
  | undefined
  | boolean (b : Bool)
  | integer (n : Int)
  | double (d : Double)
  | string (s : HString)
  | date (t : Int)
  | list (l : List Value)
  | map (m : List (HString × Value))
  | custom (c : Option ScriptEngineCustom)

/-- Modelled from the spec: the type tags of `Value` (`Value::Type`). -/
inductive ValueType where
  | Type_Invalid | Type_Undefined | Type_Boolean | Type_Integer | Type_Double | Type_String
  | Type_Date | Type_List | Type_Map | Type_Custom
  deriving DecidableEq, Repr

/-- Modelled from the spec: `Value::type()`. -/
def Value.type : Value → ValueType
  | .invalid => .Type_Invalid
  | .undefined => .Type_Undefined
  | .boolean _ => .Type_Boolean
  | .integer _ => .Type_Integer
  | .double _ => .Type_Double
  | .string _ => .Type_String
  | .date _ => .Type_Date
  | .list _ => .Type_List
  | .map _ => .Type_Map
  | .custom _ => .Type_Custom

/-- Modelled from the spec: `Value::toCustom()`, the Custom payload, null for a value of
another type. -/
def Value.toCustom : Value → Option ScriptEngineCustom
  | .custom c => c
  | _ => none

/-- Modelled from the spec: assignment to an entry of a host map (`Map::operator[]` followed
by `=`): an existing key keeps its place, a new one is added. -/
def mapInsert : List (HString × Value) → HString → Value → List (HString × Value)
  | [], k, v => [(k, v)]
  | (j, w) :: rest, k, v => if j = k then (j, v) :: rest else (j, w) :: mapInsert rest k v

/-- Modelled from the spec: `value[key] = x` on a host `Value` (`Value::operator[]`): a value
that is not yet a map (in `fromV8` the default-constructed `result`) becomes a map first. -/
def Value.setKey : Value → HString → Value → Value
  | .map m, k, x => .map (mapInsert m k x)
  | _, k, x => .map [(k, x)]

/-- Modelled from the spec: lookup in a host map. -/
def mapFind : List (HString × Value) → HString → Option Value
  | [], _ => none
  | (j, w) :: rest, k => if j = k then some w else mapFind rest k

/-! ## The host side of the bridge -/

/-- The ways an operation can end without a result. -/
inductive Fault where
  /-- A failed `assert`. -/
  | assertion
  /-- An empty handle used where the engine needs a value. -/
  | emptyHandle
  /-- An internal field read beyond the object's internal field count. -/
  | outOfBounds
  /-- Behaviour the language leaves undefined (a floating-point number converted to an
  integer type that cannot hold it, signed overflow, a null or dangling pointer). -/
  | undefinedBehaviour
  /-- A C++ exception nothing catches (`std::bad_function_call` from an empty
  `std::function`). -/
  | exception
  /-- A call of `abort()`. -/
  | abort
  deriving DecidableEq, Repr

/-- One invocation of a handler of the host: a function handler with its Object and
arguments, a constructor with its arguments, a property interceptor with its Object, the
property name and, for a store, the value, a static function of a class with its name and
arguments, the deleter interceptor with the property name, the getter or the setter of a
registered property with its Object and name, and a listener of the destroyed signal of an
Object. -/
inductive HostCall where
  | function (object : Nat) (arguments : List Value)
  | constructor (arguments : List Value)
  | interceptGet (object : Nat) (name : HString)
  | interceptSet (object : Nat) (name : HString) (value : Value)
  | staticFunction (name : HString) (arguments : List Value)
  | interceptDelete (name : HString)
  | propertyGet (object : Nat) (name : HString)
  | propertySet (object : Nat) (name : HString) (value : Value)
  | destroyed (object : Nat)

/-- The source's `struct ObjectData`; the two weak pointers are the addresses of the
`ScriptEngine::Object`s they observe. -/
structure ObjectData where
  name : HString
  weak : Option Nat
  parent : Option Nat

/-- The source's `ObjectPrivate::InitMode`. -/
inductive InitMode where
  | Weak
  | Persistent
  deriving DecidableEq, Repr

/-- The source's `ObjectPrivate::PropertyData` and `ClassPrivate::PropertyData`: the getter
and the setter of a property; an empty `std::function` is `none`. -/
structure PropertyData where
  getter : Option (Nat → Value)
  setter : Option (Nat → Value → Unit)

/-- The source's `class ObjectPrivate` (one per `ScriptEngine::Object`): the kind, the
persistent handle and whether it was made weak, the children by name, the registered handler,
whether the thunk `nativeFunc` is set, and the registered properties by name. -/
structure ObjectPrivate where
  customType : CustomType
  object : Handle
  mode : Option InitMode
  children : List (HString × Nat)
  func : Option (Nat → List Value → Value)
  nativeFunc : Bool
  properties : List (HString × PropertyData)

/-- The state of a freshly constructed `ObjectPrivate` (`makeObject`). -/
def ObjectPrivate.fresh : ObjectPrivate :=
  ⟨CustomType_Invalid, none, none, [], none, false, []⟩

/-- The source's `ObjectPrivate::init`: sets the kind and the handle; the handle is made weak
unless the mode is `Persistent`. -/
def ObjectPrivate.init (p : ObjectPrivate) (type : CustomType) (o : V8Value)
    (mode : InitMode) : ObjectPrivate :=
  { p with customType := type, object := some o, mode := some mode }

/-- The state the bridge works on: the live `ScriptEngine::Object`s and `ObjectData` blocks by
address, the data object of each function made with `v8::Function::New`, the counters for new
addresses, object identities and private symbols, the address of the global Object, the
lines written to the error log and the invocations of handlers of the host, in order. -/
structure Engine where
  objects : List (Nat × ObjectPrivate)
  datas : List (Nat × ObjectData)
  functionData : List (Nat × V8Value)
  nextObject : Nat
  nextData : Nat
  nextId : Nat
  nextSym : Nat
  globalObject : Nat
  errorLog : List String
  hostCalls : List HostCall

/-- The `ObjectPrivate` of the Object at address `o`. -/
def Engine.priv (st : Engine) (o : Nat) : Option ObjectPrivate := st.objects.lookup o

/-- Replaces the `ObjectPrivate` of the Object at address `o`. -/
def setPriv : List (Nat × ObjectPrivate) → Nat → ObjectPrivate → List (Nat × ObjectPrivate)
  | [], _, _ => []
  | (a, q) :: rest, o, p => if a = o then (a, p) :: rest else (a, q) :: setPriv rest o p

/-- The result of `weak.lock()`: the Object, if it is still alive. -/
def Engine.lock (st : Engine) (w : Option Nat) : Option Nat :=
  match w with
  | some o => if (st.objects.lookup o).isSome then some o else none
  | none => none

/-- Equality of a persistent handle and a local one, as `v8::Persistent::operator==` decides
it: both empty, or both holding the same object. -/
def handleEq (a : Handle) (b : Handle) : Bool :=
  match a, b with
  | none, none => true
  | some x, some y =>
    (match x.objectId?, y.objectId? with
     | some i, some j => decide (i = j)
     | _, _ => false)
  | _, _ => false

/-- The source's `toString(isolate, value)`: the UTF-8 bytes of an engine string, read back
through `String(const char *)`; the empty string for any other value. -/
def toString : V8Value → HString
  | .string s => cstr (utf8Encode s)
  | _ => []

/-- The source's `objectFromV8Object`: the global Object if `holder` is the global object,
else the Object the `ObjectData` in internal field 0 points to, if it is alive. -/
def objectFromV8Object (holder : V8Value) (st : Engine) : Except Fault (Option Nat) :=
  match st.priv st.globalObject with
  | none => .error .undefinedBehaviour
  | some gp =>
    if handleEq gp.object (some holder) then .ok (some st.globalObject)
    else
      match holder with
      | .object _ _ _ (f0 :: _) _ _ =>
        (match f0 with
         | .external ptr =>
           (match st.datas.lookup ptr with
            | some d => .ok (st.lock d.weak)
            | none => .error .undefinedBehaviour)
         | _ => .ok none)
      | _ => .error .outOfBounds

/-- The source's `adoptFunction`: a new Object of kind `CustomType_AdoptedFunction` whose
handle is `func` (weak) and whose thunk `nativeFunc` is set. -/
def adoptFunction (func : V8Value) (st : Engine) : Nat × Engine :=
  let o := st.nextObject
  let p : ObjectPrivate :=
    { ObjectPrivate.init ObjectPrivate.fresh CustomType_AdoptedFunction func InitMode.Weak with
      nativeFunc := true }
  (o, { st with objects := st.objects ++ [(o, p)], nextObject := o + 1 })

mutual

/-- The source's `toV8_helper`. The result is a handle, empty for a value of type Invalid (the
`default:` branch). -/
def toV8_helper : Value → Engine → Except Fault (Handle × Engine)
  | .string s, st => .ok (some (.string (utf8Decode (cstr s))), st)
  | .list l, st =>
    match toV8_list l st with
    | .ok (elems, st1) => .ok (some (.array elems), st1)
    | .error f => .error f
  | .map m, st =>
    match toV8_map m [] [] { st with nextId := st.nextId + 1 } with
    | .ok ((elements, named), st1) => .ok (some (.object st.nextId false [] [] elements named), st1)
    | .error f => .error f
  | .custom c, st =>
    match c with
    | none => .ok (some .undefined, st)
    | some cu =>
      (match cu.object with
       | none => .ok (some .undefined, st)
       | some o => .ok (some o, st))
  | .integer n, st => .ok (some (.number (Double.ofInt (wrapInt32 n))), st)
  | .double d, st => .ok (some (.number d), st)
  | .boolean b, st => .ok (some (.boolean b), st)
  | .undefined, st => .ok (some .undefined, st)
  | .date t, st =>
    if -(2 : Int) ^ 63 ≤ t * 1000 ∧ t * 1000 < (2 : Int) ^ 63 then
      .ok (some (.date (timeClip (Double.ofInt (t * 1000)))), st)
    else .error .undefinedBehaviour
  | .invalid, st => .ok (none, st)

/-- The loop of `toV8_helper` over a list: `array->Set(i, toV8_helper(*it))` for each element
in order. Storing an empty handle is a fault. -/
def toV8_list : List Value → Engine → Except Fault (List V8Value × Engine)
  | [], st => .ok ([], st)
  | v :: vs, st =>
    match toV8_helper v st with
    | .ok (some x, st1) =>
      (match toV8_list vs st1 with
       | .ok (xs, st2) => .ok (x :: xs, st2)
       | .error f => .error f)
    | .ok (none, _) => .error .emptyHandle
    | .error f => .error f

/-- The loop of `toV8_helper` over a map: `object->Set(NewFromUtf8(key.constData()),
toV8_helper(value))` for each entry in order. Storing an empty handle is a fault. -/
def toV8_map : List (HString × Value) → List (Nat × V8Value) → List (JsString × V8Value) →
    Engine → Except Fault ((List (Nat × V8Value) × List (JsString × V8Value)) × Engine)
  | [], elements, named, st => .ok ((elements, named), st)
  | (k, v) :: rest, elements, named, st =>
    match toV8_helper v st with
    | .ok (some x, st1) =>
      toV8_map rest (objSet elements named (utf8Decode (cstr k)) x).1
        (objSet elements named (utf8Decode (cstr k)) x).2 st1
    | .ok (none, _) => .error .emptyHandle
    | .error f => .error f

end

/-- The source's `toV8`: `toV8_helper` inside an escapable handle scope. -/
def toV8 (value : Value) (st : Engine) : Except Fault (Handle × Engine) :=
  toV8_helper value st

/-- The conversion `Date(static_cast<uint64_t>(ms / 1000))` of `fromV8`: the quotient as a
double, its conversion to `uint64_t` (undefined when the truncated quotient is not in the
range of `uint64_t`, in particular for not-a-number), then to the `time_t` of `Date`. -/
def dateSeconds (ms : Double) : Except Fault Int :=
  match (Double.div ms (Double.ofInt 1000)).trunc? with
  | none => .error .undefinedBehaviour
  | some i =>
    if 0 ≤ i ∧ i < (2 : Int) ^ 64 then .ok (wrapInt64 i) else .error .undefinedBehaviour

mutual

/-- The source's `fromV8`. For an object, `v8::Private::New` makes a private symbol (a new
one at every call, `rct` being only its description) and the object's slot under it is read;
an `Int32` there gives a Custom with that tag, a function is adopted, and any other object is
read as a map of its own enumerable properties (none for an `external`). -/
def fromV8 : V8Value → Engine → Except Fault (Value × Engine)
  | .string s, st => .ok (.string (toString (.string s)), st)
  | .date t, st =>
    match dateSeconds t with
    | .ok secs => .ok (.date secs, st)
    | .error f => .error f
  | .array elems, st =>
    match fromV8_list elems st with
    | .ok (l, st1) => .ok (.list l, st1)
    | .error f => .error f
  | .object id callable privates internalFields elements named, st =>
    if (getPrivate privates st.nextSym).isInt32 then
      match objectFromV8Object (.object id callable privates internalFields elements named)
          { st with nextSym := st.nextSym + 1 } with
      | .ok (some o) =>
        .ok (.custom (some ⟨(getPrivate privates st.nextSym).int32Value,
              some (.object id callable privates internalFields elements named), some o⟩),
            { st with nextSym := st.nextSym + 1 })
      | .ok none => .error .assertion
      | .error f => .error f
    else if callable then
      .ok (.custom (some ⟨CustomType_AdoptedFunction.toInt,
              some (.object id callable privates internalFields elements named),
              some (adoptFunction (.object id callable privates internalFields elements named)
                { st with nextSym := st.nextSym + 1 }).1⟩),
           (adoptFunction (.object id callable privates internalFields elements named)
                { st with nextSym := st.nextSym + 1 }).2)
    else
      match fromV8_elements elements .invalid { st with nextSym := st.nextSym + 1 } with
      | .ok (acc, st1) => fromV8_named named acc st1
      | .error f => .error f
  | .number d, st =>
    if d.isInt32 then .ok (.integer (V8Value.number d).int32Value, st) else .ok (.double d, st)
  | .boolean b, st => .ok (.boolean b, st)
  | .undefined, st => .ok (.undefined, st)
  | .null, st => .ok (.invalid, st)
  | .symbol _, st => .ok (.invalid, { st with errorLog := st.errorLog ++ ["Unknown value type in fromV8"] })
  | .external _, st => .ok (.invalid, { st with nextSym := st.nextSym + 1 })

/-- The loop of `fromV8` over an array: `result[i] = fromV8(array->Get(i))`. -/
def fromV8_list : List V8Value → Engine → Except Fault (List Value × Engine)
  | [], st => .ok ([], st)
  | v :: vs, st =>
    match fromV8 v st with
    | .ok (x, st1) =>
      (match fromV8_list vs st1 with
       | .ok (xs, st2) => .ok (x :: xs, st2)
       | .error f => .error f)
    | .error f => .error f

/-- The loop of `fromV8` over the own property names of an object, part one: the indexed
elements. `GetOwnPropertyNames` lists an index as a number, for which `toString` gives the
empty string. -/
def fromV8_elements : List (Nat × V8Value) → Value → Engine → Except Fault (Value × Engine)
  | [], acc, st => .ok (acc, st)
  | (i, v) :: rest, acc, st =>
    match fromV8 v st with
    | .ok (x, st1) => fromV8_elements rest (acc.setKey (toString (.number (Double.ofInt i))) x) st1
    | .error f => .error f

/-- The loop of `fromV8` over the own property names of an object, part two: the named
properties, `result[toString(key)] = fromV8(object->Get(key))`. -/
def fromV8_named : List (JsString × V8Value) → Value → Engine → Except Fault (Value × Engine)
  | [], acc, st => .ok (acc, st)
  | (k, v) :: rest, acc, st =>
    match fromV8 v st with
    | .ok (x, st1) => fromV8_named rest (acc.setKey (toString (.string k)) x) st1
    | .error f => .error f

end

/-! ## Objects of the host -/

/-- The engine object `obj` after `obj->Set(key, v)`. -/
def V8Value.set : V8Value → JsString → V8Value → V8Value
  | .object id callable privates internalFields elements named, key, v =>
    .object id callable privates internalFields (objSet elements named key v).1
      (objSet elements named key v).2
  | x, _, _ => x

/-- Assignment `children[name] = o` in the children table of an Object. -/
def childrenSet : List (HString × Nat) → HString → Nat → List (HString × Nat)
  | [], k, o => [(k, o)]
  | (j, q) :: rest, k, o => if j = k then (j, o) :: rest else (j, q) :: childrenSet rest k o

/-- The engine object `createObject` makes for the new Object: for a function, a function made
by `v8::Function::New` (no private slot, no internal field; its `ObjectData` is in the
internal field of its data object); otherwise an object with one internal field holding the
`ObjectData` and the kind in the slot of a newly made private symbol named `rct`. -/
def createObject.subobj (type : CustomType) (st : Engine) : V8Value :=
  if type = CustomType_Function then .object (st.nextId + 1) true [] [] [] []
  else .object st.nextId false [(st.nextSym, .number (Double.ofInt type.toInt))]
    [.external st.nextData] [] []

/-- The source's `createObject(parent, type, name)`: a new Object with its `ObjectData`, its
engine object stored under `name` in the engine object of the parent, the new Object entered
in the parent's `children` and initialised with the kind `type` (weak handle). Engine values
being finite trees, the store is made in the handle of the parent Object; a copy of the
parent's engine object that another engine value holds is not updated. -/
def createObject (parent : Nat) (type : CustomType) (name : HString) (st : Engine) :
    Except Fault (Nat × Engine) :=
  if type ≠ CustomType_Object ∧ type ≠ CustomType_Function then .error .assertion
  else
    match st.priv parent with
    | none => .error .undefinedBehaviour
    | some pp =>
      match pp.object with
      | none => .error .emptyHandle
      | some obj =>
        .ok (st.nextObject,
          { st with
            objects :=
              setPriv st.objects parent
                { pp with
                  object := some (obj.set (utf8Decode (cstr name)) (createObject.subobj type st)),
                  children := childrenSet pp.children name st.nextObject }
              ++ [(st.nextObject,
                    ObjectPrivate.init ObjectPrivate.fresh type (createObject.subobj type st)
                      InitMode.Weak)],
            datas := st.datas ++ [(st.nextData, ⟨name, some st.nextObject, some parent⟩)],
            functionData :=
              if type = CustomType_Function then
                st.functionData ++
                  [(st.nextId + 1, .object st.nextId false [] [.external st.nextData] [] [])]
              else st.functionData,
            nextObject := st.nextObject + 1,
            nextData := st.nextData + 1,
            nextId := if type = CustomType_Function then st.nextId + 2 else st.nextId + 1,
            nextSym := if type = CustomType_Function then st.nextSym else st.nextSym + 1 })

/-- The source's `ScriptEngine::Object::registerFunction` on the Object at address `self`. -/
def ScriptEngine.Object.registerFunction (self : Nat) (name : HString)
    (func : Nat → List Value → Value) (st : Engine) : Except Fault (Nat × Engine) :=
  match createObject self CustomType_Function name st with
  | .error f => .error f
  | .ok (obj, st1) =>
    match st1.priv obj with
    | none => .error .assertion
    | some p => .ok (obj, { st1 with objects := setPriv st1.objects obj { p with func := some func } })

/-- The source's `ScriptEngine::Object::child` on the Object at address `self`. -/
def ScriptEngine.Object.child (self : Nat) (name : HString) (st : Engine) :
    Except Fault (Nat × Engine) :=
  match st.priv self with
  | none => .error .undefinedBehaviour
  | some p =>
    match p.children.lookup name with
    | some ch => .ok (ch, st)
    | none => createObject self CustomType_Object name st

/-- The source's `ScriptEngine::Object::isFunction`. -/
def ScriptEngine.Object.isFunction (p : ObjectPrivate) : Bool :=
  decide (p.customType = CustomType_Function) || decide (p.customType = CustomType_AdoptedFunction)

/-- The name `global`. -/
def globalName : JsString := [103, 108, 111, 98, 97, 108]

/-- The state after the constructor `ScriptEngine::ScriptEngine()`: the global object of the
context (identity 0) carries the kind `CustomType_Global` in the slot of a newly made private
symbol and a property `global` holding the global object itself (engine values being finite
trees, the self-reference is unfolded once), and the global Object (address 0) is initialised
with it. -/
def ScriptEngine.new : Engine :=
  { objects :=
      [(0, ObjectPrivate.init ObjectPrivate.fresh CustomType_Global
            (.object 0 false [(0, .number (Double.ofInt CustomType_Global.toInt))] [] []
              [(globalName,
                .object 0 false [(0, .number (Double.ofInt CustomType_Global.toInt))] [] [] [])])
            InitMode.Weak)],
    datas := [],
    functionData := [],
    nextObject := 1,
    nextData := 0,
    nextId := 1,
    nextSym := 1,
    globalObject := 0,
    errorLog := [],
    hostCalls := [] }

/-- The source's `ScriptEngine::fromObject`: a Custom value with the Object's kind as tag, a
persistent handle to its engine object and the Object itself; the default-constructed value
(and a line in the error log) if the Object's handle is empty. -/
def ScriptEngine.fromObject (object : Nat) (st : Engine) : Except Fault (Value × Engine) :=
  match st.priv object with
  | none => .error .undefinedBehaviour
  | some p =>
    match p.object with
    | none =>
      .ok (.invalid, { st with errorLog := st.errorLog ++ ["unable to lock persistent for fromObject"] })
    | some obj => .ok (.custom (some ⟨p.customType.toInt, some obj, some object⟩), st)

/-- The source's `ScriptEngine::toObject`: the Object a Custom value wraps; null for a value
that is not Custom, or whose Custom is null or has an empty handle. -/
def ScriptEngine.toObject (value : Value) : Option Nat :=
  match value.toCustom with
  | none => none
  | some custom => if custom.object.isNone then none else custom.scriptObject

/-! ## The round trip -/

/-- The composition `fromV8(toV8(value))`; `fromV8` dereferences its argument, so an empty
handle is a fault. -/
def roundTrip (value : Value) (st : Engine) : Except Fault (Value × Engine) :=
  match toV8 value st with
  | .ok (some x, st1) => fromV8 x st1
  | .ok (none, _) => .error .emptyHandle
  | .error f => .error f

/-- The value `v` round-trips: in every state `toV8` gives a non-empty engine value, from which
`fromV8` gives `v` back in every state. -/
def RoundTrips (v : Value) : Prop :=
  ∀ st, ∃ x st1, toV8 v st = .ok (some x, st1) ∧ ∀ st2, ∃ st3, fromV8 x st2 = .ok (v, st3)

/-- A host string that names the same property on both sides: well-formed UTF-8 without a
zero byte. -/
def cleanString (s : HString) : Bool := validUtf8 s && s.all (fun b => decide (b.val ≠ 0))

/-- A key of a host map that becomes an own named property of the engine object and is read
back unchanged: a clean string that is neither an array index nor `__proto__`. -/
def plainKey (k : HString) : Bool :=
  cleanString k && (arrayIndex? (utf8Decode k)).isNone && decide (utf8Decode k ≠ protoName)

/-- The entries `js` of an engine object are the entries `m` of a host map: same keys, and
each value reads back as the value of the map. -/
def EntriesMatch (js : List (JsString × V8Value)) (m : List (HString × Value)) : Prop :=
  List.Forall₂ (fun j e => j.1 = utf8Decode e.1 ∧ ∀ st2, ∃ st3, fromV8 j.2 st2 = .ok (e.2, st3))
    js m

/-- The composition `toObject(fromV8(toV8(fromObject(object))))`. -/
def objectRoundTrip (object : Nat) (st : Engine) : Except Fault (Option Nat × Engine) :=
  match ScriptEngine.fromObject object st with
  | .error f => .error f
  | .ok (v, st1) =>
    match roundTrip v st1 with
    | .error f => .error f
    | .ok (w, st2) => .ok (ScriptEngine.toObject w, st2)

mutual

/-- The host values `toV8` turns into an engine value: no value of type Invalid at any depth,
and no date whose number of milliseconds leaves the range of `long long`. -/
def Value.convertible : Value → Bool
  | .invalid => false
  | .list l => convertibleList l
  | .map m => convertibleMap m
  | .date t => decide (-(2 : Int) ^ 63 ≤ t * 1000 ∧ t * 1000 < (2 : Int) ^ 63)
  | _ => true

/-- Every element is convertible. -/
def convertibleList : List Value → Bool
  | [] => true
  | v :: vs => v.convertible && convertibleList vs

/-- Every value of an entry is convertible. -/
def convertibleMap : List (HString × Value) → Bool
  | [] => true
  | (_, v) :: rest => v.convertible && convertibleMap rest

end

/-- Whether the conversion `dateSeconds` has a result. -/
def dateReadable (t : Double) : Bool :=
  match dateSeconds t with
  | .ok _ => true
  | .error _ => false

mutual

/-- The engine values `fromV8` reads without fault when no private symbol older than `n` is
made any more: every private slot of an object is keyed by a symbol below `n`, and every date
that is visited holds a time `dateSeconds` can convert. The properties of a callable object
are not visited. -/
def V8Value.readable (n : Nat) : V8Value → Bool
  | .date t => dateReadable t
  | .array elems => readableList n elems
  | .object _ callable privates _ elements named =>
    privates.all (fun p => decide (p.1 < n)) &&
      (callable || (readableElements n elements && readableNamed n named))
  | _ => true

/-- Every element is readable. -/
def readableList (n : Nat) : List V8Value → Bool
  | [] => true
  | v :: vs => v.readable n && readableList n vs

/-- Every indexed element is readable. -/
def readableElements (n : Nat) : List (Nat × V8Value) → Bool
  | [] => true
  | (_, v) :: rest => v.readable n && readableElements n rest

/-- Every named property is readable. -/
def readableNamed (n : Nat) : List (JsString × V8Value) → Bool
  | [] => true
  | (_, v) :: rest => v.readable n && readableNamed n rest

end

/-! ## Calls into the engine -/

/-- The bytes of a string literal of the source (ASCII). -/
def ascii (s : String) : HString := s.toList.map (fun c => byte c.toNat)

/-- Modelled from the spec: `String::split(char)` (`rct/String.h`, not among the sources), the
segments between the occurrences of the separator. -/
def split (delim : Byte) : HString → List HString
  | [] => [[]]
  | b :: bs =>
    if b = delim then [] :: split delim bs
    else
      match split delim bs with
      | s :: ss => (b :: s) :: ss
      | [] => [[b]]

/-- The indexed element of an object under the index `i`; `undefined` if there is none. -/
def lookupElement : List (Nat × V8Value) → Nat → V8Value
  | [], _ => .undefined
  | (j, v) :: rest, i => if j = i then v else lookupElement rest i

/-- The named property of an object under the name `k`; `undefined` if there is none. -/
def lookupNamed : List (JsString × V8Value) → JsString → V8Value
  | [], _ => .undefined
  | (j, v) :: rest, k => if j = k then v else lookupNamed rest k

/-- The name `length`. -/
def lengthName : JsString := [108, 101, 110, 103, 116, 104]

/-- The value `obj->Get(key)` reads: the own property of that name, `undefined` if there is
none. (Properties inherited from the standard prototypes and accessors are outside the
model.) -/
def V8Value.get : V8Value → JsString → V8Value
  | .object _ _ _ _ elements named, key =>
    (match arrayIndex? key with
     | some i => lookupElement elements i
     | none => lookupNamed named key)
  | .array elems, key =>
    (match arrayIndex? key with
     | some i => elems.getD i .undefined
     | none => if key = lengthName then .number (Double.ofInt elems.length) else .undefined)
  | _, _ => .undefined

/-- The global object of the context (`ctx->Global()`), which the global Object holds. -/
def Engine.global (st : Engine) : Handle :=
  match st.priv st.globalObject with
  | some p => p.object
  | none => none

/-- The `v8::Message` of a caught exception, as far as `catchError` reads it. -/
structure Message where
  text : JsString
  scriptResourceName : JsString
  lineNumber : Int
  startColumn : Int
  startPosition : Int
  endPosition : Int

/-- How a run of engine code ends: with a result, or with an exception, which leaves the
`v8::MaybeLocal` empty and is caught by the enclosing `v8::TryCatch`. -/
inductive Outcome (α : Type) where
  | returned (result : α)
  | threw (message : Message)

/-- The `v8::MaybeLocal` of an outcome. -/
def Outcome.maybe {α : Type} : Outcome α → Option α
  | .returned r => some r
  | .threw _ => none

/-- What the enclosing `v8::TryCatch` has caught after an outcome. -/
def Outcome.caught {α : Type} : Outcome α → Option Message
  | .returned _ => none
  | .threw m => some m

/-- The method `ToLocalChecked` of `v8::MaybeLocal`: the engine ends the process when the
`MaybeLocal` is empty. -/
def toLocalChecked {α : Type} : Option α → Except Fault α
  | some x => .ok x
  | none => .error .emptyHandle

/-- A compiled script (`v8::Script`): its source and the name of its origin. -/
structure Script where
  source : JsString
  origin : JsString

/-- The behaviour of the engine that the bridge relies on but does not determine: what calling
a function with a receiver and arguments does (`v8::Function::Call`), what compiling a source
under an origin does (`v8::Script::Compile`) and what running a script does
(`v8::Script::Run`). -/
structure Runtime where
  call : V8Value → V8Value → List Handle → Engine → Except Fault (Outcome V8Value × Engine)
  compile : JsString → JsString → Engine → Except Fault (Outcome Script × Engine)
  run : Script → Engine → Except Fault (Outcome V8Value × Engine)

/-- Helper of `decimal`: the decimal digits of `n`, at most `fuel` of them. -/
def natDigits : Nat → Nat → HString
  | 0, _ => []
  | fuel + 1, n => if n < 10 then [byte (48 + n)] else natDigits fuel (n / 10) ++ [byte (48 + n % 10)]

/-- The text `%d` prints for an integer. -/
def decimal (i : Int) : HString :=
  if i < 0 then byte 45 :: natDigits (i.natAbs + 1) i.natAbs else natDigits (i.natAbs + 1) i.natAbs

/-- Modelled from the spec: the text `String::format<128>("%s:%d:%d: %s: %s {%d-%d}", ...)`
gives for the message of `catchError` (`rct/String.h` is not among the sources; the
conversions are those of `printf`, and `%s` ends at a zero byte). -/
def formatError (message : Message) (header : HString) : HString :=
  cstr (utf8Encode message.scriptResourceName) ++ ascii ":" ++ decimal message.lineNumber ++
    ascii ":" ++ decimal message.startColumn ++ ascii ": " ++ cstr header ++ ascii ": " ++
    cstr (utf8Encode message.text) ++ ascii " \x7b" ++ decimal message.startPosition ++ ascii "-" ++
    decimal message.endPosition ++ ascii "\x7d"

/-- The source's `catchError`: whether the `v8::TryCatch` has caught an exception, and the
text written to `*error` in that case if the caller passed an error string (`error`). -/
def catchError (tryCatch : Option Message) (header : HString) (error : Bool) :
    Bool × Option HString :=
  match tryCatch with
  | none => (false, none)
  | some message => (true, if error then some (formatError message header) else none)

/-- The loop of the source's `findFunction` over the segments: `val` is the value reached so
far and `that` the object it was read from. -/
def findFunction.loop : List HString → Handle → Handle → Handle × Handle
  | [], val, that => (val, that)
  | f :: rest, val, that =>
    match val with
    | none => (none, that)
    | some v =>
      if v.isObject then findFunction.loop rest (some (v.get (utf8Decode (cstr f)))) (some v)
      else (none, that)

/-- The source's `findFunction`: the value the dotted name leads to from the global object
(the empty handle when a value on the way is not an object) and the object it was read from
(`*that`). -/
def findFunction (st : Engine) (function : HString) : Handle × Handle :=
  findFunction.loop (split (byte 46) function) st.global none

/-- The value a path of segments leads to from `root`, in the words of the spec: each segment
names a property of the object reached so far; nothing when a value on the way is not an
object. -/
def resolve (root : V8Value) : List HString → Option V8Value
  | [] => some root
  | s :: rest => if root.isObject then resolve (root.get (utf8Decode (cstr s))) rest else none

/-- The dotted name of a path of segments. -/
def dotted : List HString → HString
  | [] => []
  | [s] => s
  | s :: rest => s ++ byte 46 :: dotted rest

/-- The loop `v8args.append(toV8(ctx, iso, *arg))` over the arguments of a call. -/
def toV8_args : List Value → Engine → Except Fault (List Handle × Engine)
  | [], st => .ok ([], st)
  | v :: vs, st =>
    match toV8 v st with
    | .error f => .error f
    | .ok (h, st1) =>
      match toV8_args vs st1 with
      | .error f => .error f
      | .ok (hs, st2) => .ok (h :: hs, st2)

/-- The result of an operation with an error string: the returned `Value` and the text
written to `*error`, if any. -/
abbrev Reply := Value × Option HString

/-- The tail shared by the calls into the engine: `func->Call(ctx, that, sz,
v8args.data()).ToLocalChecked()`, then `catchError` with the header `Call error`, then
`fromV8` of the result. -/
def callAndConvert (rt : Runtime) (func that : V8Value) (v8args : List Handle) (error : Bool)
    (st : Engine) : Except Fault (Reply × Engine) :=
  match rt.call func that v8args st with
  | .error f => .error f
  | .ok (outcome, st1) =>
    match toLocalChecked outcome.maybe with
    | .error f => .error f
    | .ok val =>
      if (catchError outcome.caught (ascii "Call error") error).1 then
        .ok ((.invalid, (catchError outcome.caught (ascii "Call error") error).2), st1)
      else
        match fromV8 val st1 with
        | .error f => .error f
        | .ok (v, st2) => .ok ((v, none), st2)

/-- The source's `ScriptEngine::call(function, arguments, error)`. -/
def ScriptEngine.call (rt : Runtime) (function : HString) (arguments : List Value)
    (error : Bool) (st : Engine) : Except Fault (Reply × Engine) :=
  match (findFunction st function).1 with
  | none => .ok ((.invalid, none), st)
  | some val =>
    if val.isFunction then
      match (findFunction st function).2 with
      | none => .error .assertion
      | some that =>
        if that.isObject then
          match toV8_args arguments st with
          | .error f => .error f
          | .ok (v8args, st1) => callAndConvert rt val that v8args error st1
        else .error .assertion
    else .ok ((.invalid, none), st)

/-- The source's `ScriptEngine::call(function, error)`, the overload without arguments. -/
def ScriptEngine.callNoArguments (rt : Runtime) (function : HString) (error : Bool)
    (st : Engine) : Except Fault (Reply × Engine) :=
  match (findFunction st function).1 with
  | none => .ok ((.invalid, none), st)
  | some val =>
    if val.isFunction then
      match (findFunction st function).2 with
      | none => .error .assertion
      | some that =>
        if that.isObject then callAndConvert rt val that [] error st
        else .error .assertion
    else .ok ((.invalid, none), st)

/-- The source's `ScriptEngine::evaluate(source, path, error)`. The source text is handed to
the engine with its length, the path as a `const char *`. -/
def ScriptEngine.evaluate (rt : Runtime) (source path : HString) (error : Bool) (st : Engine) :
    Except Fault (Reply × Engine) :=
  match rt.compile (utf8Decode source) (utf8Decode (cstr path)) st with
  | .error f => .error f
  | .ok (compiled, st1) =>
    match toLocalChecked compiled.maybe with
    | .error f => .error f
    | .ok script =>
      if (catchError compiled.caught (ascii "Compile error") error).1 then
        .ok ((.invalid, (catchError compiled.caught (ascii "Compile error") error).2), st1)
      else
        match rt.run script st1 with
        | .error f => .error f
        | .ok (ran, st2) =>
          match toLocalChecked ran.maybe with
          | .error f => .error f
          | .ok val =>
            if (catchError ran.caught (ascii "Evaluate error") error).1 then
              .ok ((.invalid, (catchError ran.caught (ascii "Evaluate error") error).2), st2)
            else
              match fromV8 val st2 with
              | .error f => .error f
              | .ok (v, st3) => .ok ((v, none), st3)

/-- The source's `ScriptEngine::Object::call(arguments, thisObject, error)` on the Object at
address `self`. The parameter `thisObject` is not named in the source and not used. -/
def ScriptEngine.Object.call (rt : Runtime) (self : Nat) (arguments : List Value)
    (_thisObject : Option Nat) (error : Bool) (st : Engine) : Except Fault (Reply × Engine) :=
  match st.priv self with
  | none => .error .undefinedBehaviour
  | some p =>
    if p.customType ≠ CustomType_Function ∧ p.customType ≠ CustomType_AdoptedFunction then
      .error .assertion
    else if p.customType = CustomType_Function then
      match p.func with
      | none => .error .exception
      | some func =>
        .ok ((func self arguments, none),
          { st with hostCalls := st.hostCalls ++ [.function self arguments] })
    else
      match p.object with
      | none => .ok ((.invalid, if error then some (ascii "Can\x27t find object for call") else none), st)
      | some obj =>
        if obj.isFunction then
          match toV8_args arguments st with
          | .error f => .error f
          | .ok (v8args, st1) => callAndConvert rt obj obj v8args error st1
        else .error .assertion

/-- The thunk `nativeFunc` that the source's `adoptFunction` stores in the new Object (whose
address the thunk holds as `weak`): the call of the adopted function with the receiver `that`,
or with the function itself when `that` is empty; an exception is thrown again. -/
def adoptFunction.nativeFunc (rt : Runtime) (weak : Nat) (that : Handle)
    (arguments : List Value) (st : Engine) : Except Fault (Value × Engine) :=
  match st.lock (some weak) with
  | none => .ok (.invalid, st)
  | some obj =>
    match st.priv obj with
    | none => .error .assertion
    | some objectPriv =>
      match objectPriv.object with
      | none => .ok (.invalid, st)
      | some v8Obj =>
        if v8Obj.isFunction then
          match toV8_args arguments st with
          | .error f => .error f
          | .ok (v8args, st1) =>
            match rt.call v8Obj (that.getD v8Obj) v8args st1 with
            | .error f => .error f
            | .ok (outcome, st2) =>
              match toLocalChecked outcome.maybe with
              | .error f => .error f
              | .ok retVal =>
                if outcome.caught.isSome then .ok (.invalid, st2) else fromV8 retVal st2
        else .ok (.invalid, st)

/-! ## Classes -/

/-- The source's `ClassPrivate::FunctionData`: the handler and the data object of the
function template made for it. -/
structure FunctionData where
  function : Nat → List Value → Value
  templ : Handle

/-- The five interceptor slots of the source's `ClassPrivate` (`intercept`); an empty
`std::function` is `none`. -/
structure Intercept where
  getter : Option (Nat → HString → Value)
  setter : Option (Nat → HString → Value → Value)
  query : Option (HString → Value)
  deleter : Option (HString → Value)
  enumerator : Option (Unit → Value)

/-- The source's `class ClassPrivate`: the interceptors, the tables of functions, static
functions and properties by name, and the constructor. -/
structure ClassPrivate where
  intercept : Intercept
  functions : List (HString × FunctionData)
  staticFunctions : List (HString × (List Value → Value))
  properties : List (HString × PropertyData)
  constructor : Option (List Value → Value)

/-- What a callback of the bridge leaves behind for the engine: the return value, if it was
set (`info.GetReturnValue().Set(...)`; setting an empty handle leaves it unset), and the
exception, if one was thrown into the engine (`isolate->ThrowException(...)`). -/
structure CallbackResult where
  returnValue : Handle
  exception : Handle

/-- Modelled from the spec: `Value::isCustom()`. -/
def Value.isCustom (v : Value) : Bool := decide (v.type = ValueType.Type_Custom)

/-- The source's `ClassConstruct`, the callback behind `new` on a class of the host, for the
class `priv` (found through `info.Data()`) and the arguments `info[0..]`. -/
def ClassConstruct (priv : ClassPrivate) (info : List V8Value) (st : Engine) :
    Except Fault (CallbackResult × Engine) :=
  match priv.constructor with
  | none => .ok (⟨none, none⟩, st)
  | some constructor =>
    match fromV8_list info st with
    | .error f => .error f
    | .ok (args, st1) =>
      if (constructor args).isCustom then
        match toV8 (constructor args)
            { st1 with hostCalls := st1.hostCalls ++ [.constructor args] } with
        | .error f => .error f
        | .ok (none, st2) =>
          .ok (⟨none, some (.string (utf8Decode (ascii "Unable to get object for ClassConstruct")))⟩,
            st2)
        | .ok (some v8obj, st2) =>
          if v8obj.isObject then .ok (⟨some v8obj, none⟩, st2)
          else
            .ok (⟨none,
                some (.string (utf8Decode (ascii "Unable to get object for ClassConstruct")))⟩,
              st2)
      else .ok (⟨none, none⟩, { st1 with hostCalls := st1.hostCalls ++ [.constructor args] })

/-- The source's `ClassInterceptGetter` for the class `priv`, the holder of the access and
the property name. -/
def ClassInterceptGetter (priv : ClassPrivate) (holder property : V8Value) (st : Engine) :
    Except Fault (CallbackResult × Engine) :=
  match objectFromV8Object holder st with
  | .error f => .error f
  | .ok none => .ok (⟨none, none⟩, st)
  | .ok (some obj) =>
    match priv.intercept.getter with
    | none => .error .exception
    | some getter =>
      if (getter obj (toString property)).type = ValueType.Type_Invalid then
        .ok (⟨none, none⟩,
          { st with hostCalls := st.hostCalls ++ [.interceptGet obj (toString property)] })
      else
        match toV8 (getter obj (toString property))
            { st with hostCalls := st.hostCalls ++ [.interceptGet obj (toString property)] } with
        | .error f => .error f
        | .ok (h, st1) => .ok (⟨h, none⟩, st1)

/-- The source's `ClassInterceptSetter` for the class `priv`, the holder of the access, the
property name and the assigned value. -/
def ClassInterceptSetter (priv : ClassPrivate) (holder property value : V8Value) (st : Engine) :
    Except Fault (CallbackResult × Engine) :=
  match objectFromV8Object holder st with
  | .error f => .error f
  | .ok none => .ok (⟨none, none⟩, st)
  | .ok (some obj) =>
    match fromV8 value st with
    | .error f => .error f
    | .ok (v, st1) =>
      match priv.intercept.setter with
      | none => .error .exception
      | some setter =>
        if (setter obj (toString property) v).type = ValueType.Type_Invalid then
          .ok (⟨none, none⟩,
            { st1 with hostCalls := st1.hostCalls ++ [.interceptSet obj (toString property) v] })
        else
          match toV8 (setter obj (toString property) v)
              { st1 with
                hostCalls := st1.hostCalls ++ [.interceptSet obj (toString property) v] } with
          | .error f => .error f
          | .ok (h, st2) => .ok (⟨h, none⟩, st2)

/-- An engine for examples: next to the global Object (address 0), whose global object has
the property `ns`, an object with the function `fn` (identity 3), there are the Object at
address 1 of kind `CustomType_Function`, whose handler returns the list of its arguments, and
the Object at address 2 of kind `CustomType_AdoptedFunction` for the engine function with
identity 4. -/
def exampleEngine : Engine :=
  { objects :=
      [(0, ObjectPrivate.init ObjectPrivate.fresh CustomType_Global
            (.object 0 false [(0, .number (Double.ofInt 1))] [] []
              [(utf8Decode (ascii "ns"),
                .object 2 false [] [] [] [(utf8Decode (ascii "fn"), .object 3 true [] [] [] []),
                  (utf8Decode (ascii "n"), .number (Double.ofInt 7))])])
            InitMode.Weak),
       (1, { ObjectPrivate.init ObjectPrivate.fresh CustomType_Function
              (.object 5 true [] [] [] []) InitMode.Weak with
             func := some (fun _ arguments => Value.list arguments) }),
       (2, { ObjectPrivate.init ObjectPrivate.fresh CustomType_AdoptedFunction
              (.object 4 true [] [] [] []) InitMode.Weak with
             nativeFunc := true })],
    datas := [],
    functionData := [],
    nextObject := 3,
    nextData := 0,
    nextId := 6,
    nextSym := 1,
    globalObject := 0,
    errorLog := [],
    hostCalls := [] }

/-- A runtime for examples: every function returns its receiver, every source compiles and
every script gives `undefined`. -/
def exampleRuntime : Runtime :=
  { call := fun _ that _ st => .ok (.returned that, st),
    compile := fun source origin st => .ok (.returned ⟨source, origin⟩, st),
    run := fun _ st => .ok (.returned .undefined, st) }

/-- A runtime for examples in which no source compiles: the compiler reports a syntax error at
the start of the source. -/
def rejectingRuntime : Runtime :=
  { call := fun _ that _ st => .ok (.returned that, st),
    compile := fun _ origin st =>
      .ok (.threw ⟨utf8Decode (ascii "SyntaxError: Unexpected end of input"), origin, 1, 0, 0, 1⟩,
        st),
    run := fun _ st => .ok (.returned .undefined, st) }

/-- A runtime for examples in which every script throws when it is run. -/
def throwingRuntime : Runtime :=
  { call := fun _ _ _ st =>
      .ok (.threw ⟨utf8Decode (ascii "Error: boom"), utf8Decode (ascii "t.js"), 1, 0, 0, 1⟩, st),
    compile := fun source origin st => .ok (.returned ⟨source, origin⟩, st),
    run := fun script st =>
      .ok (.threw ⟨utf8Decode (ascii "Error: boom"), script.origin, 1, 0, 0, 1⟩, st) }

/-- A class for examples: its constructor returns its first argument, and a Custom with an
empty handle when there is none; its get interceptor handles the property `x` only, with the
value 5; its set interceptor handles every property and returns the value assigned. -/
def exampleClass : ClassPrivate :=
  { intercept :=
      { getter := some (fun _ name => if name = ascii "x" then .integer 5 else .invalid),
        setter := some (fun _ _ value => value),
        query := none,
        deleter := none,
        enumerator := none },
    functions := [],
    staticFunctions := [],
    properties := [],
    constructor :=
      some (fun arguments =>
        match arguments with
        | [] => .custom (some ⟨CustomType_ClassObject.toInt, none, none⟩)
        | a :: _ => a) }

/-! ## Registration in a class -/

/-- Assignment `table[name] = x` in a `Hash<String, T>`. -/
def hashSet {α : Type} : List (HString × α) → HString → α → List (HString × α)
  | [], k, x => [(k, x)]
  | (j, y) :: rest, k, x => if j = k then (j, x) :: rest else (j, y) :: hashSet rest k x

/-- Removal `table.erase(name)` from a `Hash<String, T>`. -/
def hashErase {α : Type} (table : List (HString × α)) (name : HString) : List (HString × α) :=
  table.filter (fun e => decide (e.1 ≠ name))

/-- The data object that `Class::registerFunction` and `Class::registerStaticFunction` give
to the function they make: internal field 0 holds the `ClassPrivate` (its address), internal
field 1 the name as an engine string. -/
def classFunctionData (self : Nat) (name : HString) (st : Engine) : V8Value :=
  .object st.nextId false [] [.external self, .string (utf8Decode (cstr name))] [] []

/-- The source's `ScriptEngine::Class::registerFunction` on the class at address `self`:
the entry `functions[name]` gets the handler and a new function template, which is kept as
its data object. (The accessor installed on the instance template is a part of the engine
that the model does not keep.) -/
def ScriptEngine.Class.registerFunction (self : Nat) (name : HString)
    (func : Nat → List Value → Value) (priv : ClassPrivate) (st : Engine) :
    ClassPrivate × Engine :=
  ({ priv with
      functions := hashSet priv.functions name ⟨func, some (classFunctionData self name st)⟩ },
   { st with nextId := st.nextId + 1 })

/-- The source's `ScriptEngine::Class::registerStaticFunction` on the class at address
`self`: the entry `staticFunctions[name]` gets the handler, and a new function (made by
`v8::Function::New`, entered in `functionData` with its data object) is stored under the name
in the constructor function of the class, a part of the engine that the model does not
keep. -/
def ScriptEngine.Class.registerStaticFunction (self : Nat) (name : HString)
    (func : List Value → Value) (priv : ClassPrivate) (st : Engine) : ClassPrivate × Engine :=
  ({ priv with staticFunctions := hashSet priv.staticFunctions name func },
   { st with
     functionData := st.functionData ++ [(st.nextId + 1, classFunctionData self name st)],
     nextId := st.nextId + 2 })

/-- The name a class callback reads from its data object: `toString` of internal field 1. -/
def callbackName (data : V8Value) : Except Fault HString :=
  match data with
  | .object _ _ _ (_ :: f1 :: _) _ _ => .ok (toString f1)
  | _ => .error .outOfBounds

/-- The source's `ClassFunctionCallback` for the class `priv` (found through internal field
0 of `info.Data()`), the holder of the call, the data object and the arguments `info[0..]`. -/
def ClassFunctionCallback (priv : ClassPrivate) (holder data : V8Value) (info : List V8Value)
    (st : Engine) : Except Fault (CallbackResult × Engine) :=
  match objectFromV8Object holder st with
  | .error f => .error f
  | .ok none => .ok (⟨none, none⟩, st)
  | .ok (some obj) =>
    match callbackName data with
    | .error f => .error f
    | .ok name =>
      match priv.functions.lookup name with
      | none => .ok (⟨none, none⟩, st)
      | some it =>
        match fromV8_list info st with
        | .error f => .error f
        | .ok (args, st1) =>
          match toV8 (it.function obj args)
              { st1 with hostCalls := st1.hostCalls ++ [.function obj args] } with
          | .error f => .error f
          | .ok (h, st2) => .ok (⟨h, none⟩, st2)

/-- The source's `ClassStaticFunctionCallback` for the class `priv`, the data object and the
arguments `info[0..]`. -/
def ClassStaticFunctionCallback (priv : ClassPrivate) (data : V8Value) (info : List V8Value)
    (st : Engine) : Except Fault (CallbackResult × Engine) :=
  match callbackName data with
  | .error f => .error f
  | .ok name =>
    match priv.staticFunctions.lookup name with
    | none => .ok (⟨none, none⟩, st)
    | some it =>
      match fromV8_list info st with
      | .error f => .error f
      | .ok (args, st1) =>
        match toV8 (it args)
            { st1 with hostCalls := st1.hostCalls ++ [.staticFunction name args] } with
        | .error f => .error f
        | .ok (h, st2) => .ok (⟨h, none⟩, st2)

/-- The handler that `interceptPropertyName` registers under `toString`, as an operation on
the state: `JSON.stringify` of the global object is called with the engine object of the
Object; the result of the call goes through `ToLocalChecked` before the `v8::TryCatch` is
looked at. -/
def stringifier (rt : Runtime) (obj : Nat) (st : Engine) : Except Fault (Value × Engine) :=
  match st.priv obj with
  | none => .error .assertion
  | some priv =>
    match st.global with
    | none => .error .assertion
    | some globalObject =>
      if (globalObject.get (utf8Decode (ascii "JSON"))).isObject then
        if ((globalObject.get (utf8Decode (ascii "JSON"))).get
            (utf8Decode (ascii "stringify"))).isFunction then
          match rt.call
              ((globalObject.get (utf8Decode (ascii "JSON"))).get (utf8Decode (ascii "stringify")))
              (globalObject.get (utf8Decode (ascii "JSON"))) [priv.object] st with
          | .error f => .error f
          | .ok (outcome, st1) =>
            match toLocalChecked outcome.maybe with
            | .error f => .error f
            | .ok result =>
              if outcome.caught.isSome then
                .ok (.string (ascii "\x22[object Object]\x22"), st1)
              else fromV8 result st1
        else .error .assertion
      else .error .assertion

/-- The source's `ScriptEngine::Class::interceptPropertyName` on the class at address `self`:
the five interceptors are stored, the handler configuration gets a new data object, and the
handler `toString` is registered unless the table of functions has an entry of that name.
The handler registered is the parameter `toStringHandler`: a handler of the model is a
function of the Object and the arguments, which the lambda of the source, a call into the
engine (`stringifier`), is not. -/
def ScriptEngine.Class.interceptPropertyName (self : Nat)
    (get : Option (Nat → HString → Value)) (set : Option (Nat → HString → Value → Value))
    (query deleter : Option (HString → Value)) (enumerator : Option (Unit → Value))
    (toStringHandler : Nat → List Value → Value) (priv : ClassPrivate) (st : Engine) :
    ClassPrivate × Engine :=
  if ((priv.functions.lookup (ascii "toString")).isSome) then
    ({ priv with intercept := ⟨get, set, query, deleter, enumerator⟩ },
     { st with nextId := st.nextId + 1 })
  else
    ScriptEngine.Class.registerFunction self (ascii "toString") toStringHandler
      { priv with intercept := ⟨get, set, query, deleter, enumerator⟩ }
      { st with nextId := st.nextId + 1 }

/-- The C library's `abort()`: the process ends. -/
def abort : Except Fault Unit := .error .abort

/-- The source's `ClassInterceptQuery` for the class `priv` and the property name: `abort()`
is called before the query interceptor. -/
def ClassInterceptQuery (priv : ClassPrivate) (property : V8Value) (st : Engine) :
    Except Fault (CallbackResult × Engine) :=
  match abort with
  | .error f => .error f
  | .ok _ =>
    match priv.intercept.query with
    | none => .error .exception
    | some query =>
      match query (toString property) with
      | .integer n =>
        .ok (⟨some (.number (Double.ofInt (wrapInt32 n))), none⟩, st)
      | _ => .ok (⟨none, none⟩, st)

/-- The source's `ClassInterceptDeleter` for the class `priv` and the property name. -/
def ClassInterceptDeleter (priv : ClassPrivate) (property : V8Value) (st : Engine) :
    Except Fault (CallbackResult × Engine) :=
  match priv.intercept.deleter with
  | none => .error .exception
  | some deleter =>
    match deleter (toString property) with
    | .boolean b =>
      .ok (⟨some (.boolean b), none⟩,
        { st with hostCalls := st.hostCalls ++ [.interceptDelete (toString property)] })
    | _ =>
      .ok (⟨none, none⟩,
        { st with hostCalls := st.hostCalls ++ [.interceptDelete (toString property)] })

/-! ## The end of an Object -/

/-- Whether a children table of a live Object holds the Object `o`, that is, a strong
reference to it. -/
def owned (objects : List (Nat × ObjectPrivate)) (o : Nat) : Bool :=
  objects.any (fun e => e.2.children.any (fun c => decide (c.2 = o)))

/-- What the release of strong references to the Objects in `released` does to the live
Objects: an Object that nothing holds any more, neither the host or a `Value` (`held`) nor a
children table, is destroyed, which releases the Objects of its own children table in turn
(`~Object` deletes the `ObjectPrivate` and with it the `children`). -/
def release (held : Nat → Bool) :
    Nat → List Nat → List (Nat × ObjectPrivate) → List (Nat × ObjectPrivate)
  | 0, _, objects => objects
  | _ + 1, [], objects => objects
  | fuel + 1, o :: rest, objects =>
    if held o || owned objects o then release held fuel rest objects
    else
      match objects.lookup o with
      | none => release held fuel rest objects
      | some p =>
        release held fuel (p.children.map Prod.snd ++ rest)
          (objects.filter (fun e => decide (e.1 ≠ o)))

/-- Enough steps for `release` on the given Objects: each step takes an Object from the
list of released ones, to which only the children of a destroyed Object are added. -/
def releaseFuel (objects : List (Nat × ObjectPrivate)) : Nat :=
  (objects.map (fun e => e.2.children.length + 1)).sum + 2

/-- The live Objects after `priv->children.erase(name)` in the Object `parent`, which the
callback holds through `objData->parent.lock()`: the entry is removed and the Object it
referred to is released. -/
def eraseChild (held : Nat → Bool) (parent : Nat) (pp : ObjectPrivate) (name : HString)
    (objects : List (Nat × ObjectPrivate)) : List (Nat × ObjectPrivate) :=
  release (fun a => held a || decide (a = parent))
    (releaseFuel objects)
    ((pp.children.lookup name).toList)
    (setPriv objects parent { pp with children := hashErase pp.children name })

/-- The source's `ObjectData::~ObjectData` for the block at address `objData` with the
content `d`: the block is gone, and the destroyed signal of the Object it observes is emitted
if that Object is still alive. -/
def ObjectData.delete (objData : Nat) (d : ObjectData) (st : Engine) : Engine :=
  match st.lock d.weak with
  | some obj =>
    { st with
      datas := st.datas.filter (fun e => decide (e.1 ≠ objData)),
      hostCalls := st.hostCalls ++ [.destroyed obj] }
  | none => { st with datas := st.datas.filter (fun e => decide (e.1 ≠ objData)) }

/-- The source's `ObjectWeak`, the callback the engine runs when it collects the engine
object of the Object whose `ObjectPrivate` is at address `parameter`
(`data.GetParameter()`); `data.GetValue()` is the engine object that `ObjectPrivate` holds,
and `data.GetInternalField(0)` is read as the `ObjectData` in its internal field 0. The
strong references that the host and `Value`s hold are given by `held`. -/
def ObjectWeak (held : Nat → Bool) (parameter : Nat) (st : Engine) : Except Fault Engine :=
  match st.priv parameter with
  | none => .error .undefinedBehaviour
  | some p =>
    if p.customType = CustomType_Global then .ok st
    else
      match p.object with
      | none => .error .emptyHandle
      | some (.object _ _ _ (f0 :: _) _ _) =>
        (match f0 with
         | .external objData =>
           (match st.datas.lookup objData with
            | none => .error .undefinedBehaviour
            | some d =>
              (match st.lock d.parent with
               | some parent =>
                 (match st.priv parent with
                  | none => .error .undefinedBehaviour
                  | some pp =>
                    .ok (ObjectData.delete objData d
                      { st with objects := eraseChild held parent pp d.name st.objects }))
               | none => .ok (ObjectData.delete objData d st)))
         | _ => .error .assertion)
      | some _ => .error .outOfBounds

/-! ## Properties of an Object -/

/-- What the engine does when a property of an object is read (`v8::Object::Get`) and
written (`v8::Object::Set`), accessors and exceptions included, which the bridge does not
determine. -/
structure PropertyRuntime where
  get : V8Value → JsString → Engine → Except Fault (Outcome V8Value × Engine)
  set : V8Value → JsString → V8Value → Engine → Except Fault (Outcome Unit × Engine)

/-- The source's `ScriptEngine::Object::property(propertyName, error)` on the Object at
address `self`. -/
def ScriptEngine.Object.property (rt : PropertyRuntime) (self : Nat) (propertyName : HString)
    (error : Bool) (st : Engine) : Except Fault (Reply × Engine) :=
  match st.priv self with
  | none => .error .undefinedBehaviour
  | some p =>
    match p.object with
    | none =>
      .ok ((.invalid,
          if error then
            some (ascii "Can\x27t find object for property " ++ cstr propertyName)
          else none), st)
    | some obj =>
      match rt.get obj (utf8Decode (cstr propertyName)) st with
      | .error f => .error f
      | .ok (outcome, st1) =>
        if (catchError outcome.caught (ascii "Property") error).1 then
          .ok ((.invalid, (catchError outcome.caught (ascii "Property") error).2), st1)
        else
          match outcome.maybe with
          | none => .error .emptyHandle
          | some prop =>
            match fromV8 prop st1 with
            | .error f => .error f
            | .ok (v, st2) => .ok ((v, none), st2)

/-- The kinds are kept from the state `st` to the state `st1`: no address is given out
again, and an Object of `st1` at an address given out in `st` is an Object of `st`, of the
kind it has there. -/
def KindsKept (st st1 : Engine) : Prop :=
  st.nextObject ≤ st1.nextObject ∧
  ∀ o p1, o < st.nextObject → st1.priv o = some p1 →
    ∃ p, st.priv o = some p ∧ p1.customType = p.customType

/-- The engine after `child("x")` on the global Object of a new engine: the child is the
Object at address 1, and its `ObjectData` is the block at address 0. -/
def exampleChild : Engine :=
  match ScriptEngine.Object.child 0 [0x78] ScriptEngine.new with
  | .ok (_, st) => st
  | .error _ => ScriptEngine.new

/-- The engine after `child("x")` and then `registerFunction("x", ...)` on the global Object
of a new engine: the entry `x` of the global Object, first the Object at address 1, is the
Object at address 2. -/
def exampleReplaced : Engine :=
  match ScriptEngine.Object.registerFunction 0 [0x78] (fun _ _ => .undefined) exampleChild with
  | .ok (_, st) => st
  | .error _ => exampleChild

/-- The engine after `registerFunction("x", ...)` twice on the global Object of a new
engine: the entry `x` of the global Object, first the Object at address 1, is the Object at
address 2. -/
def exampleTwice : Engine :=
  match ScriptEngine.Object.registerFunction 0 [0x78] (fun _ _ => .undefined)
      ScriptEngine.new with
  | .ok (_, st) =>
    (match ScriptEngine.Object.registerFunction 0 [0x78] (fun _ _ => .boolean true) st with
     | .ok (_, st1) => st1
     | .error _ => st)
  | .error _ => ScriptEngine.new

/-! ## The arguments of a call -/

/-- The conversion of the arguments of a call in the words of the spec: the handles are
`toV8` of the arguments in their given order, each converted in the state the one before
left. -/
def ArgumentsConverted : List Value → Engine → List Handle → Engine → Prop
  | [], st, hs, st1 => hs = [] ∧ st1 = st
  | a :: rest, st, hs, st2 =>
    ∃ h st1 hs1, toV8 a st = .ok (h, st1) ∧ hs = h :: hs1 ∧
      ArgumentsConverted rest st1 hs1 st2

/-- A runtime for examples: every function returns the array of the property `n` of its
receiver and of its arguments, in their order. -/
def echoRuntime : Runtime :=
  { call := fun _ that arguments st =>
      .ok (.returned (.array (that.get (utf8Decode (ascii "n")) :: arguments.filterMap id)), st),
    compile := fun source origin st => .ok (.returned ⟨source, origin⟩, st),
    run := fun _ st => .ok (.returned .undefined, st) }

end Rct

/-! # Theorems -/

namespace Rct
namespace Double

theorem log2Aux_spec : ∀ (fuel n : Nat), n ≤ fuel → 0 < n →
    2 ^ log2Aux fuel n ≤ n ∧ n < 2 ^ (log2Aux fuel n + 1)
  | 0, n, h, hn => by omega
  | fuel + 1, n, h, hn => by
    unfold log2Aux
    by_cases h2 : n < 2
    · simp only [h2, if_true]
      constructor <;> simp <;> omega
    · simp only [h2, if_false]
      have ih := log2Aux_spec fuel (n / 2) (by omega) (by omega)
      obtain ⟨ih1, ih2⟩ := ih
      constructor
      · rw [pow_succ]; omega
      · rw [pow_succ]; omega

theorem log2_spec (n : Nat) (hn : 0 < n) : 2 ^ log2 n ≤ n ∧ n < 2 ^ (log2 n + 1) :=
  log2Aux_spec n n (le_refl n) hn

theorem log2_lt_of_lt_pow {n k : Nat} (hn : 0 < n) (h : n < 2 ^ k) : log2 n < k := by
  have h1 := (log2_spec n hn).1
  exact (Nat.pow_lt_pow_iff_right (by norm_num : 1 < 2)).mp (lt_of_le_of_lt h1 h)

theorem le_log2_of_pow_le {n k : Nat} (hn : 0 < n) (h : 2 ^ k ≤ n) : k ≤ log2 n := by
  have h2 := (log2_spec n hn).2
  have := (Nat.pow_lt_pow_iff_right (by norm_num : 1 < 2)).mp (lt_of_le_of_lt h h2)
  omega

theorem scaled_ofNat (a b j : Nat) : scaled a b (j : Int) = (a, b * 2 ^ j) := by
  simp [scaled]

theorem scaled_neg (a b j : Nat) (hj : 0 < j) : scaled a b (-(j : Int)) = (a * 2 ^ j, b) := by
  have h : ¬ (0 : Int) ≤ -(j : Int) := by omega
  simp [scaled, h]

theorem mul_pow_div (c b j : Nat) (hb : 0 < b) : c * b * 2 ^ j / b = c * 2 ^ j := by
  rw [Nat.mul_right_comm]; exact Nat.mul_div_cancel _ hb

theorem mul_pow_mod (c b j : Nat) : c * b * 2 ^ j % b = 0 := by
  rw [Nat.mul_right_comm]; exact Nat.mul_mod_left _ _

theorem roundHalfEven_exact (q b : Nat) (hb : 0 < b) : roundHalfEven (q * b) b = q := by
  unfold roundHalfEven
  have h1 : q * b % b = 0 := Nat.mul_mod_left _ _
  have h2 : q * b / b = q := Nat.mul_div_cancel _ hb
  rw [h1, h2]
  have : ¬ (b < 2 * 0 ∨ (2 * 0 = b ∧ q % 2 = 1)) := by omega
  simp only [this, if_false]

/-- The exponent of a quotient that is the whole number `c`. -/
theorem exponent_exact (c b : Nat) (hc : 0 < c) (hc2 : c < 2 ^ 53) (hb : 0 < b) :
    exponent (c * b) b = (log2 c : Int) - 52 := by
  have hcb : 0 < c * b := Nat.mul_pos hc hb
  obtain ⟨hk1, hk2⟩ := log2_spec c hc
  obtain ⟨hb1, hb2⟩ := log2_spec b hb
  have hk52 : log2 c < 53 := log2_lt_of_lt_pow hc hc2
  have hlo : log2 c + log2 b ≤ log2 (c * b) := by
    apply le_log2_of_pow_le hcb
    rw [pow_add]; exact Nat.mul_le_mul hk1 hb1
  have hhi : log2 (c * b) < log2 c + log2 b + 2 := by
    apply log2_lt_of_lt_pow hcb
    have : 2 ^ (log2 c + log2 b + 2) = 2 ^ (log2 c + 1) * 2 ^ (log2 b + 1) := by
      rw [← pow_add]; congr 1; omega
    rw [this]
    exact Nat.mul_lt_mul'' hk2 hb2
  unfold exponent
  generalize log2 c = k at *
  generalize log2 b = lb at *
  generalize log2 (c * b) = la at *
  rcases Nat.lt_or_ge la (k + lb + 1) with hA | hB
  · -- la = k + lb
    have hla : la = k + lb := by omega
    subst hla
    rcases Nat.lt_or_ge k 52 with hk | hk
    · have he : ((k + lb : Nat) : Int) - (lb : Int) - 52 = -((52 - k : Nat) : Int) := by omega
      rw [he, scaled_neg _ _ _ (by omega)]
      simp only []
      rw [mul_pow_div c b _ hb]
      have : ¬ c * 2 ^ (52 - k) < 2 ^ 52 := by
        have h52 : 2 ^ 52 = 2 ^ k * 2 ^ (52 - k) := by rw [← pow_add]; congr 1; omega
        rw [h52]; exact Nat.not_lt.mpr (Nat.mul_le_mul_right _ hk1)
      simp only [this, if_false]
      omega
    · have hk' : k = 52 := by omega
      subst hk'
      have he : ((52 + lb : Nat) : Int) - (lb : Int) - 52 = ((0 : Nat) : Int) := by omega
      rw [he, scaled_ofNat]
      simp only [pow_zero, mul_one]
      rw [Nat.mul_div_cancel _ hb]
      have : ¬ c < 2 ^ 52 := Nat.not_lt.mpr hk1
      simp only [this, if_false]
      omega
  · have hla : la = k + lb + 1 := by omega
    subst hla
    rcases Nat.lt_or_ge k 51 with hk | hk
    · have he : ((k + lb + 1 : Nat) : Int) - (lb : Int) - 52 = -((51 - k : Nat) : Int) := by omega
      rw [he, scaled_neg _ _ _ (by omega)]
      simp only []
      rw [mul_pow_div c b _ hb]
      have : c * 2 ^ (51 - k) < 2 ^ 52 := by
        have h52 : 2 ^ 52 = 2 ^ (k + 1) * 2 ^ (51 - k) := by rw [← pow_add]; congr 1; omega
        rw [h52]; exact Nat.mul_lt_mul_of_pos_right hk2 (by positivity)
      simp only [this, if_true]
      omega
    · rcases Nat.lt_or_ge k 52 with hk5 | hk5
      · have hk' : k = 51 := by omega
        subst hk'
        have he : ((51 + lb + 1 : Nat) : Int) - (lb : Int) - 52 = ((0 : Nat) : Int) := by omega
        rw [he, scaled_ofNat]
        simp only [pow_zero, mul_one]
        rw [Nat.mul_div_cancel _ hb]
        have : c < 2 ^ 52 := hk2
        simp only [this, if_true]
        omega
      · have hk' : k = 52 := by omega
        subst hk'
        have he : ((52 + lb + 1 : Nat) : Int) - (lb : Int) - 52 = ((1 : Nat) : Int) := by omega
        rw [he, scaled_ofNat]
        simp only [pow_one]
        have hq : c * b / (b * 2) = c / 2 := by
          rw [Nat.mul_comm c b, Nat.mul_div_mul_left _ _ hb]
        rw [hq]
        have : c / 2 < 2 ^ 52 := by
          have : c < 2 ^ 53 := hc2
          omega
        simp only [this, if_true]
        omega

/-- Rounding is exact on a quotient that is a whole number below `2^53`. -/
theorem roundQuot_exact (neg : Bool) (c b : Nat) (hc : 0 < c) (hc2 : c < 2 ^ 53) (hb : 0 < b) :
    roundQuot neg (c * b) b = fin neg (c * 2 ^ (52 - log2 c)) ((log2 c : Int) - 52) := by
  have hcb : c * b ≠ 0 := Nat.pos_iff_ne_zero.mp (Nat.mul_pos hc hb)
  obtain ⟨hk1, hk2⟩ := log2_spec c hc
  have hk52 : log2 c < 53 := log2_lt_of_lt_pow hc hc2
  unfold roundQuot
  rw [if_neg hcb, exponent_exact c b hc hc2 hb]
  have hmax : max ((log2 c : Int) - 52) (-1074) = (log2 c : Int) - 52 := by
    apply max_eq_left; omega
  rw [hmax]
  generalize log2 c = k at *
  have hq : c * 2 ^ (52 - k) < 2 ^ 53 := by
    have h53 : 2 ^ 53 = 2 ^ (k + 1) * 2 ^ (52 - k) := by rw [← pow_add]; congr 1; omega
    rw [h53]; exact Nat.mul_lt_mul_of_pos_right hk2 (by positivity)
  have hround : roundHalfEven (scaled (c * b) b ((k : Int) - 52)).1
      (scaled (c * b) b ((k : Int) - 52)).2 = c * 2 ^ (52 - k) := by
    rcases Nat.lt_or_ge k 52 with hk | hk
    · have he : (k : Int) - 52 = -((52 - k : Nat) : Int) := by omega
      rw [he, scaled_neg _ _ _ (by omega)]
      simp only []
      rw [Nat.mul_right_comm]
      exact roundHalfEven_exact _ _ hb
    · have hk' : k = 52 := by omega
      subst hk'
      have he : ((52 : Nat) : Int) - 52 = ((0 : Nat) : Int) := by omega
      rw [he, scaled_ofNat]
      simp only [pow_zero, mul_one, Nat.sub_self]
      exact roundHalfEven_exact _ _ hb
  rw [hround]
  unfold pack
  rw [if_neg (Nat.ne_of_lt hq)]
  have : ¬ (971 : Int) < (k : Int) - 52 := by omega
  rw [if_neg this]

end Double
end Rct

namespace Rct
namespace Double

theorem ofInt_zero : ofInt 0 = fin false 0 (-1074) := by decide

theorem ofInt_eq_whole (n : Int) (h0 : n ≠ 0) (h : n.natAbs < 2 ^ 53) :
    ofInt n = whole (decide (n < 0)) n.natAbs := by
  unfold ofInt whole
  have hc : 0 < n.natAbs := Int.natAbs_pos.mpr h0
  have := roundQuot_exact (decide (n < 0)) n.natAbs 1 hc h (by norm_num)
  rw [Nat.mul_one] at this
  exact this

theorem whole_trunc (neg : Bool) (c : Nat) (hc : 0 < c) (h : c < 2 ^ 53) :
    (whole neg c).trunc? = some (if neg then -(c : Int) else (c : Int)) := by
  have hk52 : log2 c < 53 := log2_lt_of_lt_pow hc h
  unfold whole trunc?
  generalize log2 c = k at *
  rcases Nat.lt_or_ge k 52 with hk | hk
  · have hneg : ¬ (0 : Int) ≤ (k : Int) - 52 := by omega
    have he : (-((k : Int) - 52)).toNat = 52 - k := by omega
    simp only [hneg, if_false, he]
    rw [Nat.mul_div_cancel _ (by positivity)]
  · have hk' : k = 52 := by omega
    subst hk'
    simp

theorem whole_isWhole (neg : Bool) (c : Nat) (hc : 0 < c) (h : c < 2 ^ 53) :
    (whole neg c).isWhole = true := by
  have hk52 : log2 c < 53 := log2_lt_of_lt_pow hc h
  unfold whole isWhole
  generalize log2 c = k at *
  rcases Nat.lt_or_ge k 52 with hk | hk
  · have he : (-((k : Int) - 52)).toNat = 52 - k := by omega
    simp only [he, Nat.mul_mod_left, decide_True, Bool.or_true]
  · have hk' : k = 52 := by omega
    subst hk'
    simp

theorem whole_isMinusZero (neg : Bool) (c : Nat) (hc : 0 < c) :
    (whole neg c).isMinusZero = false := by
  unfold whole
  have hm : c * 2 ^ (52 - log2 c) ≠ 0 := by positivity
  generalize c * 2 ^ (52 - log2 c) = m at *
  cases neg <;> cases m <;> simp_all [isMinusZero]

theorem whole_absLeNat (neg : Bool) (c K : Nat) (hc : 0 < c) (h : c < 2 ^ 53) (hK : c ≤ K) :
    (whole neg c).absLeNat K = true := by
  have hk52 : log2 c < 53 := log2_lt_of_lt_pow hc h
  unfold whole absLeNat
  generalize log2 c = k at *
  rcases Nat.lt_or_ge k 52 with hk | hk
  · have hneg : ¬ (0 : Int) ≤ (k : Int) - 52 := by omega
    have he : (-((k : Int) - 52)).toNat = 52 - k := by omega
    simp only [hneg, if_false, he, decide_eq_true_eq]
    exact Nat.mul_le_mul_right _ hK
  · have hk' : k = 52 := by omega
    subst hk'
    simpa using hK

theorem trunc_ofInt (n : Int) (h : n.natAbs < 2 ^ 53) : (ofInt n).trunc? = some n := by
  by_cases h0 : n = 0
  · subst h0; rw [ofInt_zero]; simp only [trunc?, Nat.zero_div, Nat.zero_mul, ite_self]; rfl
  · rw [ofInt_eq_whole n h0 h, whole_trunc _ _ (Int.natAbs_pos.mpr h0) h]
    by_cases hn : n < 0
    · simp only [hn, decide_True, if_true]; congr 1; omega
    · simp only [hn, decide_False]; congr 1; simp; omega

theorem isWhole_ofInt (n : Int) (h : n.natAbs < 2 ^ 53) : (ofInt n).isWhole = true := by
  by_cases h0 : n = 0
  · subst h0; rw [ofInt_zero]; simp only [isWhole, Nat.zero_mod, decide_True, Bool.or_true]
  · rw [ofInt_eq_whole n h0 h]; exact whole_isWhole _ _ (Int.natAbs_pos.mpr h0) h

theorem isMinusZero_ofInt (n : Int) (h : n.natAbs < 2 ^ 53) : (ofInt n).isMinusZero = false := by
  by_cases h0 : n = 0
  · subst h0; rw [ofInt_zero]; rfl
  · rw [ofInt_eq_whole n h0 h]; exact whole_isMinusZero _ _ (Int.natAbs_pos.mpr h0)

theorem absLeNat_ofInt (n : Int) (K : Nat) (h : n.natAbs < 2 ^ 53) (hK : n.natAbs ≤ K) :
    (ofInt n).absLeNat K = true := by
  by_cases h0 : n = 0
  · subst h0; rw [ofInt_zero]; unfold absLeNat
    simp only [Nat.zero_le, decide_True, Nat.zero_mul, ite_self]
  · rw [ofInt_eq_whole n h0 h]; exact whole_absLeNat _ _ _ (Int.natAbs_pos.mpr h0) h hK

theorem isInt32_ofInt (n : Int) (h1 : -(2 : Int) ^ 31 ≤ n) (h2 : n < (2 : Int) ^ 31) :
    (ofInt n).isInt32 = true := by
  have h : n.natAbs < 2 ^ 53 := by omega
  unfold isInt32
  rw [isWhole_ofInt n h, isMinusZero_ofInt n h, trunc_ofInt n h]
  simp only [Bool.not_false, Bool.and_self, Bool.true_and, Bool.and_eq_true, decide_eq_true_eq]
  exact ⟨h1, h2⟩

theorem ofInt_1000 : ofInt 1000 = fin false (1000 * 2 ^ 43) (-43) := by decide

/-- Division by 1000 of a whole number of thousands is exact. -/
theorem div_ofInt_1000 (c : Nat) (h : c * 1000 < 2 ^ 53) :
    div (ofInt ((c : Int) * 1000)) (ofInt 1000) = ofInt (c : Int) := by
  rcases Nat.eq_zero_or_pos c with h0 | hc
  · subst h0; decide
  · have hc2 : c < 2 ^ 53 := by omega
    have hn0 : ((c : Int) * 1000) ≠ 0 := by omega
    have hnat : ((c : Int) * 1000).natAbs = c * 1000 := by omega
    have hpos : 0 < c * 1000 := by omega
    rw [ofInt_eq_whole _ hn0 (by rw [hnat]; exact h), hnat, ofInt_1000,
      ofInt_eq_whole (c : Int) (by omega) (by simpa using hc2)]
    have hd1 : decide ((c : Int) * 1000 < 0) = false := by simp
    have hd2 : decide ((c : Int) < 0) = false := by simp
    rw [hd1, hd2, Int.natAbs_ofNat]
    have hkk : log2 (c * 1000) < 53 := log2_lt_of_lt_pow hpos h
    have hk9 : 9 ≤ log2 (c * 1000) := le_log2_of_pow_le hpos (by omega)
    unfold whole div
    generalize log2 (c * 1000) = kk at *
    have hK : (1000 * 2 ^ 43 : Nat) ≠ 0 := by norm_num
    simp only [hK, if_false, Bool.xor_false]
    rcases Nat.lt_or_ge 9 kk with hgt | hle
    · have hcond : ¬ ((kk : Int) - 52 ≤ -43) := by omega
      have he : ((kk : Int) - 52 - -43).toNat = kk - 9 := by omega
      simp only [hcond, if_false, he]
      have ha : c * 1000 * 2 ^ (52 - kk) * 2 ^ (kk - 9) = c * (1000 * 2 ^ 43) := by
        have : 2 ^ 43 = 2 ^ (52 - kk) * 2 ^ (kk - 9) := by rw [← pow_add]; congr 1; omega
        rw [this]; ring
      rw [ha]
      exact roundQuot_exact false c _ hc hc2 (by norm_num)
    · have hkk' : kk = 9 := by omega
      subst hkk'
      have hcond : (((9 : Nat) : Int) - 52 ≤ -43) := by omega
      have he : ((-43 : Int) - (((9 : Nat) : Int) - 52)).toNat = 0 := by omega
      simp only [hcond, if_true, he, pow_zero, mul_one]
      have ha : c * 1000 * 2 ^ (52 - 9) = c * (1000 * 2 ^ 43) := by ring
      rw [ha]
      exact roundQuot_exact false c _ hc hc2 (by norm_num)

end Double
end Rct

namespace Rct

theorem byte_val (b : Byte) (n : Nat) (h : n = b.val) : byte n = b := by
  apply Fin.ext
  simp only [byte]
  have := b.isLt
  omega

theorem enc1 (b0 : Byte) (h : b0.val < 0x80) : utf8EncodeChar b0.val = [b0] := by
  unfold utf8EncodeChar
  rw [if_pos h, byte_val b0 _ rfl]

theorem enc2 (b0 b1 : Byte) (h : lead2 b0 b1 = true) :
    utf8EncodeChar ((b0.val - 0xC0) * 64 + (b1.val - 0x80)) = [b0, b1] := by
  simp only [lead2, isCont, Bool.and_eq_true, decide_eq_true_eq] at h
  obtain ⟨⟨h1, h2⟩, h3, h4⟩ := h
  unfold utf8EncodeChar
  have c1 : ¬ ((b0.val - 0xC0) * 64 + (b1.val - 0x80) < 0x80) := by omega
  have c2 : (b0.val - 0xC0) * 64 + (b1.val - 0x80) < 0x800 := by omega
  rw [if_neg c1, if_pos c2, byte_val b0 _ (by omega), byte_val b1 _ (by omega)]

theorem enc3 (b0 b1 b2 : Byte) (h : lead3 b0 b1 = true) (hc : isCont b2 = true) :
    utf8EncodeChar ((b0.val - 0xE0) * 4096 + (b1.val - 0x80) * 64 + (b2.val - 0x80))
      = [b0, b1, b2] := by
  simp only [lead3, isCont, Bool.and_eq_true, Bool.or_eq_true, decide_eq_true_eq] at h hc
  unfold utf8EncodeChar
  have c1 : ¬ ((b0.val - 0xE0) * 4096 + (b1.val - 0x80) * 64 + (b2.val - 0x80) < 0x80) := by
    omega
  have c2 : ¬ ((b0.val - 0xE0) * 4096 + (b1.val - 0x80) * 64 + (b2.val - 0x80) < 0x800) := by
    omega
  have c3 : (b0.val - 0xE0) * 4096 + (b1.val - 0x80) * 64 + (b2.val - 0x80) < 0x10000 := by
    omega
  have c4 : ¬ (0xD800 ≤ (b0.val - 0xE0) * 4096 + (b1.val - 0x80) * 64 + (b2.val - 0x80) ∧
      (b0.val - 0xE0) * 4096 + (b1.val - 0x80) * 64 + (b2.val - 0x80) ≤ 0xDFFF) := by
    omega
  rw [if_neg c1, if_neg c2, if_pos c3, if_neg c4, byte_val b0 _ (by omega),
    byte_val b1 _ (by omega), byte_val b2 _ (by omega)]

theorem enc4 (b0 b1 b2 b3 : Byte) (h : lead4 b0 b1 = true) (hc : isCont b2 = true)
    (hd : isCont b3 = true) :
    utf8EncodeChar ((b0.val - 0xF0) * 262144 + (b1.val - 0x80) * 4096 + (b2.val - 0x80) * 64
      + (b3.val - 0x80)) = [b0, b1, b2, b3] := by
  simp only [lead4, isCont, Bool.and_eq_true, Bool.or_eq_true, decide_eq_true_eq] at h hc hd
  unfold utf8EncodeChar
  have c1 : ¬ ((b0.val - 0xF0) * 262144 + (b1.val - 0x80) * 4096 + (b2.val - 0x80) * 64
      + (b3.val - 0x80) < 0x80) := by omega
  have c2 : ¬ ((b0.val - 0xF0) * 262144 + (b1.val - 0x80) * 4096 + (b2.val - 0x80) * 64
      + (b3.val - 0x80) < 0x800) := by omega
  have c3 : ¬ ((b0.val - 0xF0) * 262144 + (b1.val - 0x80) * 4096 + (b2.val - 0x80) * 64
      + (b3.val - 0x80) < 0x10000) := by omega
  have c4 : (b0.val - 0xF0) * 262144 + (b1.val - 0x80) * 4096 + (b2.val - 0x80) * 64
      + (b3.val - 0x80) < 0x110000 := by omega
  rw [if_neg c1, if_neg c2, if_neg c3, if_pos c4, byte_val b0 _ (by omega),
    byte_val b1 _ (by omega), byte_val b2 _ (by omega), byte_val b3 _ (by omega)]

theorem utf8Encode_decodeAux : ∀ (fuel : Nat) (bs : List Byte), bs.length ≤ fuel →
    validUtf8 bs = true → utf8Encode (utf8DecodeAux fuel bs) = bs
  | 0, bs, hl, _ => by
    have : bs = [] := List.length_eq_zero.mp (by omega)
    subst this; rfl
  | fuel + 1, [], _, _ => rfl
  | fuel + 1, b0 :: rest, hl, hv => by
    simp only [List.length_cons] at hl
    unfold utf8DecodeAux
    unfold validUtf8 at hv
    by_cases h1 : b0.val < 0x80
    · rw [if_pos h1] at hv ⊢
      simp only [utf8Encode]
      rw [enc1 b0 h1, utf8Encode_decodeAux fuel rest (by omega) hv]; rfl
    · rw [if_neg h1] at hv ⊢
      match rest, hl, hv with
      | [], _, hv => simp at hv
      | b1 :: r1, hl, hv =>
        simp only [List.length_cons] at hl
        simp only at hv ⊢
        by_cases h2 : lead2 b0 b1 = true
        · rw [if_pos h2] at hv ⊢
          simp only [utf8Encode]
          rw [enc2 b0 b1 h2, utf8Encode_decodeAux fuel r1 (by omega) hv]; rfl
        · rw [if_neg h2] at hv ⊢
          match r1, hl, hv with
          | [], _, hv => simp at hv
          | b2 :: r2, hl, hv =>
            simp only [List.length_cons] at hl
            simp only at hv ⊢
            by_cases h3 : (lead3 b0 b1 && isCont b2) = true
            · rw [if_pos h3] at hv ⊢
              simp only [utf8Encode]
              rw [Bool.and_eq_true] at h3
              rw [enc3 b0 b1 b2 h3.1 h3.2, utf8Encode_decodeAux fuel r2 (by omega) hv]; rfl
            · rw [if_neg h3] at hv ⊢
              match r2, hl, hv with
              | [], _, hv => simp at hv
              | b3 :: r3, hl, hv =>
                simp only [List.length_cons] at hl
                simp only at hv ⊢
                by_cases h4 : (lead4 b0 b1 && isCont b2 && isCont b3) = true
                · rw [if_pos h4] at hv ⊢
                  simp only [utf8Encode]
                  simp only [Bool.and_eq_true] at h4
                  rw [enc4 b0 b1 b2 b3 h4.1.1 h4.1.2 h4.2,
                    utf8Encode_decodeAux fuel r3 (by omega) hv]; rfl
                · rw [if_neg h4] at hv
                  simp at hv

/-- Decoding well-formed UTF-8 and encoding it again gives the bytes back. -/
theorem utf8Encode_decode (bs : List Byte) (hv : validUtf8 bs = true) :
    utf8Encode (utf8Decode bs) = bs :=
  utf8Encode_decodeAux bs.length bs (le_refl _) hv

theorem cstr_of_no_zero : ∀ (bs : List Byte), (∀ b ∈ bs, b.val ≠ 0) → cstr bs = bs
  | [], _ => rfl
  | b :: bs, h => by
    unfold cstr
    rw [if_neg (h b (List.mem_cons_self _ _)),
      cstr_of_no_zero bs (fun x hx => h x (List.mem_cons_of_mem _ hx))]

end Rct

namespace Rct

theorem cleanString_valid {s : HString} (h : cleanString s = true) : validUtf8 s = true := by
  simp only [cleanString, Bool.and_eq_true] at h; exact h.1

theorem cleanString_cstr {s : HString} (h : cleanString s = true) : cstr s = s := by
  simp only [cleanString, Bool.and_eq_true, List.all_eq_true, decide_eq_true_eq] at h
  exact cstr_of_no_zero s h.2

/-- A clean string is read back unchanged from the engine string made of it. -/
theorem toString_decode {s : HString} (h : cleanString s = true) :
    toString (.string (utf8Decode (cstr s))) = s := by
  simp only [toString]
  rw [cleanString_cstr h, utf8Encode_decode s (cleanString_valid h), cleanString_cstr h]

theorem decode_injective {s t : HString} (hs : cleanString s = true) (ht : cleanString t = true)
    (h : utf8Decode s = utf8Decode t) : s = t := by
  rw [← utf8Encode_decode s (cleanString_valid hs), ← utf8Encode_decode t (cleanString_valid ht), h]

theorem setNamed_append : ∀ (named : List (JsString × V8Value)) (k : JsString) (v : V8Value),
    k ∉ named.map Prod.fst → setNamed named k v = named ++ [(k, v)]
  | [], _, _, _ => rfl
  | (j, w) :: rest, k, v, h => by
    simp only [List.map_cons, List.mem_cons, not_or] at h
    unfold setNamed
    rw [if_neg (fun e => h.1 e.symm), setNamed_append rest k v h.2]; rfl

theorem mapInsert_append : ∀ (m : List (HString × Value)) (k : HString) (v : Value),
    k ∉ m.map Prod.fst → mapInsert m k v = m ++ [(k, v)]
  | [], _, _, _ => rfl
  | (j, w) :: rest, k, v, h => by
    simp only [List.map_cons, List.mem_cons, not_or] at h
    unfold mapInsert
    rw [if_neg (fun e => h.1 e.symm), mapInsert_append rest k v h.2]; rfl

theorem objSet_plain (elements : List (Nat × V8Value)) (named : List (JsString × V8Value))
    (k : HString) (x : V8Value) (hk : plainKey k = true)
    (hfresh : utf8Decode k ∉ named.map Prod.fst) :
    objSet elements named (utf8Decode (cstr k)) x = (elements, named ++ [(utf8Decode k, x)]) := by
  simp only [plainKey, Bool.and_eq_true, decide_eq_true_eq, Option.isNone_iff_eq_none] at hk
  obtain ⟨⟨hc, hi⟩, hp⟩ := hk
  unfold objSet
  rw [cleanString_cstr hc, hi]
  simp only [hp, if_false]
  rw [setNamed_append named _ x hfresh]

theorem toV8_map_spec : ∀ (m : List (HString × Value)) (elements : List (Nat × V8Value))
    (named : List (JsString × V8Value)) (st : Engine),
    (∀ e ∈ m, plainKey e.1 = true) → (∀ e ∈ m, RoundTrips e.2) → (m.map Prod.fst).Nodup →
    (∀ e ∈ m, utf8Decode e.1 ∉ named.map Prod.fst) →
    ∃ js st1, toV8_map m elements named st = .ok ((elements, named ++ js), st1) ∧
      EntriesMatch js m
  | [], elements, named, st, _, _, _, _ => ⟨[], st, by simp [toV8_map], List.Forall₂.nil⟩
  | (k, v) :: rest, elements, named, st, hk, hv, hnd, hfr => by
    obtain ⟨x, st1, hx, hback⟩ := hv (k, v) (List.mem_cons_self _ _) st
    have hkk : plainKey k = true := hk (k, v) (List.mem_cons_self _ _)
    have hfresh : utf8Decode k ∉ named.map Prod.fst := hfr (k, v) (List.mem_cons_self _ _)
    simp only [List.map_cons, List.nodup_cons] at hnd
    have hclean : ∀ e ∈ (k, v) :: rest, cleanString e.1 = true := by
      intro e he
      have := hk e he
      simp only [plainKey, Bool.and_eq_true] at this
      exact this.1.1
    have hfr2 : ∀ e ∈ rest, utf8Decode e.1 ∉ (named ++ [(utf8Decode k, x)]).map Prod.fst := by
      intro e he hmem
      simp only [List.map_append, List.map_cons, List.map_nil, List.mem_append,
        List.mem_singleton] at hmem
      rcases hmem with h1 | h1
      · exact hfr e (List.mem_cons_of_mem _ he) h1
      · have := decode_injective (hclean e (List.mem_cons_of_mem _ he))
          (hclean (k, v) (List.mem_cons_self _ _)) h1
        have hmem := List.mem_map_of_mem Prod.fst he
        rw [this] at hmem
        exact hnd.1 hmem
    obtain ⟨js, st2, hjs, hmatch⟩ := toV8_map_spec rest elements (named ++ [(utf8Decode k, x)]) st1
      (fun e he => hk e (List.mem_cons_of_mem _ he))
      (fun e he => hv e (List.mem_cons_of_mem _ he)) hnd.2 hfr2
    refine ⟨(utf8Decode k, x) :: js, st2, ?_, List.Forall₂.cons ⟨rfl, hback⟩ hmatch⟩
    have hx' : toV8_helper v st = .ok (some x, st1) := hx
    rw [toV8_map, hx']
    simp only [objSet_plain elements named k x hkk hfresh]
    rw [hjs]
    simp

theorem fromV8_named_spec : ∀ (js : List (JsString × V8Value)) (m : List (HString × Value))
    (acc : Value) (st : Engine), EntriesMatch js m → (∀ e ∈ m, cleanString e.1 = true) →
    ∃ st1, fromV8_named js acc st = .ok (m.foldl (fun (a : Value) (e : HString × Value) => a.setKey e.1 e.2) acc, st1)
  | [], [], acc, st, _, _ => ⟨st, by simp [fromV8_named]⟩
  | j :: js, e :: m, acc, st, h, hc => by
    cases h with
    | cons hje hrest =>
      obtain ⟨hkey, hback⟩ := hje
      obtain ⟨st1, h1⟩ := hback st
      obtain ⟨st2, h2⟩ := fromV8_named_spec js m (acc.setKey e.1 e.2) st1 hrest
        (fun x hx => hc x (List.mem_cons_of_mem _ hx))
      refine ⟨st2, ?_⟩
      obtain ⟨jk, jv⟩ := j
      simp only at hkey h1
      rw [fromV8_named, h1]
      simp only
      have hts : toString (.string jk) = e.1 := by
        have hcl := hc e (List.mem_cons_self _ _)
        rw [hkey]
        have := toString_decode hcl
        rwa [cleanString_cstr hcl] at this
      rw [hts, h2]
      rfl

theorem foldl_setKey_map : ∀ (m am : List (HString × Value)),
    ((am ++ m).map Prod.fst).Nodup →
    m.foldl (fun (a : Value) (e : HString × Value) => a.setKey e.1 e.2) (Value.map am)
      = Value.map (am ++ m)
  | [], am, _ => by simp
  | e :: m, am, h => by
    have hnot : e.1 ∉ am.map Prod.fst := by
      simp only [List.map_append, List.map_cons] at h
      have := (List.nodup_append.mp h).2.2
      intro hm
      exact this hm (List.mem_cons_self _ _)
    have hstep : (Value.map am).setKey e.1 e.2 = Value.map (am ++ [(e.1, e.2)]) := by
      simp only [Value.setKey]
      rw [mapInsert_append am e.1 e.2 hnot]
    have h2 : ((am ++ [(e.1, e.2)] ++ m).map Prod.fst).Nodup := by
      simpa using h
    rw [List.foldl_cons, hstep, foldl_setKey_map m (am ++ [(e.1, e.2)]) h2]
    simp

theorem foldl_setKey_invalid (e : HString × Value) (m : List (HString × Value))
    (h : ((e :: m).map Prod.fst).Nodup) :
    (e :: m).foldl (fun (a : Value) (e : HString × Value) => a.setKey e.1 e.2) Value.invalid
      = Value.map (e :: m) := by
  have hstep : Value.invalid.setKey e.1 e.2 = Value.map [(e.1, e.2)] := rfl
  rw [List.foldl_cons, hstep, foldl_setKey_map m [(e.1, e.2)] (by simpa using h)]
  rfl

theorem toV8_list_spec : ∀ (l : List Value) (st : Engine), (∀ e ∈ l, RoundTrips e) →
    ∃ xs st1, toV8_list l st = .ok (xs, st1) ∧
      List.Forall₂ (fun x e => ∀ st2, ∃ st3, fromV8 x st2 = .ok (e, st3)) xs l
  | [], st, _ => ⟨[], st, by simp [toV8_list], List.Forall₂.nil⟩
  | v :: vs, st, h => by
    obtain ⟨x, st1, hx, hback⟩ := h v (List.mem_cons_self _ _) st
    obtain ⟨xs, st2, hxs, hall⟩ := toV8_list_spec vs st1 (fun e he => h e (List.mem_cons_of_mem _ he))
    refine ⟨x :: xs, st2, ?_, List.Forall₂.cons hback hall⟩
    have hx' : toV8_helper v st = .ok (some x, st1) := hx
    rw [toV8_list, hx']
    simp only [hxs]

theorem fromV8_list_spec : ∀ (xs : List V8Value) (l : List Value) (st : Engine),
    List.Forall₂ (fun x e => ∀ st2, ∃ st3, fromV8 x st2 = .ok (e, st3)) xs l →
    ∃ st1, fromV8_list xs st = .ok (l, st1)
  | [], [], st, _ => ⟨st, by simp [fromV8_list]⟩
  | x :: xs, e :: l, st, h => by
    cases h with
    | cons hx hrest =>
      obtain ⟨st1, h1⟩ := hx st
      obtain ⟨st2, h2⟩ := fromV8_list_spec xs l st1 hrest
      refine ⟨st2, ?_⟩
      rw [fromV8_list, h1]
      simp only [h2]

/-- A list whose elements round-trip round-trips. -/
theorem RoundTrips_list (l : List Value) (h : ∀ e ∈ l, RoundTrips e) : RoundTrips (.list l) := by
  intro st
  obtain ⟨xs, st1, hxs, hall⟩ := toV8_list_spec l st h
  refine ⟨.array xs, st1, ?_, ?_⟩
  · simp only [toV8, toV8_helper, hxs]
  · intro st2
    obtain ⟨st3, h3⟩ := fromV8_list_spec xs l st2 hall
    exact ⟨st3, by simp only [fromV8, h3]⟩

/-- A non-empty map with distinct plain keys whose values round-trip round-trips. -/
theorem RoundTrips_map (m : List (HString × Value)) (hne : m ≠ [])
    (hk : ∀ e ∈ m, plainKey e.1 = true) (hnd : (m.map Prod.fst).Nodup)
    (hv : ∀ e ∈ m, RoundTrips e.2) : RoundTrips (.map m) := by
  intro st
  obtain ⟨js, st1, hjs, hmatch⟩ := toV8_map_spec m [] [] { st with nextId := st.nextId + 1 } hk hv
    hnd (fun _ _ => by simp)
  simp only [List.nil_append] at hjs
  refine ⟨.object st.nextId false [] [] [] js, st1, ?_, ?_⟩
  · simp only [toV8, toV8_helper, hjs]
  · intro st2
    have hclean : ∀ e ∈ m, cleanString e.1 = true := by
      intro e he
      have := hk e he
      simp only [plainKey, Bool.and_eq_true] at this
      exact this.1.1
    obtain ⟨st3, h3⟩ := fromV8_named_spec js m .invalid { st2 with nextSym := st2.nextSym + 1 }
      hmatch hclean
    refine ⟨st3, ?_⟩
    cases m with
    | nil => exact absurd rfl hne
    | cons e rest =>
      rw [foldl_setKey_invalid e rest hnd] at h3
      simp only [fromV8, getPrivate, V8Value.isInt32, fromV8_elements, h3]
      simp

end Rct

namespace Rct

open CustomType

theorem roundTrip_of_RoundTrips {v : Value} (h : RoundTrips v) (st : Engine) :
    ∃ st1, roundTrip v st = .ok (v, st1) := by
  obtain ⟨x, st1, hx, hback⟩ := h st
  obtain ⟨st3, h3⟩ := hback st1
  exact ⟨st3, by simp only [roundTrip, hx, h3]⟩

theorem wrapInt32_range (n : Int) : -(2 : Int) ^ 31 ≤ wrapInt32 n ∧ wrapInt32 n < (2 : Int) ^ 31 := by
  unfold wrapInt32; omega

theorem wrapInt32_id (n : Int) (h1 : -(2 : Int) ^ 31 ≤ n) (h2 : n < (2 : Int) ^ 31) :
    wrapInt32 n = n := by
  unfold wrapInt32; omega

/-- What `fromV8` reads from the engine number `toV8` makes of an integer. -/
theorem fromV8_number_ofInt (n : Int) (h1 : -(2 : Int) ^ 31 ≤ n) (h2 : n < (2 : Int) ^ 31)
    (st : Engine) : fromV8 (.number (Double.ofInt n)) st = .ok (.integer n, st) := by
  have h : n.natAbs < 2 ^ 53 := by omega
  simp only [fromV8, Double.isInt32_ofInt n h1 h2, if_true, V8Value.int32Value,
    Double.trunc_ofInt n h, Option.getD_some]

theorem roundTrip_integer (n : Int) (st : Engine) :
    roundTrip (.integer n) st = .ok (.integer (wrapInt32 n), st) := by
  have hr := wrapInt32_range n
  simp only [roundTrip, toV8, toV8_helper, fromV8_number_ofInt (wrapInt32 n) hr.1 hr.2]

theorem RoundTrips_integer (n : Int) (h1 : -(2 : Int) ^ 31 ≤ n) (h2 : n < (2 : Int) ^ 31) :
    RoundTrips (.integer n) := by
  intro st
  refine ⟨.number (Double.ofInt (wrapInt32 n)), st, by simp only [toV8, toV8_helper], ?_⟩
  intro st2
  rw [wrapInt32_id n h1 h2]
  exact ⟨st2, fromV8_number_ofInt n h1 h2 st2⟩

theorem RoundTrips_string (s : HString) (h : cleanString s = true) : RoundTrips (.string s) := by
  intro st
  refine ⟨.string (utf8Decode (cstr s)), st, by simp only [toV8, toV8_helper], ?_⟩
  intro st2
  exact ⟨st2, by simp only [fromV8, toString_decode h]⟩

/-! ## C1 -/

/-- C1, counterexample: the empty Map comes back as the default-constructed (Invalid) value,
not as a Map, and a key with a zero byte comes back cut at that byte. -/
theorem C1_map_roundTrip_counterexample :
    (roundTrip (.map []) ScriptEngine.new).map Prod.fst = .ok .invalid ∧
    (roundTrip (.map [([0x61, 0, 0x62], .undefined)]) ScriptEngine.new).map Prod.fst
      = .ok (.map [([0x61], .undefined)]) :=
  ⟨rfl, rfl⟩

/-- C1, amended: for every non-empty Map whose keys are distinct, well-formed UTF-8 without a
zero byte, and neither an array index nor `__proto__`, and whose values each round-trip,
`fromV8(toV8(m))` is the Map `m`: the same keys and under each key the value of `m`. -/
theorem C1_map_roundTrip (m : List (HString × Value)) (hne : m ≠ [])
    (hk : ∀ e ∈ m, plainKey e.1 = true) (hnd : (m.map Prod.fst).Nodup)
    (hv : ∀ e ∈ m, RoundTrips e.2) (st : Engine) :
    ∃ st1, roundTrip (.map m) st = .ok (.map m, st1) :=
  roundTrip_of_RoundTrips (RoundTrips_map m hne hk hnd hv) st

/-- C1, witness: the Map with the entries `a ↦ 5` and `b ↦ "x"`. -/
theorem C1_map_roundTrip_witness :
    ∃ st1, roundTrip (.map [([0x61], .integer 5), ([0x62], .string [0x78])]) ScriptEngine.new
      = .ok (.map [([0x61], .integer 5), ([0x62], .string [0x78])], st1) :=
  C1_map_roundTrip [([0x61], .integer 5), ([0x62], .string [0x78])] (by simp)
    (by
      intro e he
      simp only [List.mem_cons, List.mem_singleton, List.not_mem_nil, or_false] at he
      rcases he with h | h <;> subst h <;> decide)
    (by decide)
    (by
      intro e he
      simp only [List.mem_cons, List.mem_singleton, List.not_mem_nil, or_false] at he
      rcases he with h | h <;> subst h
      · exact RoundTrips_integer 5 (by norm_num) (by norm_num)
      · exact RoundTrips_string [0x78] (by decide))
    ScriptEngine.new

/-! ## C2 -/

/-- C2, counterexample: the Integer `2^31` comes back as `-2^31`. -/
theorem C2_integer_roundTrip_counterexample :
    (roundTrip (.integer 2147483648) ScriptEngine.new).map Prod.fst
      = .ok (.integer (-2147483648)) := by
  rw [roundTrip_integer]; rfl

/-- C2, amended: for every Integer in the range of a 32-bit signed integer, `fromV8(toV8(v))`
is the Integer `v`. -/
theorem C2_integer_roundTrip (n : Int) (h1 : -(2 : Int) ^ 31 ≤ n) (h2 : n < (2 : Int) ^ 31)
    (st : Engine) : roundTrip (.integer n) st = .ok (.integer n, st) := by
  rw [roundTrip_integer, wrapInt32_id n h1 h2]

/-- C2, witness: the Integer `-7`. -/
theorem C2_integer_roundTrip_witness :
    roundTrip (.integer (-7)) ScriptEngine.new = .ok (.integer (-7), ScriptEngine.new) :=
  C2_integer_roundTrip (-7) (by norm_num) (by norm_num) ScriptEngine.new

/-! ## C3 -/

/-- C3, counterexample: the Double `3.0` comes back as the Integer `3`. -/
theorem C3_double_roundTrip_counterexample :
    Double.ofInt 3 = Double.fin false 6755399441055744 (-51) ∧
    (roundTrip (.double (Double.fin false 6755399441055744 (-51))) ScriptEngine.new).map Prod.fst
      = .ok (.integer 3) :=
  ⟨by decide, rfl⟩

/-- C3, amended: a Double that is not a whole number in the range of a 32-bit signed integer
(or is minus zero) comes back as the same Double; a whole number in that range comes back as
the Integer with the same numeric value. -/
theorem C3_double_roundTrip (d : Double) (st : Engine) :
    (d.isInt32 = false → roundTrip (.double d) st = .ok (.double d, st)) ∧
    (d.isInt32 = true → ∃ i : Int, d.isWhole = true ∧ d.trunc? = some i ∧
      roundTrip (.double d) st = .ok (.integer i, st)) := by
  constructor
  · intro h
    simp only [roundTrip, toV8, toV8_helper, fromV8, h, Bool.false_eq_true, if_false]
  · intro h
    have h' := h
    unfold Double.isInt32 at h'
    simp only [Bool.and_eq_true] at h'
    obtain ⟨⟨hw, _⟩, ht⟩ := h'
    cases hd : d.trunc? with
    | none => rw [hd] at ht; simp at ht
    | some i =>
      refine ⟨i, hw, rfl, ?_⟩
      simp only [roundTrip, toV8, toV8_helper, fromV8, h, if_true, V8Value.int32Value, hd,
        Option.getD_some]

/-- C3, witness: the Double `0.5` comes back as itself and the Double `3.0` as the Integer
`3`. -/
theorem C3_double_roundTrip_witness :
    roundTrip (.double (Double.fin false 4503599627370496 (-53))) ScriptEngine.new
      = .ok (.double (Double.fin false 4503599627370496 (-53)), ScriptEngine.new) ∧
    ∃ i : Int, (Double.fin false 6755399441055744 (-51)).isWhole = true ∧
      (Double.fin false 6755399441055744 (-51)).trunc? = some i ∧
      roundTrip (.double (Double.fin false 6755399441055744 (-51))) ScriptEngine.new
        = .ok (.integer i, ScriptEngine.new) :=
  ⟨(C3_double_roundTrip (Double.fin false 4503599627370496 (-53)) ScriptEngine.new).1
      (by decide),
   (C3_double_roundTrip (Double.fin false 6755399441055744 (-51)) ScriptEngine.new).2
      (by decide)⟩

/-! ## C4 -/

/-- C4, counterexample: the String `a\0b` comes back as `a`, and the single byte `FF` (not
UTF-8) comes back as the three bytes of `U+FFFD`. -/
theorem C4_string_roundTrip_counterexample :
    (roundTrip (.string [0x61, 0, 0x62]) ScriptEngine.new).map Prod.fst = .ok (.string [0x61]) ∧
    (roundTrip (.string [0xFF]) ScriptEngine.new).map Prod.fst
      = .ok (.string [0xEF, 0xBF, 0xBD]) :=
  ⟨rfl, rfl⟩

/-- C4, amended: for every String that is well-formed UTF-8 and holds no zero byte (the empty
string included), `fromV8(toV8(v))` is the String `v`, with the same length and bytes. -/
theorem C4_string_roundTrip (s : HString) (h : cleanString s = true) (st : Engine) :
    roundTrip (.string s) st = .ok (.string s, st) := by
  simp only [roundTrip, toV8, toV8_helper, fromV8, toString_decode h]

/-- C4, witness: the empty String and the String `é€` (five bytes). -/
theorem C4_string_roundTrip_witness :
    roundTrip (.string []) ScriptEngine.new = .ok (.string [], ScriptEngine.new) ∧
    roundTrip (.string [0xC3, 0xA9, 0xE2, 0x82, 0xAC]) ScriptEngine.new
      = .ok (.string [0xC3, 0xA9, 0xE2, 0x82, 0xAC], ScriptEngine.new) :=
  ⟨C4_string_roundTrip [] (by decide) ScriptEngine.new,
   C4_string_roundTrip [0xC3, 0xA9, 0xE2, 0x82, 0xAC] (by decide) ScriptEngine.new⟩

end Rct

namespace Rct

open CustomType

/-! ## C5 -/

theorem toV8_list_total : ∀ (l : List Value) (st : Engine),
    (∀ e ∈ l, ∀ s, ∃ x s1, toV8 e s = .ok (some x, s1)) →
    ∃ xs st1, toV8_list l st = .ok (xs, st1) ∧
      List.Forall₂ (fun e x => ∃ s s1, toV8 e s = .ok (some x, s1)) l xs
  | [], st, _ => ⟨[], st, by simp [toV8_list], List.Forall₂.nil⟩
  | v :: vs, st, h => by
    obtain ⟨x, st1, hx⟩ := h v (List.mem_cons_self _ _) st
    obtain ⟨xs, st2, hxs, hall⟩ :=
      toV8_list_total vs st1 (fun e he => h e (List.mem_cons_of_mem _ he))
    refine ⟨x :: xs, st2, ?_, List.Forall₂.cons ⟨st, st1, hx⟩ hall⟩
    have hx' : toV8_helper v st = .ok (some x, st1) := hx
    rw [toV8_list, hx']
    simp only [hxs]

theorem fromV8_list_total : ∀ (xs : List V8Value) (st : Engine),
    (∀ x ∈ xs, ∀ s, ∃ v s1, fromV8 x s = .ok (v, s1)) →
    ∃ l st1, fromV8_list xs st = .ok (l, st1) ∧
      List.Forall₂ (fun x v => ∃ s s1, fromV8 x s = .ok (v, s1)) xs l
  | [], st, _ => ⟨[], st, by simp [fromV8_list], List.Forall₂.nil⟩
  | x :: xs, st, h => by
    obtain ⟨v, st1, hv⟩ := h x (List.mem_cons_self _ _) st
    obtain ⟨l, st2, hl, hall⟩ :=
      fromV8_list_total xs st1 (fun e he => h e (List.mem_cons_of_mem _ he))
    refine ⟨v :: l, st2, ?_, List.Forall₂.cons ⟨st, st1, hv⟩ hall⟩
    rw [fromV8_list, hv]
    simp only [hl]

/-- C5, counterexample: the element of type Invalid converts to the empty handle, and the
conversion of the List holding it ends in a fault instead of an engine array. -/
theorem C5_list_conversion_counterexample :
    (toV8 .invalid ScriptEngine.new).map Prod.fst = .ok none ∧
    toV8 (.list [.invalid]) ScriptEngine.new = .error .emptyHandle :=
  ⟨rfl, rfl⟩

/-- C5, amended: for every List whose elements each convert to a non-empty engine value,
`toV8` gives an engine array of the same length whose i-th element is `toV8` of the i-th
element; for every engine array whose elements each convert, `fromV8` gives a List of the
same length whose i-th element is `fromV8` of the i-th element; hence a List whose elements
each round-trip comes back equal, in the same order. -/
theorem C5_list_conversion :
    (∀ (l : List Value) (st : Engine), (∀ e ∈ l, ∀ s, ∃ x s1, toV8 e s = .ok (some x, s1)) →
      ∃ xs st1, toV8 (.list l) st = .ok (some (.array xs), st1) ∧ xs.length = l.length ∧
        List.Forall₂ (fun e x => ∃ s s1, toV8 e s = .ok (some x, s1)) l xs) ∧
    (∀ (xs : List V8Value) (st : Engine), (∀ x ∈ xs, ∀ s, ∃ v s1, fromV8 x s = .ok (v, s1)) →
      ∃ l st1, fromV8 (.array xs) st = .ok (.list l, st1) ∧ l.length = xs.length ∧
        List.Forall₂ (fun x v => ∃ s s1, fromV8 x s = .ok (v, s1)) xs l) ∧
    (∀ (l : List Value) (st : Engine), (∀ e ∈ l, RoundTrips e) →
      ∃ st1, roundTrip (.list l) st = .ok (.list l, st1)) := by
  refine ⟨?_, ?_, ?_⟩
  · intro l st h
    obtain ⟨xs, st1, hxs, hall⟩ := toV8_list_total l st h
    exact ⟨xs, st1, by simp only [toV8, toV8_helper, hxs], hall.length_eq.symm, hall⟩
  · intro xs st h
    obtain ⟨l, st1, hl, hall⟩ := fromV8_list_total xs st h
    exact ⟨l, st1, by simp only [fromV8, hl], hall.length_eq.symm, hall⟩
  · intro l st h
    exact roundTrip_of_RoundTrips (RoundTrips_list l h) st

/-- C5, witness: the List `[5, "x", 6]` comes back equal. -/
theorem C5_list_conversion_witness :
    ∃ st1, roundTrip (.list [.integer 5, .string [0x78], .integer 6]) ScriptEngine.new
      = .ok (.list [.integer 5, .string [0x78], .integer 6], st1) :=
  C5_list_conversion.2.2 [.integer 5, .string [0x78], .integer 6] ScriptEngine.new
    (by
      intro e he
      simp only [List.mem_cons, List.mem_singleton, List.not_mem_nil, or_false] at he
      rcases he with h | h | h <;> subst h
      · exact RoundTrips_integer 5 (by norm_num) (by norm_num)
      · exact RoundTrips_string [0x78] (by decide)
      · exact RoundTrips_integer 6 (by norm_num) (by norm_num))

/-! ## C6 -/

theorem timeClip_ofInt (n : Int) (h : n.natAbs ≤ 8640000000000000) :
    timeClip (Double.ofInt n) = Double.ofInt n := by
  have h53 : n.natAbs < 2 ^ 53 := by omega
  have ha := Double.absLeNat_ofInt n 8640000000000000 h53 h
  have ht := Double.trunc_ofInt n h53
  unfold timeClip
  rw [ha, ht, if_pos rfl]

theorem dateSeconds_ofInt (c : Nat) (h : c * 1000 ≤ 8640000000000000) :
    dateSeconds (Double.ofInt ((c : Int) * 1000)) = .ok (c : Int) := by
  have h53 : c * 1000 < 2 ^ 53 := by omega
  unfold dateSeconds
  rw [Double.div_ofInt_1000 c h53, Double.trunc_ofInt (c : Int) (by simp; omega)]
  have hr : (0 : Int) ≤ (c : Int) ∧ (c : Int) < (2 : Int) ^ 64 := by constructor <;> omega
  have hw : wrapInt64 (c : Int) = (c : Int) := by unfold wrapInt64; omega
  simp only [hr, and_self, if_true, hw]

theorem fromV8_date (t : Double) (st : Engine) :
    fromV8 (.date t) st = (match dateSeconds t with
      | .ok secs => .ok (.date secs, st)
      | .error f => .error f) := by
  rw [fromV8]

theorem roundTrip_eq (v : Value) (st : Engine) (x : V8Value) (st1 : Engine)
    (h : toV8 v st = .ok (some x, st1)) : roundTrip v st = fromV8 x st1 := by
  simp only [roundTrip, h]

theorem toV8_date (c : Nat) (h1 : c ≤ 8640000000000) (st : Engine) :
    toV8 (.date (c : Int)) st = .ok (some (.date (Double.ofInt ((c : Int) * 1000))), st) := by
  have hr : -(2 : Int) ^ 63 ≤ (c : Int) * 1000 ∧ (c : Int) * 1000 < (2 : Int) ^ 63 := by
    constructor <;> omega
  have hn : ((c : Int) * 1000).natAbs ≤ 8640000000000000 := by omega
  have htc := timeClip_ofInt ((c : Int) * 1000) hn
  simp only [toV8, toV8_helper]
  rw [if_pos hr, htc]

theorem fromV8_date_ofInt (c : Nat) (h1 : c ≤ 8640000000000) (st : Engine) :
    fromV8 (.date (Double.ofInt ((c : Int) * 1000))) st = .ok (.date (c : Int), st) := by
  have hc : c * 1000 ≤ 8640000000000000 := by omega
  have hd := dateSeconds_ofInt c hc
  rw [fromV8_date, hd]

/-- C6, counterexample: for the Date `10^13` seconds the engine date holds not-a-number, not
`10^16` milliseconds, and the way back ends in a fault. -/
theorem C6_date_roundTrip_counterexample :
    (toV8 (.date 10000000000000) ScriptEngine.new).map Prod.fst = .ok (some (.date .nan)) ∧
    roundTrip (.date 10000000000000) ScriptEngine.new = .error .undefinedBehaviour :=
  ⟨rfl, rfl⟩

/-- C6, amended: for every Date `d` from the epoch up to `8 640 000 000 000` seconds after
it (the range of an engine date), `toV8(d)` is the engine date at `d * 1000` milliseconds and
`fromV8(toV8(d))` is the Date `d`. -/
theorem C6_date_roundTrip (d : Int) (h0 : 0 ≤ d) (h1 : d ≤ 8640000000000) (st : Engine) :
    toV8 (.date d) st = .ok (some (.date (Double.ofInt (d * 1000))), st) ∧
    (Double.ofInt (d * 1000)).isWhole = true ∧
    (Double.ofInt (d * 1000)).trunc? = some (d * 1000) ∧
    roundTrip (.date d) st = .ok (.date d, st) := by
  obtain ⟨c, rfl⟩ := Int.eq_ofNat_of_zero_le h0
  have hc : c ≤ 8640000000000 := by omega
  have h53 : ((c : Int) * 1000).natAbs < 2 ^ 53 := by omega
  have hto := toV8_date c hc st
  refine ⟨hto, Double.isWhole_ofInt ((c : Int) * 1000) h53,
    Double.trunc_ofInt ((c : Int) * 1000) h53, ?_⟩
  rw [roundTrip_eq _ _ _ _ hto]
  exact fromV8_date_ofInt c hc st

/-- C6, witness: the epoch itself and the Date 1 700 000 000. -/
theorem C6_date_roundTrip_witness :
    roundTrip (.date 0) ScriptEngine.new = .ok (.date 0, ScriptEngine.new) ∧
    roundTrip (.date 1700000000) ScriptEngine.new = .ok (.date 1700000000, ScriptEngine.new) :=
  ⟨(C6_date_roundTrip 0 (by norm_num) (by norm_num) ScriptEngine.new).2.2.2,
   (C6_date_roundTrip 1700000000 (by norm_num) (by norm_num) ScriptEngine.new).2.2.2⟩

end Rct

namespace Rct

open CustomType

theorem lookup_append_fresh : ∀ (l : List (Nat × ObjectPrivate)) (n : Nat) (p : ObjectPrivate),
    (∀ a ∈ l.map Prod.fst, a < n) → (l ++ [(n, p)]).lookup n = some p
  | [], n, p, _ => by simp [List.lookup]
  | (a, q) :: rest, n, p, h => by
    have ha : a < n := h a (by simp)
    have hne : (n == a) = false := by simp; omega
    simp only [List.cons_append, List.lookup, hne]
    exact lookup_append_fresh rest n p (fun b hb => h b (by simp at hb ⊢; exact Or.inr hb))

theorem lookup_append_other : ∀ (l : List (Nat × ObjectPrivate)) (n m : Nat) (p : ObjectPrivate),
    n ≠ m → (l ++ [(m, p)]).lookup n = l.lookup n
  | [], n, m, p, h => by
    have hnm : (n == m) = false := by simp [h]
    simp [List.lookup, hnm]
  | (a, q) :: rest, n, m, p, h => by
    simp only [List.cons_append, List.lookup]
    cases hna : n == a
    · exact lookup_append_other rest n m p h
    · rfl

theorem mem_of_lookup : ∀ (l : List (Nat × ObjectPrivate)) (o : Nat),
    (l.lookup o).isSome = true → o ∈ l.map Prod.fst
  | [], _, h => by simp [List.lookup] at h
  | (a, q) :: rest, o, h => by
    simp only [List.lookup] at h
    cases hoa : o == a
    · rw [hoa] at h
      simp only [List.map_cons, List.mem_cons]
      exact Or.inr (mem_of_lookup rest o h)
    · simp only [List.map_cons, List.mem_cons]
      exact Or.inl (by simpa using hoa)

/-- What `fromV8` does with an engine function that carries no private slot: a new Object. -/
theorem fromV8_function (id : Nat) (internalFields : List V8Value)
    (elements : List (Nat × V8Value)) (named : List (JsString × V8Value)) (st : Engine) :
    fromV8 (.object id true [] internalFields elements named) st
      = .ok (.custom (some ⟨CustomType_AdoptedFunction.toInt,
            some (.object id true [] internalFields elements named), some st.nextObject⟩),
          { st with
            nextSym := st.nextSym + 1,
            objects := st.objects ++ [(st.nextObject,
              { ObjectPrivate.init ObjectPrivate.fresh CustomType_AdoptedFunction
                  (.object id true [] internalFields elements named) InitMode.Weak with
                nativeFunc := true })],
            nextObject := st.nextObject + 1 }) := rfl

/-- An Object made by `child` does not come back from the engine as itself: the slot that
holds its kind is keyed by the private symbol `createObject` made, `fromV8` reads the slot of
a symbol of its own, and the engine object is read as a map. -/
theorem objectRoundTrip_child :
    ∃ st1 st2, ScriptEngine.Object.child 0 [0x66] ScriptEngine.new = .ok (1, st1) ∧
      (st1.priv 1).map (fun p => p.customType) = some CustomType_Object ∧
      objectRoundTrip 1 st1 = .ok (none, st2) :=
  ⟨_, _, rfl, rfl, rfl⟩

/-! ## C7 -/

/-- C7, counterexample: after `registerFunction("f", h)` on the global Object of a new engine
the new Object has address 1 and kind `CustomType_Function`; converting it to an engine value
and back gives the Object at address 2, which did not exist before and has kind
`CustomType_AdoptedFunction`. -/
theorem C7_object_identity_counterexample :
    ∃ st1 st2, ScriptEngine.Object.registerFunction 0 [0x66] (fun _ _ => .undefined)
        ScriptEngine.new = .ok (1, st1) ∧
      (st1.priv 1).map (fun p => p.customType) = some CustomType_Function ∧
      objectRoundTrip 1 st1 = .ok (some 2, st2) ∧
      (st1.priv 2).isNone = true ∧
      (st2.priv 2).map (fun p => p.customType) = some CustomType_AdoptedFunction :=
  ⟨_, _, rfl, rfl, rfl, rfl, rfl⟩

/-- C7, amended: for every live host Object `o` with a non-empty engine handle,
`toV8(fromObject(o))` is the engine object of `o` itself; when that engine object is a
function (the Objects of kind HostFunction and AdoptedScriptFunction), converting back gives
a newly made Object of kind `CustomType_AdoptedFunction` that wraps the same function, not
`o`. -/
theorem C7_object_identity (st : Engine) (o : Nat) (p : ObjectPrivate) (obj : V8Value)
    (hp : st.priv o = some p) (hobj : p.object = some obj)
    (hfresh : ∀ a ∈ st.objects.map Prod.fst, a < st.nextObject) :
    (∃ v, ScriptEngine.fromObject o st = .ok (v, st) ∧ toV8 v st = .ok (some obj, st)) ∧
    (∀ id internalFields elements named, obj = .object id true [] internalFields elements named →
      ∃ st1, objectRoundTrip o st = .ok (some st.nextObject, st1) ∧
        st.nextObject ≠ o ∧
        (st1.priv st.nextObject).map (fun q => q.customType) = some CustomType_AdoptedFunction ∧
        (st1.priv st.nextObject).map (fun q => q.object) = some (some obj) ∧
        (st1.priv o).map (fun q => q.customType) = some p.customType) := by
  have hfrom : ScriptEngine.fromObject o st
      = .ok (.custom (some ⟨p.customType.toInt, some obj, some o⟩), st) := by
    simp only [ScriptEngine.fromObject, hp, hobj]
  have hne : st.nextObject ≠ o := by
    have hmem : o ∈ st.objects.map Prod.fst :=
      mem_of_lookup st.objects o (by unfold Engine.priv at hp; rw [hp]; rfl)
    have := hfresh o hmem
    omega
  refine ⟨⟨_, hfrom, rfl⟩, ?_⟩
  intro id internalFields elements named hf
  subst hf
  have hrt : objectRoundTrip o st = .ok (some st.nextObject,
      { st with
        nextSym := st.nextSym + 1,
        objects := st.objects ++ [(st.nextObject,
          { ObjectPrivate.init ObjectPrivate.fresh CustomType_AdoptedFunction
              (.object id true [] internalFields elements named) InitMode.Weak with
            nativeFunc := true })],
        nextObject := st.nextObject + 1 }) := by
    simp only [objectRoundTrip, hfrom, roundTrip, toV8, toV8_helper, fromV8_function]
    rfl
  refine ⟨_, hrt, hne, ?_, ?_, ?_⟩
  · simp only [Engine.priv]
    rw [lookup_append_fresh st.objects st.nextObject _ hfresh]
    rfl
  · simp only [Engine.priv]
    rw [lookup_append_fresh st.objects st.nextObject _ hfresh]
    rfl
  · simp only [Engine.priv]
    rw [lookup_append_other st.objects o st.nextObject _ (Ne.symm hne)]
    unfold Engine.priv at hp
    rw [hp]
    rfl

/-- C7, witness: the Object at address 1 with a function as engine object, next to the global
Object of a new engine. -/
theorem C7_object_identity_witness :
    ∃ st1, objectRoundTrip 1
        { ScriptEngine.new with
          objects := ScriptEngine.new.objects ++
            [(1, ObjectPrivate.init ObjectPrivate.fresh CustomType_Function
                (.object 2 true [] [] [] []) InitMode.Weak)],
          nextObject := 2, nextId := 3 } = .ok (some 2, st1) ∧
      (st1.priv 2).map (fun q => q.customType) = some CustomType_AdoptedFunction := by
  obtain ⟨st1, h1, _, h3, _, _⟩ := (C7_object_identity
    { ScriptEngine.new with
      objects := ScriptEngine.new.objects ++
        [(1, ObjectPrivate.init ObjectPrivate.fresh CustomType_Function
            (.object 2 true [] [] [] []) InitMode.Weak)],
      nextObject := 2, nextId := 3 } 1
    (ObjectPrivate.init ObjectPrivate.fresh CustomType_Function
      (.object 2 true [] [] [] []) InitMode.Weak)
    (.object 2 true [] [] [] []) rfl rfl (by decide)).2 2 [] [] [] rfl
  exact ⟨st1, h1, h3⟩

/-! ## C8 -/

/-- C8, counterexample: two calls of `fromV8` on the same engine function (identity 5) in a
new engine resolve to the Objects at addresses 1 and 2, and so do its two occurrences in one
array. -/
theorem C8_adoption_counterexample :
    (match fromV8 (.object 5 true [] [] [] []) ScriptEngine.new with
     | .ok (v1, st1) =>
       (match fromV8 (.object 5 true [] [] [] []) st1 with
        | .ok (v2, _) => some (ScriptEngine.toObject v1, ScriptEngine.toObject v2)
        | .error _ => none)
     | .error _ => none) = some (some 1, some 2) ∧
    (match fromV8 (.array [.object 5 true [] [] [] [], .object 5 true [] [] [] []])
        ScriptEngine.new with
     | .ok (.list [v1, v2], _) => some (ScriptEngine.toObject v1, ScriptEngine.toObject v2)
     | _ => none) = some (some 1, some 2) :=
  ⟨rfl, rfl⟩

/-- C8, amended: for every engine function `f` that is not a wrapped host Object, every
conversion of `f` into the host (a call of `fromV8` on `f`, an occurrence of `f` in a
converted array) gives a Custom value that resolves through `toObject` to a newly made Object
of kind `CustomType_AdoptedFunction` wrapping `f`; two conversions give two different
Objects. -/
theorem C8_adoption (id : Nat) (internalFields : List V8Value)
    (elements : List (Nat × V8Value)) (named : List (JsString × V8Value)) (st : Engine)
    (hfresh : ∀ a ∈ st.objects.map Prod.fst, a < st.nextObject) :
    (∃ v1 st1 v2 st2,
      fromV8 (.object id true [] internalFields elements named) st = .ok (v1, st1) ∧
      fromV8 (.object id true [] internalFields elements named) st1 = .ok (v2, st2) ∧
      ScriptEngine.toObject v1 = some st.nextObject ∧
      ScriptEngine.toObject v2 = some (st.nextObject + 1) ∧
      ScriptEngine.toObject v1 ≠ ScriptEngine.toObject v2 ∧
      (st.priv st.nextObject).isNone = true ∧
      (st1.priv st.nextObject).map (fun q => q.customType) = some CustomType_AdoptedFunction ∧
      (st1.priv st.nextObject).map (fun q => q.object)
        = some (some (.object id true [] internalFields elements named)) ∧
      (st1.priv (st.nextObject + 1)).isNone = true ∧
      (st2.priv (st.nextObject + 1)).map (fun q => q.customType)
        = some CustomType_AdoptedFunction ∧
      (st2.priv (st.nextObject + 1)).map (fun q => q.object)
        = some (some (.object id true [] internalFields elements named))) ∧
    (∃ v1 v2 st2,
      fromV8 (.array [.object id true [] internalFields elements named,
        .object id true [] internalFields elements named]) st = .ok (.list [v1, v2], st2) ∧
      ScriptEngine.toObject v1 = some st.nextObject ∧
      ScriptEngine.toObject v2 = some (st.nextObject + 1) ∧
      ScriptEngine.toObject v1 ≠ ScriptEngine.toObject v2) := by
  have hnone : ∀ n, st.nextObject ≤ n → st.objects.lookup n = none := by
    intro n hn
    cases hl : st.objects.lookup n with
    | none => rfl
    | some q =>
      have := hfresh n (mem_of_lookup st.objects n (by rw [hl]; rfl))
      omega
  have hfresh1 : ∀ a ∈ (st.objects ++ [(st.nextObject,
      { ObjectPrivate.init ObjectPrivate.fresh CustomType_AdoptedFunction
          (.object id true [] internalFields elements named) InitMode.Weak with
        nativeFunc := true })]).map Prod.fst, a < st.nextObject + 1 := by
    intro a ha
    simp only [List.map_append, List.map_cons, List.map_nil, List.mem_append,
      List.mem_singleton] at ha
    rcases ha with h | h
    · have := hfresh a h; omega
    · omega
  refine ⟨⟨_, _, _, _, fromV8_function id internalFields elements named st,
    fromV8_function id internalFields elements named _, rfl, rfl, ?_, ?_, ?_, ?_, ?_, ?_, ?_⟩,
    ⟨_, _, _, rfl, rfl, rfl, ?_⟩⟩
  · simp [ScriptEngine.toObject, Value.toCustom]
  · simp only [Engine.priv, hnone st.nextObject (le_refl _)]; rfl
  · simp only [Engine.priv]
    rw [lookup_append_fresh st.objects st.nextObject _ hfresh]; rfl
  · simp only [Engine.priv]
    rw [lookup_append_fresh st.objects st.nextObject _ hfresh]; rfl
  · simp only [Engine.priv]
    rw [lookup_append_other st.objects (st.nextObject + 1) st.nextObject _ (by omega),
      hnone (st.nextObject + 1) (by omega)]; rfl
  · simp only [Engine.priv]
    rw [lookup_append_fresh _ (st.nextObject + 1) _ hfresh1]; rfl
  · simp only [Engine.priv]
    rw [lookup_append_fresh _ (st.nextObject + 1) _ hfresh1]; rfl
  · simp [ScriptEngine.toObject, Value.toCustom, adoptFunction]

/-- C8, witness: a function with identity 5 converted twice in a new engine. -/
theorem C8_adoption_witness :
    ∃ v1 st1 v2 st2,
      fromV8 (.object 5 true [] [] [] []) ScriptEngine.new = .ok (v1, st1) ∧
      fromV8 (.object 5 true [] [] [] []) st1 = .ok (v2, st2) ∧
      ScriptEngine.toObject v1 = some 1 ∧ ScriptEngine.toObject v2 = some 2 := by
  obtain ⟨v1, st1, v2, st2, h1, h2, h3, h4, _⟩ :=
    (C8_adoption 5 [] [] [] ScriptEngine.new (by decide)).1
  exact ⟨v1, st1, v2, st2, h1, h2, h3, h4⟩

/-! ## C9 -/

/-- C9: for every Object whose engine handle is non-empty, `fromObject` gives a Custom value
whose tag is the kind of the Object and `toObject` of it is the Object itself; for a value
that is not Custom, and for a Custom that is null or has an empty engine handle, `toObject`
gives no Object. -/
theorem C9_fromObject_toObject (st : Engine) (o : Nat) (p : ObjectPrivate) (obj : V8Value)
    (hp : st.priv o = some p) (hobj : p.object = some obj) :
    (∃ c, ScriptEngine.fromObject o st = .ok (.custom (some c), st) ∧
      c.type = p.customType.toInt ∧ c.object = some obj ∧
      ScriptEngine.toObject (.custom (some c)) = some o) ∧
    (∀ v : Value, v.type ≠ ValueType.Type_Custom → ScriptEngine.toObject v = none) ∧
    ScriptEngine.toObject (.custom none) = none ∧
    (∀ (t : Int) (s : Option Nat), ScriptEngine.toObject (.custom (some ⟨t, none, s⟩)) = none) := by
  refine ⟨⟨⟨p.customType.toInt, some obj, some o⟩, ?_, rfl, rfl, rfl⟩, ?_, rfl, ?_⟩
  · simp only [ScriptEngine.fromObject, hp, hobj]
  · intro v hv
    cases v <;> first | rfl | exact absurd rfl hv
  · intro t s; rfl

/-- C9, witness: the global Object of a new engine (kind `CustomType_Global`, tag 1). -/
theorem C9_fromObject_toObject_witness :
    ∃ c, ScriptEngine.fromObject 0 ScriptEngine.new = .ok (.custom (some c), ScriptEngine.new) ∧
      c.type = 1 ∧ ScriptEngine.toObject (.custom (some c)) = some 0 := by
  obtain ⟨c, h1, h2, _, h4⟩ := (C9_fromObject_toObject ScriptEngine.new 0
    (ObjectPrivate.init ObjectPrivate.fresh CustomType_Global
      (.object 0 false [(0, .number (Double.ofInt CustomType_Global.toInt))] [] []
        [(globalName,
          .object 0 false [(0, .number (Double.ofInt CustomType_Global.toInt))] [] [] [])])
      InitMode.Weak)
    (.object 0 false [(0, .number (Double.ofInt CustomType_Global.toInt))] [] []
        [(globalName,
          .object 0 false [(0, .number (Double.ofInt CustomType_Global.toInt))] [] [] [])])
    rfl rfl).1
  exact ⟨c, h1, h2, h4⟩

end Rct

namespace Rct

open CustomType

/-! ## C10 -/

mutual

theorem toV8_helper_convertible : ∀ (v : Value) (st : Engine), v.convertible = true →
    ∃ x st1, toV8_helper v st = .ok (some x, st1)
  | .invalid, _, h => by simp [Value.convertible] at h
  | .undefined, st, _ => ⟨_, st, by (simp only [toV8_helper]; try rfl)⟩
  | .boolean _, st, _ => ⟨_, st, by (simp only [toV8_helper]; try rfl)⟩
  | .integer _, st, _ => ⟨_, st, by (simp only [toV8_helper]; try rfl)⟩
  | .double _, st, _ => ⟨_, st, by (simp only [toV8_helper]; try rfl)⟩
  | .string _, st, _ => ⟨_, st, by (simp only [toV8_helper]; try rfl)⟩
  | .date t, st, h => by
    simp only [Value.convertible, decide_eq_true_eq] at h
    exact ⟨_, st, by simp only [toV8_helper]; rw [if_pos h]⟩
  | .list l, st, h => by
    simp only [Value.convertible] at h
    obtain ⟨xs, st1, hxs⟩ := toV8_list_convertible l st h
    exact ⟨_, st1, by (simp only [toV8_helper, hxs]; try rfl)⟩
  | .map m, st, h => by
    simp only [Value.convertible] at h
    obtain ⟨r, st1, hr⟩ := toV8_map_convertible m [] [] { st with nextId := st.nextId + 1 } h
    exact ⟨_, st1, by (simp only [toV8_helper, hr]; try rfl)⟩
  | .custom none, st, _ => ⟨_, st, by (simp only [toV8_helper]; try rfl)⟩
  | .custom (some ⟨_, none, _⟩), st, _ => ⟨_, st, by (simp only [toV8_helper]; try rfl)⟩
  | .custom (some ⟨_, some o, _⟩), st, _ => ⟨o, st, by (simp only [toV8_helper]; try rfl)⟩

theorem toV8_list_convertible : ∀ (l : List Value) (st : Engine), convertibleList l = true →
    ∃ xs st1, toV8_list l st = .ok (xs, st1)
  | [], st, _ => ⟨[], st, by (simp only [toV8_list]; try rfl)⟩
  | v :: vs, st, h => by
    simp only [convertibleList, Bool.and_eq_true] at h
    obtain ⟨x, st1, hx⟩ := toV8_helper_convertible v st h.1
    obtain ⟨xs, st2, hxs⟩ := toV8_list_convertible vs st1 h.2
    exact ⟨x :: xs, st2, by (simp only [toV8_list, hx, hxs]; try rfl)⟩

theorem toV8_map_convertible : ∀ (m : List (HString × Value)) (elements : List (Nat × V8Value))
    (named : List (JsString × V8Value)) (st : Engine), convertibleMap m = true →
    ∃ r st1, toV8_map m elements named st = .ok (r, st1)
  | [], elements, named, st, _ => ⟨(elements, named), st, by (simp only [toV8_map]; try rfl)⟩
  | (k, v) :: rest, elements, named, st, h => by
    simp only [convertibleMap, Bool.and_eq_true] at h
    obtain ⟨x, st1, hx⟩ := toV8_helper_convertible v st h.1
    obtain ⟨r, st2, hr⟩ := toV8_map_convertible rest
      (objSet elements named (utf8Decode (cstr k)) x).1
      (objSet elements named (utf8Decode (cstr k)) x).2 st1 h.2
    exact ⟨r, st2, by (simp only [toV8_map, hx, hr]; try rfl)⟩

end

theorem getPrivate_fresh : ∀ (privates : List (Nat × V8Value)) (n sym : Nat),
    privates.all (fun p => decide (p.1 < n)) = true → n ≤ sym →
    getPrivate privates sym = .undefined
  | [], _, _, _, _ => rfl
  | (k, v) :: rest, n, sym, h, hn => by
    simp only [List.all_cons, Bool.and_eq_true, decide_eq_true_eq] at h
    unfold getPrivate
    rw [if_neg (by omega), getPrivate_fresh rest n sym h.2 hn]

mutual

theorem fromV8_readable : ∀ (x : V8Value) (n : Nat) (st : Engine), x.readable n = true →
    n ≤ st.nextSym → ∃ v st1, fromV8 x st = .ok (v, st1) ∧ st.nextSym ≤ st1.nextSym
  | .undefined, _, st, _, _ => ⟨_, st, by (simp only [fromV8]; try rfl), le_refl _⟩
  | .null, _, st, _, _ => ⟨_, st, by (simp only [fromV8]; try rfl), le_refl _⟩
  | .boolean _, _, st, _, _ => ⟨_, st, by (simp only [fromV8]; try rfl), le_refl _⟩
  | .number d, _, st, _, _ => by
    by_cases hd : d.isInt32 = true
    · exact ⟨_, st, by (simp only [fromV8, hd, if_true]; try rfl), le_refl _⟩
    · exact ⟨_, st, by (simp only [fromV8, hd, if_false]; try rfl), le_refl _⟩
  | .string _, _, st, _, _ => ⟨_, st, by (simp only [fromV8]; try rfl), le_refl _⟩
  | .symbol _, _, st, _, _ =>
    ⟨.invalid, { st with errorLog := st.errorLog ++ ["Unknown value type in fromV8"] },
      by (simp only [fromV8]; try rfl), le_refl _⟩
  | .external _, _, st, _, _ =>
    ⟨.invalid, { st with nextSym := st.nextSym + 1 },
      by (simp only [fromV8]; try rfl), Nat.le_succ _⟩
  | .date t, _, st, h, _ => by
    simp only [V8Value.readable, dateReadable] at h
    cases hd : dateSeconds t with
    | ok secs => exact ⟨_, st, by (simp only [fromV8, hd]; try rfl), le_refl _⟩
    | error f => rw [hd] at h; simp at h
  | .array elems, n, st, h, hn => by
    simp only [V8Value.readable] at h
    obtain ⟨l, st1, hl, hle⟩ := fromV8_list_readable elems n st h hn
    exact ⟨_, st1, by (simp only [fromV8, hl]; try rfl), hle⟩
  | .object id callable privates internalFields elements named, n, st, h, hn => by
    simp only [V8Value.readable, Bool.and_eq_true, Bool.or_eq_true] at h
    obtain ⟨hp, hrest⟩ := h
    have hfresh := getPrivate_fresh privates n st.nextSym hp hn
    by_cases hc : callable = true
    · subst hc
      have heq : fromV8 (.object id true privates internalFields elements named) st
          = .ok (.custom (some ⟨CustomType_AdoptedFunction.toInt,
              some (.object id true privates internalFields elements named),
              some (adoptFunction (.object id true privates internalFields elements named)
                { st with nextSym := st.nextSym + 1 }).1⟩),
            (adoptFunction (.object id true privates internalFields elements named)
                { st with nextSym := st.nextSym + 1 }).2) := by
        simp only [fromV8, hfresh, V8Value.isInt32, Bool.false_eq_true, if_false, if_true]
      exact ⟨_, _, heq, by simp [adoptFunction]⟩
    · have hc' : callable = false := by simpa using hc
      subst hc'
      simp only [Bool.false_eq_true, false_or] at hrest
      obtain ⟨acc, st1, h1, hle1⟩ := fromV8_elements_readable elements n .invalid
        { st with nextSym := st.nextSym + 1 } hrest.1 (by simp; omega)
      obtain ⟨r, st2, h2, hle2⟩ := fromV8_named_readable named n acc st1 hrest.2
        (by simp at hle1; omega)
      refine ⟨r, st2, ?_, ?_⟩
      · simp only [fromV8, hfresh, V8Value.isInt32, Bool.false_eq_true, if_false, h1, h2]
      · simp at hle1; omega

theorem fromV8_list_readable : ∀ (xs : List V8Value) (n : Nat) (st : Engine),
    readableList n xs = true → n ≤ st.nextSym →
    ∃ l st1, fromV8_list xs st = .ok (l, st1) ∧ st.nextSym ≤ st1.nextSym
  | [], _, st, _, _ => ⟨[], st, by (simp only [fromV8_list]; try rfl), le_refl _⟩
  | x :: xs, n, st, h, hn => by
    simp only [readableList, Bool.and_eq_true] at h
    obtain ⟨v, st1, hv, hle1⟩ := fromV8_readable x n st h.1 hn
    obtain ⟨l, st2, hl, hle2⟩ := fromV8_list_readable xs n st1 h.2 (by omega)
    exact ⟨v :: l, st2, by (simp only [fromV8_list, hv, hl]; try rfl), by omega⟩

theorem fromV8_elements_readable : ∀ (es : List (Nat × V8Value)) (n : Nat) (acc : Value)
    (st : Engine), readableElements n es = true → n ≤ st.nextSym →
    ∃ r st1, fromV8_elements es acc st = .ok (r, st1) ∧ st.nextSym ≤ st1.nextSym
  | [], _, acc, st, _, _ => ⟨acc, st, by (simp only [fromV8_elements]; try rfl), le_refl _⟩
  | (i, x) :: es, n, acc, st, h, hn => by
    simp only [readableElements, Bool.and_eq_true] at h
    obtain ⟨v, st1, hv, hle1⟩ := fromV8_readable x n st h.1 hn
    obtain ⟨r, st2, hr, hle2⟩ := fromV8_elements_readable es n
      (acc.setKey (toString (.number (Double.ofInt i))) v) st1 h.2 (by omega)
    exact ⟨r, st2, by (simp only [fromV8_elements, hv, hr]; try rfl), by omega⟩

theorem fromV8_named_readable : ∀ (ps : List (JsString × V8Value)) (n : Nat) (acc : Value)
    (st : Engine), readableNamed n ps = true → n ≤ st.nextSym →
    ∃ r st1, fromV8_named ps acc st = .ok (r, st1) ∧ st.nextSym ≤ st1.nextSym
  | [], _, acc, st, _, _ => ⟨acc, st, by (simp only [fromV8_named]; try rfl), le_refl _⟩
  | (k, x) :: ps, n, acc, st, h, hn => by
    simp only [readableNamed, Bool.and_eq_true] at h
    obtain ⟨v, st1, hv, hle1⟩ := fromV8_readable x n st h.1 hn
    obtain ⟨r, st2, hr, hle2⟩ := fromV8_named_readable ps n
      (acc.setKey (toString (.string k)) v) st1 h.2 (by omega)
    exact ⟨r, st2, by (simp only [fromV8_named, hv, hr]; try rfl), by omega⟩

end

/-- C10, counterexample: for the default-constructed (Invalid) value `toV8` returns the empty
handle. -/
theorem C10_total_counterexample :
    Value.invalid.type = ValueType.Type_Invalid ∧
    (toV8 .invalid ScriptEngine.new).map Prod.fst = .ok none :=
  ⟨rfl, rfl⟩

/-- C10, amended: `toV8` returns a non-empty engine value for every host value that holds no
value of type Invalid at any depth and no Date whose milliseconds overflow 64 bits (a Custom
whose handle is empty or null gives `undefined`); for the Invalid value itself it returns the
empty handle. `fromV8` returns a host value without fault for every engine value (a finite
tree) whose private slots were made earlier and whose dates, as far as they are visited, hold
a time whose whole seconds fit `uint64_t`. -/
theorem C10_total :
    (∀ (v : Value) (st : Engine), v.convertible = true → ∃ x st1, toV8 v st = .ok (some x, st1)) ∧
    (∀ (st : Engine) (t : Int) (s : Option Nat),
      toV8 (.custom (some ⟨t, none, s⟩)) st = .ok (some .undefined, st) ∧
      toV8 (.custom none) st = .ok (some .undefined, st)) ∧
    (∀ st : Engine, toV8 .invalid st = .ok (none, st)) ∧
    (∀ (x : V8Value) (st : Engine), x.readable st.nextSym = true →
      ∃ v st1, fromV8 x st = .ok (v, st1)) := by
  refine ⟨fun v st h => toV8_helper_convertible v st h, fun st t s => ⟨rfl, rfl⟩, fun st => rfl, ?_⟩
  intro x st h
  obtain ⟨v, st1, hv, _⟩ := fromV8_readable x st.nextSym st h (le_refl _)
  exact ⟨v, st1, hv⟩

/-- C10, witness: a List holding a Map and a Custom with an empty handle converts to a
non-empty engine value, and an engine array holding a function, `null` and an object converts
to a host value. -/
theorem C10_total_witness :
    (∃ x st1, toV8 (.list [.map [([0x61], .undefined)], .custom (some ⟨2, none, none⟩)])
        ScriptEngine.new = .ok (some x, st1)) ∧
    (∃ v st1, fromV8 (.array [.object 7 true [] [] [] [], .null,
        .object 8 false [] [] [(0, .boolean true)] [([0x61], .date (Double.ofInt 5000))]])
        ScriptEngine.new = .ok (v, st1)) :=
  ⟨C10_total.1 _ ScriptEngine.new (by decide), C10_total.2.2.2 _ ScriptEngine.new (by decide)⟩

end Rct

namespace Rct

open CustomType

/-! ## Paths -/

theorem split_ne_nil (delim : Byte) : ∀ (s : HString), split delim s ≠ []
  | [] => by simp [split]
  | b :: bs => by
    unfold split
    by_cases h : b = delim
    · simp [h]
    · simp only [h, if_false]
      cases hs : split delim bs with
      | nil => simp
      | cons x xs => simp

theorem split_segment (delim : Byte) : ∀ (s : HString), delim ∉ s → split delim s = [s]
  | [], _ => rfl
  | b :: bs, h => by
    simp only [List.mem_cons, not_or] at h
    unfold split
    rw [if_neg (fun e => h.1 e.symm), split_segment delim bs h.2]

theorem split_append (delim : Byte) : ∀ (s t : HString), delim ∉ s →
    split delim (s ++ delim :: t) = s :: split delim t
  | [], t, _ => by simp [split]
  | b :: bs, t, h => by
    simp only [List.mem_cons, not_or] at h
    simp only [List.cons_append]
    conv_lhs => rw [split]
    rw [if_neg (fun e => h.1 e.symm), split_append delim bs t h.2]

/-- Splitting the dotted name of a path gives the segments back. -/
theorem split_dotted : ∀ (segs : List HString), segs ≠ [] → (∀ s ∈ segs, byte 46 ∉ s) →
    split (byte 46) (dotted segs) = segs
  | [], h, _ => absurd rfl h
  | [s], _, hd => by
    simp only [dotted]
    exact split_segment _ s (hd s (List.mem_singleton_self s))
  | s :: t :: rest, _, hd => by
    simp only [dotted]
    rw [split_append _ s _ (hd s (List.mem_cons_self _ _)),
      split_dotted (t :: rest) (by simp) (fun x hx => hd x (List.mem_cons_of_mem _ hx))]

/-- The value the loop of `findFunction` reaches is the value the path resolves to. -/
theorem loop_fst : ∀ (segs : List HString) (root : V8Value) (that : Handle),
    (findFunction.loop segs (some root) that).1 = resolve root segs
  | [], _, _ => rfl
  | s :: rest, root, that => by
    unfold findFunction.loop resolve
    by_cases h : root.isObject = true
    · simp only [h, if_true]
      exact loop_fst rest _ _
    · simp only [h]
      rfl

/-- When the path resolves, the object the loop of `findFunction` leaves in `that` is the one
the path without its last segment resolves to, and it is an object. -/
theorem loop_snd : ∀ (segs : List HString) (root : V8Value) (that : Handle) (f : V8Value),
    segs ≠ [] → resolve root segs = some f →
    ∃ t, (findFunction.loop segs (some root) that).2 = some t ∧
      resolve root segs.dropLast = some t ∧ t.isObject = true
  | [], _, _, _, h, _ => absurd rfl h
  | [s], root, that, f, _, hr => by
    unfold resolve at hr
    by_cases h : root.isObject = true
    · refine ⟨root, ?_, rfl, h⟩
      simp only [findFunction.loop, h, if_true]
    · simp [h] at hr
  | s :: t :: rest, root, that, f, _, hr => by
    unfold resolve at hr
    by_cases h : root.isObject = true
    · simp only [h, if_true] at hr
      obtain ⟨u, hu1, hu2, hu3⟩ := loop_snd (t :: rest) (root.get (utf8Decode (cstr s)))
        (some root) f (by simp) hr
      refine ⟨u, ?_, ?_, hu3⟩
      · rw [findFunction.loop]
        simp only [h, if_true]
        exact hu1
      · simp only [List.dropLast_cons₂]
        rw [resolve]
        simp only [h, if_true]
        exact hu2
    · simp [h] at hr

/-- The outcome of `findFunction` on the dotted name of a path that resolves. -/
theorem findFunction_resolved (st : Engine) (global : V8Value) (segs : List HString)
    (f : V8Value) (hg : st.global = some global) (hne : segs ≠ [])
    (hdot : ∀ s ∈ segs, byte 46 ∉ s) (hf : resolve global segs = some f) :
    ∃ t, findFunction st (dotted segs) = (some f, some t) ∧
      resolve global segs.dropLast = some t ∧ t.isObject = true := by
  obtain ⟨t, ht1, ht2, ht3⟩ := loop_snd segs global none f hne hf
  refine ⟨t, ?_, ht2, ht3⟩
  unfold findFunction
  rw [split_dotted segs hne hdot, hg]
  have h1 := loop_fst segs global none
  rw [hf] at h1
  exact Prod.ext h1 ht1

/-- The value `findFunction` returns for the dotted name of a path. -/
theorem findFunction_fst (st : Engine) (global : V8Value) (segs : List HString)
    (hg : st.global = some global) (hne : segs ≠ []) (hdot : ∀ s ∈ segs, byte 46 ∉ s) :
    (findFunction st (dotted segs)).1 = resolve global segs := by
  unfold findFunction
  rw [split_dotted segs hne hdot, hg]
  exact loop_fst segs global none

/-- The handles `toV8_args` gives are the conversions of the arguments, in order. -/
theorem toV8_args_spec : ∀ (arguments : List Value) (st : Engine) (v8args : List Handle)
    (st1 : Engine), toV8_args arguments st = .ok (v8args, st1) →
    List.Forall₂ (fun a h => ∃ s s1, toV8 a s = .ok (h, s1)) arguments v8args
  | [], st, v8args, st1, h => by
    simp only [toV8_args, Except.ok.injEq, Prod.mk.injEq] at h
    rw [← h.1]
    exact List.Forall₂.nil
  | a :: rest, st, v8args, st1, h => by
    rw [toV8_args] at h
    cases h1 : toV8 a st with
    | error f => rw [h1] at h; simp at h
    | ok r =>
      obtain ⟨x, s1⟩ := r
      rw [h1] at h
      simp only at h
      cases h2 : toV8_args rest s1 with
      | error f => rw [h2] at h; simp at h
      | ok r2 =>
        obtain ⟨xs, s2⟩ := r2
        rw [h2] at h
        simp only [Except.ok.injEq, Prod.mk.injEq] at h
        rw [← h.1]
        exact List.Forall₂.cons ⟨st, s1, h1⟩ (toV8_args_spec rest s1 xs s2 h2)

end Rct
namespace Rct

open CustomType

/-! ## Objects and their children -/

theorem lookup_setPriv_self : ∀ (l : List (Nat × ObjectPrivate)) (o : Nat) (p : ObjectPrivate),
    (l.lookup o).isSome = true → (setPriv l o p).lookup o = some p
  | [], _, _, h => by simp [List.lookup] at h
  | (a, q) :: rest, o, p, h => by
    unfold setPriv
    by_cases hao : a = o
    · rw [if_pos hao]
      simp [List.lookup, hao]
    · rw [if_neg hao]
      have hoa : (o == a) = false := by simp [Ne.symm hao]
      simp only [List.lookup, hoa] at h ⊢
      exact lookup_setPriv_self rest o p h

theorem lookup_setPriv_other : ∀ (l : List (Nat × ObjectPrivate)) (o n : Nat)
    (p : ObjectPrivate), n ≠ o → (setPriv l o p).lookup n = l.lookup n
  | [], _, _, _, _ => rfl
  | (a, q) :: rest, o, n, p, h => by
    unfold setPriv
    by_cases hao : a = o
    · rw [if_pos hao]
      have hna : (n == a) = false := by simp [hao, h]
      simp only [List.lookup, hna]
    · rw [if_neg hao]
      simp only [List.lookup]
      cases hna : n == a
      · exact lookup_setPriv_other rest o n p h
      · rfl

theorem map_fst_setPriv : ∀ (l : List (Nat × ObjectPrivate)) (o : Nat) (p : ObjectPrivate),
    (setPriv l o p).map Prod.fst = l.map Prod.fst
  | [], _, _ => rfl
  | (a, q) :: rest, o, p => by
    unfold setPriv
    by_cases hao : a = o
    · rw [if_pos hao]
      rfl
    · rw [if_neg hao]
      simp only [List.map_cons, map_fst_setPriv rest o p]

theorem lookup_append_left : ∀ (l l2 : List (Nat × ObjectPrivate)) (o : Nat) (p : ObjectPrivate),
    l.lookup o = some p → (l ++ l2).lookup o = some p
  | [], _, _, _, h => by simp [List.lookup] at h
  | (a, q) :: rest, l2, o, p, h => by
    simp only [List.cons_append, List.lookup] at h ⊢
    cases hoa : o == a
    · rw [hoa] at h
      exact lookup_append_left rest l2 o p h
    · rw [hoa] at h
      exact h

theorem childrenSet_lookup_self : ∀ (l : List (HString × Nat)) (k : HString) (o : Nat),
    (childrenSet l k o).lookup k = some o
  | [], k, o => by simp [childrenSet, List.lookup]
  | (j, q) :: rest, k, o => by
    unfold childrenSet
    by_cases h : j = k
    · rw [if_pos h]
      simp [List.lookup, h]
    · rw [if_neg h]
      have hkj : (k == j) = false := by simp [Ne.symm h]
      simp only [List.lookup, hkj]
      exact childrenSet_lookup_self rest k o

theorem childrenSet_lookup_other : ∀ (l : List (HString × Nat)) (k y : HString) (o : Nat),
    y ≠ k → (childrenSet l k o).lookup y = l.lookup y
  | [], k, y, o, h => by
    have hyk : (y == k) = false := by simp [h]
    simp [childrenSet, List.lookup, hyk]
  | (j, q) :: rest, k, y, o, h => by
    unfold childrenSet
    by_cases hjk : j = k
    · rw [if_pos hjk]
      have hyj : (y == j) = false := by simp [hjk, h]
      simp only [List.lookup, hyj]
    · rw [if_neg hjk]
      simp only [List.lookup]
      cases hyj : y == j
      · exact childrenSet_lookup_other rest k y o h
      · rfl

/-- What `createObject` gives when the parent has a live handle: the new Object's address
is the next free one, the parent gets the new engine object under the name and the new Object
in its children, and the new Object is appended. -/
theorem createObject_ok (parent : Nat) (type : CustomType) (name : HString) (st : Engine)
    (pp : ObjectPrivate) (obj : V8Value)
    (ht : type = CustomType_Object ∨ type = CustomType_Function)
    (hp : st.priv parent = some pp) (hobj : pp.object = some obj) :
    ∃ st1, createObject parent type name st = .ok (st.nextObject, st1) ∧
      st1.objects =
        setPriv st.objects parent
          { pp with
            object := some (obj.set (utf8Decode (cstr name)) (createObject.subobj type st)),
            children := childrenSet pp.children name st.nextObject }
        ++ [(st.nextObject,
              ObjectPrivate.init ObjectPrivate.fresh type (createObject.subobj type st)
                InitMode.Weak)] ∧
      st1.nextObject = st.nextObject + 1 ∧ st1.hostCalls = st.hostCalls := by
  unfold createObject
  have hn : ¬ (type ≠ CustomType_Object ∧ type ≠ CustomType_Function) := by
    rcases ht with h | h <;> simp [h]
  rw [if_neg hn]
  simp only [hp, hobj]
  exact ⟨_, rfl, rfl, rfl, rfl⟩

/-- The parent's entry after `createObject`. -/
theorem createObject_parent (parent : Nat) (st st1 : Engine)
    (pp pp1 : ObjectPrivate) (x : ObjectPrivate)
    (hp : st.priv parent = some pp)
    (h : st1.objects = setPriv st.objects parent pp1 ++ [(st.nextObject, x)]) :
    st1.priv parent = some pp1 := by
  unfold Engine.priv at hp ⊢
  rw [h]
  exact lookup_append_left _ _ _ _ (lookup_setPriv_self _ _ _ (by rw [hp]; rfl))

/-- The new Object's entry after `createObject`, all addresses in use being below the next
free one. -/
theorem createObject_child (parent : Nat) (st st1 : Engine) (pp1 : ObjectPrivate)
    (x : ObjectPrivate) (hfresh : ∀ a ∈ st.objects.map Prod.fst, a < st.nextObject)
    (h : st1.objects = setPriv st.objects parent pp1 ++ [(st.nextObject, x)]) :
    st1.priv st.nextObject = some x := by
  unfold Engine.priv
  rw [h]
  exact lookup_append_fresh _ _ _ (by rw [map_fst_setPriv]; exact hfresh)

/-- What `registerFunction` gives when the parent has a live handle and all addresses in
use are below the next free one. -/
theorem registerFunction_ok (p : Nat) (x : HString) (h : Nat → List Value → Value)
    (st : Engine) (pp : ObjectPrivate) (obj : V8Value)
    (hfresh : ∀ a ∈ st.objects.map Prod.fst, a < st.nextObject)
    (hp : st.priv p = some pp) (hobj : pp.object = some obj) :
    ∃ st1 pp1 q, ScriptEngine.Object.registerFunction p x h st = .ok (st.nextObject, st1) ∧
      st1.priv p = some pp1 ∧ pp1.object.isSome = true ∧
      pp1.children = childrenSet pp.children x st.nextObject ∧
      st1.priv st.nextObject = some q ∧ q.customType = CustomType_Function ∧
      q.func = some h ∧
      (∀ a ∈ st1.objects.map Prod.fst, a < st1.nextObject) ∧
      st1.nextObject = st.nextObject + 1 := by
  obtain ⟨s, hs, hso, hsn, _⟩ :=
    createObject_ok p CustomType_Function x st pp obj (Or.inr rfl) hp hobj
  have hplt : p < st.nextObject :=
    hfresh p (mem_of_lookup st.objects p (by unfold Engine.priv at hp; rw [hp]; rfl))
  have hsp := createObject_parent p st s pp _ _ hp hso
  have hsc := createObject_child p st s _ _ hfresh hso
  unfold ScriptEngine.Object.registerFunction
  rw [hs]
  simp only [hsc]
  refine ⟨_, { pp with
      object := some (obj.set (utf8Decode (cstr x)) (createObject.subobj CustomType_Function st)),
      children := childrenSet pp.children x st.nextObject },
    { ObjectPrivate.init ObjectPrivate.fresh CustomType_Function
        (createObject.subobj CustomType_Function st) InitMode.Weak with func := some h },
    rfl, ?_, rfl, rfl, ?_, rfl, rfl, ?_, ?_⟩
  · show List.lookup p (setPriv s.objects st.nextObject _) = some _
    rw [lookup_setPriv_other _ _ _ _ (by omega)]
    exact hsp
  · show List.lookup st.nextObject (setPriv s.objects st.nextObject _) = some _
    exact lookup_setPriv_self _ _ _ (by unfold Engine.priv at hsc; rw [hsc]; rfl)
  · intro a ha
    simp only [map_fst_setPriv] at ha
    rw [hso, List.map_append, map_fst_setPriv] at ha
    simp only [List.map_cons, List.map_nil, List.mem_append, List.mem_singleton] at ha
    show a < s.nextObject
    rw [hsn]
    rcases ha with ha | ha
    · exact Nat.lt_succ_of_lt (hfresh a ha)
    · omega
  · exact hsn

end Rct
namespace Rct

open CustomType

/-! ## Claims C11, C12, C16, C17, C18 -/

/-- C11, counterexample: for a symbol, a kind `fromV8` does not recognise, `fromV8` returns
the default-constructed Value, of type Invalid, while for the engine's `undefined` it returns
the Undefined Value; the two differ in their type. -/
theorem C11_unknown_kind_counterexample :
    fromV8 (.symbol 0) ScriptEngine.new =
      .ok (.invalid, { ScriptEngine.new with errorLog := ["Unknown value type in fromV8"] }) ∧
    fromV8 .undefined ScriptEngine.new = .ok (.undefined, ScriptEngine.new) ∧
    Value.invalid.type ≠ Value.undefined.type :=
  ⟨rfl, rfl, by decide⟩

/-- C11, amended: for every engine value that is not a string, date, array, object, number,
boolean or `undefined`, `fromV8` does not fail and returns the default-constructed Value (type
Invalid): for `null` it leaves the state as it is, and for every other such value it adds the
line `Unknown value type in fromV8` to the error log and changes nothing else. For the
engine's `undefined` it returns the Undefined Value, which is of another type. -/
theorem C11_unknown_kind (x : V8Value) (st : Engine)
    (hs : ∀ s, x ≠ .string s) (hd : ∀ t, x ≠ .date t) (ha : ∀ l, x ≠ .array l)
    (ho : x.isObject = false) (hn : ∀ d, x ≠ .number d) (hb : ∀ b, x ≠ .boolean b)
    (hu : x ≠ .undefined) :
    (x = .null → fromV8 x st = .ok (.invalid, st)) ∧
    (x ≠ .null →
      fromV8 x st =
        .ok (.invalid, { st with errorLog := st.errorLog ++ ["Unknown value type in fromV8"] })) ∧
    Value.invalid.type = ValueType.Type_Invalid ∧
    fromV8 .undefined st = .ok (.undefined, st) ∧
    Value.undefined.type = ValueType.Type_Undefined := by
  refine ⟨?_, ?_, rfl, by simp only [fromV8], rfl⟩
  · intro hx
    rw [hx]
    simp only [fromV8]
  · intro hx
    cases x with
    | undefined => exact absurd rfl hu
    | null => exact absurd rfl hx
    | boolean b => exact absurd rfl (hb b)
    | number d => exact absurd rfl (hn d)
    | string s => exact absurd rfl (hs s)
    | symbol n => simp only [fromV8]
    | external p => simp [V8Value.isObject] at ho
    | date t => exact absurd rfl (hd t)
    | array l => exact absurd rfl (ha l)
    | object id callable privates internalFields elements named =>
      simp [V8Value.isObject] at ho

/-- C11, witness: the amended claim at a symbol, where the line is written to the error
log, and at `null`, where the state is left as it is. -/
theorem C11_unknown_kind_witness :
    fromV8 (.symbol 3) ScriptEngine.new =
      .ok (.invalid, { ScriptEngine.new with
        errorLog := ScriptEngine.new.errorLog ++ ["Unknown value type in fromV8"] }) ∧
    fromV8 .null ScriptEngine.new = .ok (.invalid, ScriptEngine.new) :=
  ⟨(C11_unknown_kind (.symbol 3) ScriptEngine.new (by simp) (by simp) (by simp) rfl (by simp)
      (by simp) (by simp)).2.1 (by simp),
   (C11_unknown_kind .null ScriptEngine.new (by simp) (by simp) (by simp) rfl (by simp)
      (by simp) (by simp)).1 rfl⟩

/-- C12: `child` is idempotent. If `p.child(x)` returns the Object `c`, a second call in
the state the first one left returns `c` again and changes nothing (the children table of
`p` included); whenever the children table of `p` has an entry for `x`, `child(x)` returns
that entry and leaves the state as it is, creating nothing; and `child(x)` does return
whenever `p` holds a live handle. -/
theorem C12_child_idempotent :
    (∀ (p : Nat) (x : HString) (st st1 : Engine) (c : Nat),
      ScriptEngine.Object.child p x st = .ok (c, st1) →
      ScriptEngine.Object.child p x st1 = .ok (c, st1)) ∧
    (∀ (p : Nat) (x : HString) (st : Engine) (pp : ObjectPrivate) (c : Nat),
      st.priv p = some pp → pp.children.lookup x = some c →
      ScriptEngine.Object.child p x st = .ok (c, st)) ∧
    (∀ (p : Nat) (x : HString) (st : Engine) (pp : ObjectPrivate) (obj : V8Value),
      st.priv p = some pp → pp.object = some obj →
      ∃ c st1, ScriptEngine.Object.child p x st = .ok (c, st1)) := by
  have h2 : ∀ (p : Nat) (x : HString) (st : Engine) (pp : ObjectPrivate) (c : Nat),
      st.priv p = some pp → pp.children.lookup x = some c →
      ScriptEngine.Object.child p x st = .ok (c, st) := by
    intro p x st pp c hp hl
    unfold ScriptEngine.Object.child
    simp only [hp, hl]
  refine ⟨?_, h2, ?_⟩
  · intro p x st st1 c h
    cases hp : st.priv p with
    | none =>
      unfold ScriptEngine.Object.child at h
      simp [hp] at h
    | some pp =>
      cases hl : pp.children.lookup x with
      | some ch =>
        rw [h2 p x st pp ch hp hl] at h
        simp only [Except.ok.injEq, Prod.mk.injEq] at h
        rw [← h.1, ← h.2]
        exact h2 p x st pp ch hp hl
      | none =>
        unfold ScriptEngine.Object.child at h
        simp only [hp, hl] at h
        cases hobj : pp.object with
        | none =>
          unfold createObject at h
          simp [hp, hobj] at h
        | some obj =>
          obtain ⟨s, hs, hso, _, _⟩ :=
            createObject_ok p CustomType_Object x st pp obj (Or.inl rfl) hp hobj
          rw [hs] at h
          simp only [Except.ok.injEq, Prod.mk.injEq] at h
          rw [← h.1, ← h.2]
          exact h2 p x s _ _ (createObject_parent p st s pp _ _ hp hso)
            (childrenSet_lookup_self _ _ _)
  · intro p x st pp obj hp hobj
    cases hl : pp.children.lookup x with
    | some ch => exact ⟨ch, st, h2 p x st pp ch hp hl⟩
    | none =>
      obtain ⟨s, hs, _⟩ :=
        createObject_ok p CustomType_Object x st pp obj (Or.inl rfl) hp hobj
      refine ⟨st.nextObject, s, ?_⟩
      unfold ScriptEngine.Object.child
      simp only [hp, hl]
      exact hs

/-- C12, witness: on the new engine, `child("a")` of the global Object returns an Object,
and the second call returns the same one and leaves the state as it is. -/
theorem C12_child_idempotent_witness :
    ∃ c st1, ScriptEngine.Object.child 0 [0x61] ScriptEngine.new = .ok (c, st1) ∧
      ScriptEngine.Object.child 0 [0x61] st1 = .ok (c, st1) := by
  obtain ⟨c, st1, h⟩ := C12_child_idempotent.2.2 0 [0x61] ScriptEngine.new _ _ rfl rfl
  exact ⟨c, st1, h, C12_child_idempotent.1 0 [0x61] ScriptEngine.new st1 c h⟩

/-- C16: for an Object `f` of kind `CustomType_Function` with handler `h`, `f.call(args)`
returns `h(f, args)`: the handler is invoked once, with `f` itself and the arguments in their
order, nothing else in the state changes, the error string is not written, and neither the
engine nor the `thisObject` has a part in it. -/
theorem C16_host_function_call (rt : Runtime) (st : Engine) (f : Nat) (p : ObjectPrivate)
    (h : Nat → List Value → Value) (arguments : List Value) (thisObject : Option Nat)
    (error : Bool) (hp : st.priv f = some p) (hk : p.customType = CustomType_Function)
    (hh : p.func = some h) :
    ScriptEngine.Object.call rt f arguments thisObject error st =
      .ok ((h f arguments, none),
        { st with hostCalls := st.hostCalls ++ [.function f arguments] }) := by
  unfold ScriptEngine.Object.call
  simp only [hp, hk, hh]
  simp

/-- C16, witness: the Object at address 1 of the example engine, whose handler returns the
list of its arguments, called with two arguments. -/
theorem C16_host_function_call_witness :
    ScriptEngine.Object.call exampleRuntime 1 [.integer 1, .boolean true] none true
        exampleEngine =
      .ok ((.list [.integer 1, .boolean true], none),
        { exampleEngine with
          hostCalls := exampleEngine.hostCalls ++ [.function 1 [.integer 1, .boolean true]] }) :=
  C16_host_function_call exampleRuntime exampleEngine 1 _ (fun _ arguments => Value.list arguments)
    [.integer 1, .boolean true] none true rfl rfl rfl

/-- C17: `Object::call` does not look at its `thisObject`: two calls that differ only in it
are the same computation. For the adopted function at address 2 of the example engine, in an
engine in which every function returns its receiver, the call with the Object at address 1 as
`thisObject` returns the adopted function itself (adopted once more, as the Object at address
3), not the engine value of the Object at address 1; the thunk `nativeFunc`, which
`Object::call` never invokes, does pass the receiver it is given. -/
theorem C17_thisObject_ignored :
    (∀ (rt : Runtime) (f : Nat) (arguments : List Value) (t1 t2 : Option Nat) (error : Bool)
        (st : Engine),
      ScriptEngine.Object.call rt f arguments t1 error st =
        ScriptEngine.Object.call rt f arguments t2 error st) ∧
    (∃ st1, ScriptEngine.Object.call exampleRuntime 2 [] (some 1) false exampleEngine =
      .ok ((.custom (some ⟨CustomType_AdoptedFunction.toInt, some (.object 4 true [] [] [] []),
          some 3⟩), none), st1)) ∧
    (∃ st1, adoptFunction.nativeFunc exampleRuntime 2 (some (.object 5 true [] [] [] [])) []
        exampleEngine =
      .ok (.custom (some ⟨CustomType_AdoptedFunction.toInt, some (.object 5 true [] [] [] []),
          some 3⟩), st1)) :=
  ⟨fun _ _ _ _ _ _ _ => rfl, ⟨_, rfl⟩, ⟨_, rfl⟩⟩

/-- C18: when `p` holds a live handle (and the addresses in use are below the next free
one), `p.registerFunction(x, h1)` and then `p.registerFunction(x, h2)` both return; after
them the children entry of `p` for `x` is the Object the second call returned, that Object
has the kind `CustomType_Function` and the handler `h2`, and the children entry of `p` under
every other name is what it was before. -/
theorem C18_registerFunction_replaces (p : Nat) (x : HString)
    (h1 h2 : Nat → List Value → Value) (st : Engine) (pp : ObjectPrivate) (obj : V8Value)
    (hfresh : ∀ a ∈ st.objects.map Prod.fst, a < st.nextObject)
    (hp : st.priv p = some pp) (hobj : pp.object = some obj) :
    ∃ o1 st1 o2 st2 pp2 q,
      ScriptEngine.Object.registerFunction p x h1 st = .ok (o1, st1) ∧
      ScriptEngine.Object.registerFunction p x h2 st1 = .ok (o2, st2) ∧
      st2.priv p = some pp2 ∧ pp2.children.lookup x = some o2 ∧
      st2.priv o2 = some q ∧ q.customType = CustomType_Function ∧ q.func = some h2 ∧
      (∀ y, y ≠ x → pp2.children.lookup y = pp.children.lookup y) := by
  obtain ⟨st1, pp1, q1, hr1, hp1, ho1, hc1, _, _, _, hfresh1, hn1⟩ :=
    registerFunction_ok p x h1 st pp obj hfresh hp hobj
  obtain ⟨obj1, hobj1⟩ := Option.isSome_iff_exists.mp ho1
  obtain ⟨st2, pp2, q2, hr2, hp2, _, hc2, hq2, hk2, hf2, _, _⟩ :=
    registerFunction_ok p x h2 st1 pp1 obj1 hfresh1 hp1 hobj1
  refine ⟨st.nextObject, st1, st1.nextObject, st2, pp2, q2, hr1, hr2, hp2, ?_, hq2, hk2, hf2, ?_⟩
  · rw [hc2]
    exact childrenSet_lookup_self _ _ _
  · intro y hy
    rw [hc2, childrenSet_lookup_other _ _ _ _ hy, hc1, childrenSet_lookup_other _ _ _ _ hy]

/-- C18, witness: two registrations of `f` on the global Object of the new engine, with a
handler that returns `undefined` and then one that returns the list of its arguments. -/
theorem C18_registerFunction_replaces_witness :
    ∃ o1 st1 o2 st2 pp2 q,
      ScriptEngine.Object.registerFunction 0 [0x66] (fun _ _ => Value.undefined)
        ScriptEngine.new = .ok (o1, st1) ∧
      ScriptEngine.Object.registerFunction 0 [0x66] (fun _ arguments => Value.list arguments)
        st1 = .ok (o2, st2) ∧
      st2.priv 0 = some pp2 ∧ pp2.children.lookup [0x66] = some o2 ∧
      st2.priv o2 = some q ∧ q.customType = CustomType_Function ∧
      q.func = some (fun _ arguments => Value.list arguments) ∧
      (∀ y, y ≠ [0x66] →
        pp2.children.lookup y = (List.lookup y ([] : List (HString × Nat)))) :=
  C18_registerFunction_replaces 0 [0x66] (fun _ _ => Value.undefined)
    (fun _ arguments => Value.list arguments) ScriptEngine.new
    (ObjectPrivate.init ObjectPrivate.fresh CustomType_Global
      (.object 0 false [(0, .number (Double.ofInt CustomType_Global.toInt))] [] []
        [(globalName,
          .object 0 false [(0, .number (Double.ofInt CustomType_Global.toInt))] [] [] [])])
      InitMode.Weak)
    _ (by decide) rfl rfl

end Rct
namespace Rct

open CustomType

/-! ## Claims C13, C14, C15 -/

/-- The loop over the arguments of a call gives the handles the spec describes. -/
theorem toV8_args_of_converted : ∀ (arguments : List Value) (st : Engine)
    (v8args : List Handle) (st1 : Engine), ArgumentsConverted arguments st v8args st1 →
    toV8_args arguments st = .ok (v8args, st1)
  | [], st, v8args, st1, h => by
    simp only [ArgumentsConverted] at h
    rw [h.1, h.2]
    rfl
  | a :: rest, st, v8args, st2, h => by
    simp only [ArgumentsConverted] at h
    obtain ⟨x, st1, hs1, ha, hv, hr⟩ := h
    rw [toV8_args, ha]
    simp only
    rw [toV8_args_of_converted rest st1 hs1 st2 hr, hv]

/-- Arguments that are convertible are converted, each to a handle that is not empty. -/
theorem converted_of_convertible : ∀ (arguments : List Value) (st : Engine),
    convertibleList arguments = true →
    ∃ v8args st1, ArgumentsConverted arguments st v8args st1 ∧
      v8args.length = arguments.length ∧ ∀ h ∈ v8args, h.isSome = true
  | [], st, _ => ⟨[], st, ⟨rfl, rfl⟩, rfl, fun _ hh => absurd hh (List.not_mem_nil _)⟩
  | a :: rest, st, h => by
    simp only [convertibleList, Bool.and_eq_true] at h
    obtain ⟨x, st1, hx⟩ := toV8_helper_convertible a st h.1
    obtain ⟨hs1, st2, hc, hl, hall⟩ := converted_of_convertible rest st1 h.2
    refine ⟨some x :: hs1, st2, ⟨some x, st1, hs1, hx, rfl, hc⟩, ?_, ?_⟩
    · simp only [List.length_cons, hl]
    · intro y hy
      rcases List.mem_cons.mp hy with e | e
      · rw [e]; rfl
      · exact hall y e

/-- C13: for a dotted name whose proper prefixes resolve from the global object to objects
and which itself resolves to a function `f`: whenever the handles `v8args` are `toV8` of the
arguments in their given order, and calling `f` with the object the name without its last
segment resolves to as `this` (the global object for a single segment) and with `v8args`
returns `r`, `ScriptEngine::call` returns `fromV8(r)` and writes no error. Arguments that
hold no value `toV8` has no engine value for are so converted, one handle that is not empty
for each. -/
theorem C13_call_dispatch (rt : Runtime) (st : Engine) (global : V8Value)
    (segs : List HString) (f : V8Value) (arguments : List Value) (error : Bool)
    (hg : st.global = some global) (hne : segs ≠ []) (hdot : ∀ s ∈ segs, byte 46 ∉ s)
    (hpre : ∀ k, k < segs.length →
      ∃ o, resolve global (segs.take k) = some o ∧ o.isObject = true)
    (hf : resolve global segs = some f) (hfun : f.isFunction = true) :
    ∃ that, resolve global segs.dropLast = some that ∧ that.isObject = true ∧
      (∀ v8args st1 r st2, ArgumentsConverted arguments st v8args st1 →
        rt.call f that v8args st1 = .ok (.returned r, st2) →
        ScriptEngine.call rt (dotted segs) arguments error st =
          (match fromV8 r st2 with
           | .error e => .error e
           | .ok (v, st3) => .ok ((v, none), st3))) ∧
      (convertibleList arguments = true →
        ∃ v8args st1, ArgumentsConverted arguments st v8args st1 ∧
          v8args.length = arguments.length ∧ ∀ h ∈ v8args, h.isSome = true) := by
  have hlen : segs.length - 1 < segs.length := by
    cases segs with
    | nil => exact absurd rfl hne
    | cons a l => simp
  obtain ⟨that, hthat, hobj⟩ := hpre (segs.length - 1) hlen
  rw [← List.dropLast_eq_take] at hthat
  obtain ⟨t, hff, ht, _⟩ := findFunction_resolved st global segs f hg hne hdot hf
  have htt : t = that := by
    rw [ht] at hthat
    exact Option.some.inj hthat
  rw [htt] at hff
  have hcall : ScriptEngine.call rt (dotted segs) arguments error st =
      (match toV8_args arguments st with
       | .error e => .error e
       | .ok (v8args, st1) => callAndConvert rt f that v8args error st1) := by
    unfold ScriptEngine.call
    rw [hff]
    simp only [hfun, hobj, if_true]
  refine ⟨that, hthat, hobj, ?_, converted_of_convertible arguments st⟩
  intro v8args st1 r st2 ha hc
  rw [hcall, toV8_args_of_converted arguments st v8args st1 ha]
  simp only
  unfold callAndConvert
  rw [hc]
  simp only [Outcome.maybe, toLocalChecked, Outcome.caught, catchError]
  cases fromV8 r st2 with
  | error e => simp
  | ok x => simp

/-- C13, witness: in the example engine, `ns.fn` called with the argument 1 in an engine
in which every function returns the array of the property `n` of its receiver and of its
arguments: the result is the list of 7, the property `n` of the object `ns`, and 1. -/
theorem C13_call_dispatch_witness :
    ScriptEngine.call echoRuntime (dotted [ascii "ns", ascii "fn"]) [.integer 1] true
        exampleEngine =
      .ok ((.list [.integer 7, .integer 1], none), exampleEngine) := by
  obtain ⟨that, hthat, _, hcall, _⟩ :=
    C13_call_dispatch echoRuntime exampleEngine
      (.object 0 false [(0, .number (Double.ofInt 1))] [] []
        [(utf8Decode (ascii "ns"),
          .object 2 false [] [] [] [(utf8Decode (ascii "fn"), .object 3 true [] [] [] []),
            (utf8Decode (ascii "n"), .number (Double.ofInt 7))])])
      [ascii "ns", ascii "fn"] (.object 3 true [] [] [] []) [.integer 1] true rfl (by simp)
      (by decide)
      (fun k hk =>
        match k, hk with
        | 0, _ => ⟨_, rfl, rfl⟩
        | 1, _ => ⟨_, rfl, rfl⟩)
      rfl rfl
  have ht : some (V8Value.object 2 false [] [] []
      [(utf8Decode (ascii "fn"), .object 3 true [] [] [] []),
        (utf8Decode (ascii "n"), .number (Double.ofInt 7))]) = some that := hthat
  rw [← Option.some.inj ht] at hcall
  exact hcall [some (.number (Double.ofInt 1))] exampleEngine _ exampleEngine
    ⟨_, _, _, rfl, rfl, rfl, rfl⟩ rfl

/-- C14: for a dotted name that does not resolve from the global object, because a value
on the way is not an object (a missing segment reads as `undefined`), or that resolves to a
value that is not a function (a missing last segment included), both overloads of
`ScriptEngine::call` return the default-constructed Value, whatever the engine would do with
a call: the state is unchanged, there is no fault and the error string is not written. -/
theorem C14_call_unresolved (rt : Runtime) (st : Engine) (global : V8Value)
    (segs : List HString) (arguments : List Value) (error : Bool)
    (hg : st.global = some global) (hne : segs ≠ []) (hdot : ∀ s ∈ segs, byte 46 ∉ s)
    (hfail : resolve global segs = none ∨
      ∃ v, resolve global segs = some v ∧ v.isFunction = false) :
    ScriptEngine.call rt (dotted segs) arguments error st = .ok ((.invalid, none), st) ∧
    ScriptEngine.callNoArguments rt (dotted segs) error st = .ok ((.invalid, none), st) := by
  have h1 := findFunction_fst st global segs hg hne hdot
  unfold ScriptEngine.call ScriptEngine.callNoArguments
  rcases hfail with h | ⟨v, h, hv⟩
  · rw [h] at h1
    rw [h1]
    exact ⟨rfl, rfl⟩
  · rw [h] at h1
    rw [h1]
    simp only [hv]
    exact ⟨rfl, rfl⟩

/-- C14, witness: in the example engine, `ns.missing.c` (a missing segment on the way) does
not resolve. -/
theorem C14_call_unresolved_witness :
    ScriptEngine.call exampleRuntime (dotted [ascii "ns", ascii "missing", ascii "c"])
        [.integer 1, .integer 2] true exampleEngine = .ok ((.invalid, none), exampleEngine) ∧
    ScriptEngine.callNoArguments exampleRuntime
        (dotted [ascii "ns", ascii "missing", ascii "c"]) true exampleEngine =
      .ok ((.invalid, none), exampleEngine) :=
  C14_call_unresolved exampleRuntime exampleEngine _ [ascii "ns", ascii "missing", ascii "c"]
    [.integer 1, .integer 2] true rfl (by simp) (by decide) (Or.inl rfl)

/-- C15: when the compilation of the source throws, and when the source compiles but the
run of the script throws, `evaluate` ends in the fault of `ToLocalChecked` on the empty
result: `catchError` is not reached, no Value is returned and no error string is written. -/
theorem C15_evaluate_aborts (rt : Runtime) (source path : HString) (error : Bool)
    (st : Engine) :
    (∀ m st1, rt.compile (utf8Decode source) (utf8Decode (cstr path)) st = .ok (.threw m, st1) →
      ScriptEngine.evaluate rt source path error st = .error .emptyHandle) ∧
    (∀ script st1 m st2,
      rt.compile (utf8Decode source) (utf8Decode (cstr path)) st = .ok (.returned script, st1) →
      rt.run script st1 = .ok (.threw m, st2) →
      ScriptEngine.evaluate rt source path error st = .error .emptyHandle) := by
  constructor
  · intro m st1 hc
    unfold ScriptEngine.evaluate
    rw [hc]
    rfl
  · intro script st1 m st2 hc hr
    unfold ScriptEngine.evaluate
    rw [hc]
    simp only [Outcome.maybe, toLocalChecked, Outcome.caught, catchError]
    rw [hr]
    rfl

/-- C15, witness: the source `(` in an engine whose compiler rejects it, and the source
`throw 1` in an engine in which the script throws. -/
theorem C15_evaluate_aborts_witness :
    ScriptEngine.evaluate rejectingRuntime (ascii "(") (ascii "test.js") true ScriptEngine.new =
      .error .emptyHandle ∧
    ScriptEngine.evaluate throwingRuntime (ascii "throw 1") (ascii "test.js") true
      ScriptEngine.new = .error .emptyHandle :=
  ⟨(C15_evaluate_aborts rejectingRuntime (ascii "(") (ascii "test.js") true
      ScriptEngine.new).1 _ _ rfl,
   (C15_evaluate_aborts throwingRuntime (ascii "throw 1") (ascii "test.js") true
      ScriptEngine.new).2 _ _ _ _ rfl rfl⟩

end Rct
namespace Rct

open CustomType

/-! ## Claims C19, C20 -/

/-- A value that is not of type Invalid converts to a handle that is not empty. -/
theorem toV8_isSome (v : Value) (st st1 : Engine) (h : Handle)
    (hv : v.type ≠ ValueType.Type_Invalid) (hc : toV8 v st = .ok (h, st1)) :
    h.isSome = true := by
  unfold toV8 at hc
  cases v with
  | invalid => exact absurd rfl hv
  | undefined =>
    simp only [toV8_helper, Except.ok.injEq, Prod.mk.injEq] at hc
    rw [← hc.1]; rfl
  | boolean b =>
    simp only [toV8_helper, Except.ok.injEq, Prod.mk.injEq] at hc
    rw [← hc.1]; rfl
  | integer n =>
    simp only [toV8_helper, Except.ok.injEq, Prod.mk.injEq] at hc
    rw [← hc.1]; rfl
  | double d =>
    simp only [toV8_helper, Except.ok.injEq, Prod.mk.injEq] at hc
    rw [← hc.1]; rfl
  | string s =>
    simp only [toV8_helper, Except.ok.injEq, Prod.mk.injEq] at hc
    rw [← hc.1]; rfl
  | date t =>
    simp only [toV8_helper] at hc
    split at hc
    · simp only [Except.ok.injEq, Prod.mk.injEq] at hc
      rw [← hc.1]; rfl
    · simp at hc
  | list l =>
    simp only [toV8_helper] at hc
    split at hc
    · simp only [Except.ok.injEq, Prod.mk.injEq] at hc
      rw [← hc.1]; rfl
    · simp at hc
  | map m =>
    simp only [toV8_helper] at hc
    split at hc
    · simp only [Except.ok.injEq, Prod.mk.injEq] at hc
      rw [← hc.1]; rfl
    · simp at hc
  | custom c =>
    simp only [toV8_helper] at hc
    split at hc
    · simp only [Except.ok.injEq, Prod.mk.injEq] at hc
      rw [← hc.1]; rfl
    · split at hc
      · simp only [Except.ok.injEq, Prod.mk.injEq] at hc
        rw [← hc.1]; rfl
      · simp only [Except.ok.injEq, Prod.mk.injEq] at hc
        rw [← hc.1]; rfl

/-- C19, counterexample: the constructor of the example class returns its first argument;
for `new` with the argument 1 that is an Integer, not a Custom, and `ClassConstruct` throws
nothing into the engine (and sets no return value). -/
theorem C19_ClassConstruct_counterexample :
    ClassConstruct exampleClass [.number (Double.ofInt 1)] ScriptEngine.new =
      .ok (⟨none, none⟩,
        { ScriptEngine.new with hostCalls := [.constructor [.integer 1]] }) :=
  rfl

/-- C19, amended: for a class with a registered constructor and arguments that convert, the
constructor is invoked once with the converted arguments, and: if it returns a Value that is
not Custom, `ClassConstruct` sets no return value and throws nothing; if it returns a Custom
that is null or whose handle is empty, `ClassConstruct` throws the exception `Unable to get
object for ClassConstruct` into the engine and sets no return value; if it returns a Custom
whose handle holds an engine object, the return value is that object and nothing is thrown. -/
theorem C19_ClassConstruct (priv : ClassPrivate) (constructor : List Value → Value)
    (info : List V8Value) (st st1 : Engine) (args : List Value)
    (hc : priv.constructor = some constructor) (ha : fromV8_list info st = .ok (args, st1)) :
    ((constructor args).type ≠ ValueType.Type_Custom →
      ClassConstruct priv info st =
        .ok (⟨none, none⟩, { st1 with hostCalls := st1.hostCalls ++ [.constructor args] })) ∧
    ((constructor args = .custom none ∨ ∃ t s, constructor args = .custom (some ⟨t, none, s⟩)) →
      ClassConstruct priv info st =
        .ok (⟨none,
            some (.string (utf8Decode (ascii "Unable to get object for ClassConstruct")))⟩,
          { st1 with hostCalls := st1.hostCalls ++ [.constructor args] })) ∧
    (∀ t o s, constructor args = .custom (some ⟨t, some o, s⟩) → o.isObject = true →
      ClassConstruct priv info st =
        .ok (⟨some o, none⟩,
          { st1 with hostCalls := st1.hostCalls ++ [.constructor args] })) := by
  refine ⟨?_, ?_, ?_⟩
  · intro h
    unfold ClassConstruct
    simp only [hc, ha, Value.isCustom, h, decide_False]
    rfl
  · intro h
    unfold ClassConstruct
    simp only [hc, ha]
    rcases h with h | ⟨t, s, h⟩
    · rw [h]
      rfl
    · rw [h]
      rfl
  · intro t o s h ho
    unfold ClassConstruct
    simp only [hc, ha]
    rw [h]
    simp only [Value.isCustom, Value.type, decide_True, if_true, toV8, toV8_helper, ho]

/-- C19, witness: the example class. Without arguments its constructor returns a Custom
with an empty handle and `ClassConstruct` throws; with an engine function as argument its
constructor returns the Custom of the adopted function and the return value is that
function. -/
theorem C19_ClassConstruct_witness :
    ClassConstruct exampleClass [] ScriptEngine.new =
      .ok (⟨none,
          some (.string (utf8Decode (ascii "Unable to get object for ClassConstruct")))⟩,
        { ScriptEngine.new with
          hostCalls := ScriptEngine.new.hostCalls ++ [.constructor []] }) ∧
    (∃ st1, ClassConstruct exampleClass [.object 7 true [] [] [] []] ScriptEngine.new =
      .ok (⟨some (.object 7 true [] [] [] []), none⟩, st1)) :=
  ⟨(C19_ClassConstruct exampleClass _ [] ScriptEngine.new ScriptEngine.new [] rfl rfl).2.1
      (Or.inr ⟨_, _, rfl⟩),
   ⟨_, (C19_ClassConstruct exampleClass _ [.object 7 true [] [] [] []] ScriptEngine.new _ _
      rfl rfl).2.2 _ _ _ rfl rfl⟩⟩

/-- C20: for a live instance `obj` behind the holder and a property name: the get
interceptor is invoked once with `obj` and the name; if it returns a Value of type Invalid,
`ClassInterceptGetter` sets no return value; if it returns another Value `r`, the return
value is `toV8(r)`, a handle that is not empty. The same holds of `ClassInterceptSetter` and
the set interceptor, which is invoked with `obj`, the name and `fromV8` of the assigned
engine value. Neither throws into the engine. -/
theorem C20_intercept (priv : ClassPrivate) (holder property : V8Value) (st : Engine)
    (obj : Nat) (hobj : objectFromV8Object holder st = .ok (some obj)) :
    (∀ getter, priv.intercept.getter = some getter →
      ((getter obj (toString property)).type = ValueType.Type_Invalid →
        ClassInterceptGetter priv holder property st =
          .ok (⟨none, none⟩,
            { st with hostCalls := st.hostCalls ++ [.interceptGet obj (toString property)] })) ∧
      ((getter obj (toString property)).type ≠ ValueType.Type_Invalid →
        ∀ h st2,
          toV8 (getter obj (toString property))
            { st with hostCalls := st.hostCalls ++ [.interceptGet obj (toString property)] } =
            .ok (h, st2) →
          ClassInterceptGetter priv holder property st = .ok (⟨h, none⟩, st2) ∧
            h.isSome = true)) ∧
    (∀ setter value v st1, priv.intercept.setter = some setter →
      fromV8 value st = .ok (v, st1) →
      ((setter obj (toString property) v).type = ValueType.Type_Invalid →
        ClassInterceptSetter priv holder property value st =
          .ok (⟨none, none⟩,
            { st1 with
              hostCalls := st1.hostCalls ++ [.interceptSet obj (toString property) v] })) ∧
      ((setter obj (toString property) v).type ≠ ValueType.Type_Invalid →
        ∀ h st2,
          toV8 (setter obj (toString property) v)
            { st1 with
              hostCalls := st1.hostCalls ++ [.interceptSet obj (toString property) v] } =
            .ok (h, st2) →
          ClassInterceptSetter priv holder property value st = .ok (⟨h, none⟩, st2) ∧
            h.isSome = true)) := by
  refine ⟨?_, ?_⟩
  · intro getter hg
    refine ⟨?_, ?_⟩
    · intro hr
      unfold ClassInterceptGetter
      simp only [hobj, hg, hr, if_true]
    · intro hr h st2 hc
      refine ⟨?_, toV8_isSome _ _ _ _ hr hc⟩
      unfold ClassInterceptGetter
      simp only [hobj, hg, hr, if_false, hc]
  · intro setter value v st1 hs hv
    refine ⟨?_, ?_⟩
    · intro hr
      unfold ClassInterceptSetter
      simp only [hobj, hs, hv, hr, if_true]
    · intro hr h st2 hc
      refine ⟨?_, toV8_isSome _ _ _ _ hr hc⟩
      unfold ClassInterceptSetter
      simp only [hobj, hs, hv, hr, if_false, hc]

/-- C20, witness: the example class on the global object of the new engine. Reading `x`
gives the return value 5, reading `y` sets none; assigning `true` to `y` gives the return
value `true`, assigning `null`, which `fromV8` reads as the Invalid Value, sets none. -/
theorem C20_intercept_witness :
    (∃ st2, ClassInterceptGetter exampleClass
        (.object 0 false [(0, .number (Double.ofInt 1))] [] [] []) (.string [0x78])
        ScriptEngine.new = .ok (⟨some (.number (Double.ofInt 5)), none⟩, st2)) ∧
    (∃ st2, ClassInterceptGetter exampleClass
        (.object 0 false [(0, .number (Double.ofInt 1))] [] [] []) (.string [0x79])
        ScriptEngine.new = .ok (⟨none, none⟩, st2)) ∧
    (∃ st2, ClassInterceptSetter exampleClass
        (.object 0 false [(0, .number (Double.ofInt 1))] [] [] []) (.string [0x79])
        (.boolean true) ScriptEngine.new = .ok (⟨some (.boolean true), none⟩, st2)) ∧
    (∃ st2, ClassInterceptSetter exampleClass
        (.object 0 false [(0, .number (Double.ofInt 1))] [] [] []) (.string [0x79])
        .null ScriptEngine.new = .ok (⟨none, none⟩, st2)) :=
  ⟨⟨_, (((C20_intercept exampleClass
      (.object 0 false [(0, .number (Double.ofInt 1))] [] [] []) (.string [0x78])
      ScriptEngine.new 0 rfl).1 _ rfl).2
      (by decide) _ _ rfl).1⟩,
   ⟨_, ((C20_intercept exampleClass
      (.object 0 false [(0, .number (Double.ofInt 1))] [] [] []) (.string [0x79])
      ScriptEngine.new 0 rfl).1 _ rfl).1
      (by decide)⟩,
   ⟨_, (((C20_intercept exampleClass
      (.object 0 false [(0, .number (Double.ofInt 1))] [] [] []) (.string [0x79])
      ScriptEngine.new 0 rfl).2 _
      (.boolean true) _ _ rfl rfl).2 (by decide) _ _ rfl).1⟩,
   ⟨_, ((C20_intercept exampleClass
      (.object 0 false [(0, .number (Double.ofInt 1))] [] [] []) (.string [0x79])
      ScriptEngine.new 0 rfl).2 _
      .null _ _ rfl rfl).1 (by decide)⟩⟩

end Rct

namespace Rct

open CustomType

/-! ## Tables by name -/

theorem hashSet_lookup_self {α : Type} : ∀ (l : List (HString × α)) (k : HString) (x : α),
    (hashSet l k x).lookup k = some x
  | [], k, x => by simp [hashSet, List.lookup]
  | (j, y) :: rest, k, x => by
    unfold hashSet
    by_cases h : j = k
    · rw [if_pos h]
      simp [List.lookup, h]
    · rw [if_neg h]
      have hkj : (k == j) = false := by simp [Ne.symm h]
      simp only [List.lookup, hkj]
      exact hashSet_lookup_self rest k x

theorem hashSet_lookup_other {α : Type} : ∀ (l : List (HString × α)) (k y : HString) (x : α),
    y ≠ k → (hashSet l k x).lookup y = l.lookup y
  | [], k, y, x, h => by
    have hyk : (y == k) = false := by simp [h]
    simp [hashSet, List.lookup, hyk]
  | (j, q) :: rest, k, y, x, h => by
    unfold hashSet
    by_cases hjk : j = k
    · rw [if_pos hjk]
      have hyj : (y == j) = false := by simp [hjk, h]
      simp only [List.lookup, hyj]
    · rw [if_neg hjk]
      simp only [List.lookup]
      cases hyj : y == j
      · exact hashSet_lookup_other rest k y x h
      · rfl

theorem hashErase_lookup_self {α : Type} : ∀ (l : List (HString × α)) (k : HString),
    (hashErase l k).lookup k = none
  | [], _ => rfl
  | (j, y) :: rest, k => by
    unfold hashErase
    by_cases h : j = k
    · simp only [List.filter, h, ne_eq, not_true_eq_false, decide_False]
      exact hashErase_lookup_self rest k
    · have hkj : (k == j) = false := by simp [Ne.symm h]
      simp only [List.filter, h, ne_eq, not_false_eq_true, decide_True, List.lookup, hkj]
      exact hashErase_lookup_self rest k

theorem hashErase_lookup_other {α : Type} : ∀ (l : List (HString × α)) (k y : HString),
    y ≠ k → (hashErase l k).lookup y = l.lookup y
  | [], _, _, _ => rfl
  | (j, q) :: rest, k, y, h => by
    unfold hashErase
    by_cases hjk : j = k
    · subst hjk
      have hyj : (y == j) = false := by simp [h]
      simp only [List.filter, ne_eq, not_true_eq_false, decide_False, List.lookup, hyj]
      exact hashErase_lookup_other rest j y h
    · simp only [List.filter, hjk, ne_eq, not_false_eq_true, decide_True, List.lookup]
      cases hyj : y == j
      · exact hashErase_lookup_other rest k y h
      · rfl

/-! ## Claims C25, C26, C27 -/

/-- C25: `ClassInterceptQuery` ends the process with `abort()` for every class, property
name and state, whether a query interceptor is installed or not: no interceptor is
consulted and no return value is set. -/
theorem C25_query_aborts (priv : ClassPrivate) (property : V8Value) (st : Engine) :
    ClassInterceptQuery priv property st = .error .abort ∧
    ClassInterceptQuery { priv with intercept := { priv.intercept with query := none } }
      property st = ClassInterceptQuery priv property st :=
  ⟨rfl, rfl⟩

/-- C26, counterexample: with a deleter interceptor that returns `true`, the callback
`ClassInterceptDeleter` does not end the process: it sets the return value `true`. -/
theorem C26_deleter_counterexample :
    ClassInterceptDeleter
      { exampleClass with
        intercept := { exampleClass.intercept with deleter := some (fun _ => .boolean true) } }
      (.string [0x78]) ScriptEngine.new =
    .ok (⟨some (.boolean true), none⟩,
      { ScriptEngine.new with hostCalls := [.interceptDelete [0x78]] }) :=
  rfl

/-- C26, amended: `ClassInterceptDeleter` ends the process only when no deleter interceptor
is installed (the call of the empty `std::function` throws). With a deleter interceptor
installed it invokes it once with the property name; if the result is a Boolean the return
value is set to it, and otherwise no return value is set. -/
theorem C26_deleter (priv : ClassPrivate) (property : V8Value) (st : Engine) :
    (priv.intercept.deleter = none →
      ClassInterceptDeleter priv property st = .error .exception) ∧
    (∀ deleter, priv.intercept.deleter = some deleter →
      (∀ b, deleter (toString property) = .boolean b →
        ClassInterceptDeleter priv property st =
          .ok (⟨some (.boolean b), none⟩,
            { st with hostCalls := st.hostCalls ++ [.interceptDelete (toString property)] })) ∧
      ((deleter (toString property)).type ≠ ValueType.Type_Boolean →
        ClassInterceptDeleter priv property st =
          .ok (⟨none, none⟩,
            { st with
              hostCalls := st.hostCalls ++ [.interceptDelete (toString property)] }))) := by
  refine ⟨?_, ?_⟩
  · intro h
    unfold ClassInterceptDeleter
    rw [h]
  · intro deleter h
    refine ⟨?_, ?_⟩
    · intro b hb
      unfold ClassInterceptDeleter
      rw [h]
      simp only [hb]
    · intro hb
      unfold ClassInterceptDeleter
      rw [h]
      simp only
      cases hd : deleter (toString property) <;> first | rfl | (rw [hd] at hb; exact absurd rfl hb)

/-- C26, witness: the example class has no deleter interceptor, and the callback ends the
process; with a deleter interceptor that returns the Integer 1 no return value is set. -/
theorem C26_deleter_witness :
    ClassInterceptDeleter exampleClass (.string [0x78]) ScriptEngine.new = .error .exception ∧
    ClassInterceptDeleter
      { exampleClass with
        intercept := { exampleClass.intercept with deleter := some (fun _ => .integer 1) } }
      (.string [0x78]) ScriptEngine.new =
    .ok (⟨none, none⟩,
      { ScriptEngine.new with
        hostCalls := ScriptEngine.new.hostCalls ++ [.interceptDelete (toString (.string [0x78]))] }) :=
  ⟨(C26_deleter exampleClass (.string [0x78]) ScriptEngine.new).1 rfl,
   ((C26_deleter
      { exampleClass with
        intercept := { exampleClass.intercept with deleter := some (fun _ => .integer 1) } }
      (.string [0x78]) ScriptEngine.new).2 _ rfl).2 (by decide)⟩

/-- The text of `catchError` is not empty. -/
theorem formatError_ne_nil (message : Message) (header : HString) :
    formatError message header ≠ [] := by
  intro h
  have hl := congrArg List.length h
  have hc : (ascii "\x7d").length = 1 := by decide
  simp only [formatError, List.length_append, hc, List.length_nil] at hl
  omega

/-- The text of `catchError` starts with the script resource name as `%s` prints it. -/
theorem formatError_label (message : Message) (header : HString) :
    cstr (utf8Encode message.scriptResourceName) <+: formatError message header := by
  simp only [formatError, List.append_assoc]
  exact List.prefix_append _ _

/-- C27, counterexample: for a script resource name with a zero character (`a`, U+0000,
`b`) the text written is `a:3:7: Call error: boom {20-25}`, in which the resource name does
not occur. -/
theorem C27_catchError_counterexample :
    catchError (some ⟨utf8Decode (ascii "boom"), [0x61, 0, 0x62], 3, 7, 20, 25⟩)
      (ascii "Call error") true =
      (true, some (ascii "a:3:7: Call error: boom \x7b20-25\x7d")) ∧
    ¬ (utf8Encode [0x61, 0, 0x62] <:+: ascii "a:3:7: Call error: boom \x7b20-25\x7d") := by
  refine ⟨by decide, ?_⟩
  intro h
  have hm : (0 : Byte) ∈ ascii "a:3:7: Call error: boom \x7b20-25\x7d" :=
    h.subset (by decide)
  revert hm
  decide

/-- C27, amended: `catchError` returns true exactly when the try-catch has caught an
exception. If it has and the caller passed an error string, the string is set to
`<script resource name>:<line>:<start column>: <header>: <message> {<start
position>-<end position>}`, each text as `%s` prints it, that is, up to its first zero
byte: the text is not empty, and it starts with the script resource name when that has no
zero character. When nothing was caught, or the caller passed no error string, no error
string is written. -/
theorem C27_catchError (tryCatch : Option Message) (header : HString) (error : Bool) :
    (catchError tryCatch header error).1 = tryCatch.isSome ∧
    (∀ message, tryCatch = some message → error = true →
      (catchError tryCatch header error).2 = some (formatError message header) ∧
      formatError message header ≠ [] ∧
      ((∀ b ∈ utf8Encode message.scriptResourceName, b.val ≠ 0) →
        utf8Encode message.scriptResourceName <+: formatError message header)) ∧
    ((tryCatch = none ∨ error = false) → (catchError tryCatch header error).2 = none) := by
  refine ⟨?_, ?_, ?_⟩
  · cases tryCatch <;> rfl
  · intro message hm he
    rw [hm, he]
    refine ⟨rfl, formatError_ne_nil message header, ?_⟩
    intro hz
    have h := formatError_label message header
    rw [cstr_of_no_zero _ hz] at h
    exact h
  · intro h
    rcases h with h | h
    · rw [h]; rfl
    · rw [h]
      cases tryCatch <;> rfl

/-- C27, witness: a message from the script `test.js`. -/
theorem C27_catchError_witness :
    (catchError (some ⟨utf8Decode (ascii "boom"), utf8Decode (ascii "test.js"), 3, 7, 20, 25⟩)
        (ascii "Call error") true).2 =
      some (formatError ⟨utf8Decode (ascii "boom"), utf8Decode (ascii "test.js"), 3, 7, 20, 25⟩
        (ascii "Call error")) ∧
    formatError ⟨utf8Decode (ascii "boom"), utf8Decode (ascii "test.js"), 3, 7, 20, 25⟩
        (ascii "Call error") ≠ [] ∧
    ((∀ b ∈ utf8Encode (utf8Decode (ascii "test.js")), b.val ≠ 0) →
      utf8Encode (utf8Decode (ascii "test.js")) <+:
        formatError ⟨utf8Decode (ascii "boom"), utf8Decode (ascii "test.js"), 3, 7, 20, 25⟩
          (ascii "Call error")) :=
  (C27_catchError (some ⟨utf8Decode (ascii "boom"), utf8Decode (ascii "test.js"), 3, 7, 20, 25⟩)
    (ascii "Call error") true).2.1 _ rfl rfl

end Rct
namespace Rct

open CustomType

/-! ## Claims C21, C22 -/

/-- The name a class callback reads from the data object made for a clean name. -/
theorem callbackName_data (self : Nat) (name : HString) (st : Engine)
    (hclean : cleanString name = true) :
    callbackName (classFunctionData self name st) = .ok name := by
  simp only [callbackName, classFunctionData]
  rw [toString_decode hclean]

/-- C21, counterexample: the name `a`, zero byte, `b`. After two registrations under it
the table of functions has the entry, with the second handler, but a call through the
function made by the first registration (or the second) on a live instance finds no entry,
invokes no handler and sets no return value: the callback reads the name back as `a`. -/
theorem C21_dispatch_counterexample :
    ((ScriptEngine.Class.registerFunction 7 [0x61, 0, 0x62] (fun _ _ => .integer 2)
        (ScriptEngine.Class.registerFunction 7 [0x61, 0, 0x62] (fun _ _ => .integer 1)
          exampleClass ScriptEngine.new).1
        (ScriptEngine.Class.registerFunction 7 [0x61, 0, 0x62] (fun _ _ => .integer 1)
          exampleClass ScriptEngine.new).2).1.functions.lookup [0x61, 0, 0x62]).isSome = true ∧
    ClassFunctionCallback
      (ScriptEngine.Class.registerFunction 7 [0x61, 0, 0x62] (fun _ _ => .integer 2)
        (ScriptEngine.Class.registerFunction 7 [0x61, 0, 0x62] (fun _ _ => .integer 1)
          exampleClass ScriptEngine.new).1
        (ScriptEngine.Class.registerFunction 7 [0x61, 0, 0x62] (fun _ _ => .integer 1)
          exampleClass ScriptEngine.new).2).1
      (.object 0 false [(0, .number (Double.ofInt 1))] [] [] [])
      (classFunctionData 7 [0x61, 0, 0x62] ScriptEngine.new) [] ScriptEngine.new =
    .ok (⟨none, none⟩, ScriptEngine.new) :=
  ⟨rfl, rfl⟩

/-- C21, amended: for a name that is well-formed UTF-8 without a zero byte, after
`registerFunction(name, h1)` and then `registerFunction(name, h2)` a call that
`ClassFunctionCallback` dispatches for the data object of either registration, on a live
instance and with arguments that convert, invokes `h2` once with the instance and the
converted arguments and sets the return value to `toV8` of its result; likewise for
`registerStaticFunction` and `ClassStaticFunctionCallback`. When the table has no entry for
the name the callback reads, it invokes nothing and sets no return value. -/
theorem C21_dispatch (self : Nat) (name : HString) (h1 h2 : Nat → List Value → Value)
    (s1 s2 : List Value → Value) (priv p1 p2 q1 q2 : ClassPrivate) (st st1 st2 t1 t2 : Engine)
    (hclean : cleanString name = true)
    (hp1 : ScriptEngine.Class.registerFunction self name h1 priv st = (p1, st1))
    (hp2 : ScriptEngine.Class.registerFunction self name h2 p1 st1 = (p2, st2))
    (hq1 : ScriptEngine.Class.registerStaticFunction self name s1 priv st = (q1, t1))
    (hq2 : ScriptEngine.Class.registerStaticFunction self name s2 q1 t1 = (q2, t2)) :
    (∀ d, d = classFunctionData self name st ∨ d = classFunctionData self name st1 →
      ∀ holder obj info args s sa, objectFromV8Object holder s = .ok (some obj) →
        fromV8_list info s = .ok (args, sa) →
        ClassFunctionCallback p2 holder d info s =
          (match toV8 (h2 obj args)
              { sa with hostCalls := sa.hostCalls ++ [.function obj args] } with
           | .error f => .error f
           | .ok (h, sb) => .ok (⟨h, none⟩, sb))) ∧
    (∀ d, d = classFunctionData self name st ∨ d = classFunctionData self name t1 →
      ∀ info args s sa, fromV8_list info s = .ok (args, sa) →
        ClassStaticFunctionCallback q2 d info s =
          (match toV8 (s2 args)
              { sa with hostCalls := sa.hostCalls ++ [.staticFunction name args] } with
           | .error f => .error f
           | .ok (h, sb) => .ok (⟨h, none⟩, sb))) ∧
    (p1.functions.lookup name).map (fun fd => fd.templ) =
      some (some (classFunctionData self name st)) ∧
    (p2.functions.lookup name).map (fun fd => fd.templ) =
      some (some (classFunctionData self name st1)) ∧
    (∀ (c : ClassPrivate) (holder data : V8Value) (obj : Nat) (n : HString)
        (info : List V8Value) (s : Engine),
      objectFromV8Object holder s = .ok (some obj) → callbackName data = .ok n →
      c.functions.lookup n = none →
      ClassFunctionCallback c holder data info s = .ok (⟨none, none⟩, s)) ∧
    (∀ (c : ClassPrivate) (data : V8Value) (n : HString) (info : List V8Value) (s : Engine),
      callbackName data = .ok n → c.staticFunctions.lookup n = none →
      ClassStaticFunctionCallback c data info s = .ok (⟨none, none⟩, s)) := by
  simp only [ScriptEngine.Class.registerFunction, Prod.mk.injEq] at hp1 hp2
  have _ := hq1
  simp only [ScriptEngine.Class.registerStaticFunction, Prod.mk.injEq] at hq2
  have hl2 : p2.functions.lookup name = some ⟨h2, some (classFunctionData self name st1)⟩ := by
    rw [← hp2.1]
    exact hashSet_lookup_self _ _ _
  have hl1 : p1.functions.lookup name = some ⟨h1, some (classFunctionData self name st)⟩ := by
    rw [← hp1.1]
    exact hashSet_lookup_self _ _ _
  have hm2 : q2.staticFunctions.lookup name = some s2 := by
    rw [← hq2.1]
    exact hashSet_lookup_self _ _ _
  refine ⟨?_, ?_, ?_, ?_, ?_, ?_⟩
  · intro d hd holder obj info args s sa hobj hargs
    have hn : callbackName d = .ok name := by
      rcases hd with hd | hd <;> rw [hd] <;> exact callbackName_data _ _ _ hclean
    unfold ClassFunctionCallback
    simp only [hobj, hn, hl2, hargs]
  · intro d hd info args s sa hargs
    have hn : callbackName d = .ok name := by
      rcases hd with hd | hd <;> rw [hd] <;> exact callbackName_data _ _ _ hclean
    unfold ClassStaticFunctionCallback
    simp only [hn, hm2, hargs]
  · rw [hl1]; rfl
  · rw [hl2]; rfl
  · intro c holder data obj n info s hobj hn hl
    unfold ClassFunctionCallback
    simp only [hobj, hn, hl]
  · intro c data n info s hn hl
    unfold ClassStaticFunctionCallback
    simp only [hn, hl]

/-- C21, witness: the name `f` registered twice in the example class, first with a handler
that returns 1, then with one that returns the list of its arguments; a call with the
argument `true` through the function of the first registration, on the global object,
returns the array holding `true`. -/
theorem C21_dispatch_witness :
    ∃ sb, ClassFunctionCallback
      (ScriptEngine.Class.registerFunction 7 [0x66] (fun _ arguments => .list arguments)
        (ScriptEngine.Class.registerFunction 7 [0x66] (fun _ _ => .integer 1)
          exampleClass ScriptEngine.new).1
        (ScriptEngine.Class.registerFunction 7 [0x66] (fun _ _ => .integer 1)
          exampleClass ScriptEngine.new).2).1
      (.object 0 false [(0, .number (Double.ofInt 1))] [] [] [])
      (classFunctionData 7 [0x66] ScriptEngine.new) [.boolean true] ScriptEngine.new =
    .ok (⟨some (.array [.boolean true]), none⟩, sb) :=
  ⟨_, (C21_dispatch 7 [0x66] (fun _ _ => .integer 1) (fun _ arguments => .list arguments)
      (fun _ => .integer 1) (fun arguments => .list arguments) exampleClass _ _ _ _
      ScriptEngine.new _ _ _ _ (by decide) rfl rfl rfl rfl).1
      (classFunctionData 7 [0x66] ScriptEngine.new) (Or.inl rfl)
      (.object 0 false [(0, .number (Double.ofInt 1))] [] [] []) 0 [.boolean true]
      [.boolean true] ScriptEngine.new ScriptEngine.new rfl rfl⟩

/-- C22: after `interceptPropertyName` the five interceptor slots hold the five handlers
given; the table of functions has an entry `toString`, which is the entry the class had
before if it had one and otherwise holds the handler registered by the call; the entries
under every other name are what they were. -/
theorem C22_interceptPropertyName (self : Nat) (get : Option (Nat → HString → Value))
    (set : Option (Nat → HString → Value → Value)) (query deleter : Option (HString → Value))
    (enumerator : Option (Unit → Value)) (toStringHandler : Nat → List Value → Value)
    (priv : ClassPrivate) (st : Engine) :
    (ScriptEngine.Class.interceptPropertyName self get set query deleter enumerator
        toStringHandler priv st).1.intercept = ⟨get, set, query, deleter, enumerator⟩ ∧
    (∀ fd, priv.functions.lookup (ascii "toString") = some fd →
      (ScriptEngine.Class.interceptPropertyName self get set query deleter enumerator
        toStringHandler priv st).1.functions.lookup (ascii "toString") = some fd) ∧
    (priv.functions.lookup (ascii "toString") = none →
      ((ScriptEngine.Class.interceptPropertyName self get set query deleter enumerator
        toStringHandler priv st).1.functions.lookup (ascii "toString")).map
          (fun fd => fd.function) = some toStringHandler) ∧
    (∀ y, y ≠ ascii "toString" →
      (ScriptEngine.Class.interceptPropertyName self get set query deleter enumerator
        toStringHandler priv st).1.functions.lookup y = priv.functions.lookup y) := by
  unfold ScriptEngine.Class.interceptPropertyName
  by_cases hi : (priv.functions.lookup (ascii "toString")).isSome = true
  · rw [if_pos hi]
    refine ⟨rfl, fun fd hfd => hfd, ?_, fun y _ => rfl⟩
    intro h
    rw [h] at hi
    exact absurd hi (by simp)
  · rw [if_neg hi]
    refine ⟨rfl, ?_, ?_, ?_⟩
    · intro fd hfd
      rw [hfd] at hi
      exact absurd rfl hi
    · intro _
      show Option.map _ (List.lookup _ (hashSet _ _ _)) = _
      rw [hashSet_lookup_self]
      rfl
    · intro y hy
      exact hashSet_lookup_other _ _ _ _ hy

/-- C22, witness: the example class has no function `toString`, and after the call its
table holds the handler registered by the call under that name. -/
theorem C22_interceptPropertyName_witness :
    ((ScriptEngine.Class.interceptPropertyName 7 none none none none none
        (fun _ _ => .string (ascii "x")) exampleClass ScriptEngine.new).1.functions.lookup
          (ascii "toString")).map (fun fd => fd.function) =
      some (fun _ _ => .string (ascii "x")) :=
  (C22_interceptPropertyName 7 none none none none none (fun _ _ => .string (ascii "x"))
    exampleClass ScriptEngine.new).2.2.1 rfl

end Rct
namespace Rct

open CustomType

/-! ## The release of Objects -/

theorem lookup_filter_self : ∀ (l : List (Nat × ObjectPrivate)) (o : Nat),
    (l.filter (fun e => decide (e.1 ≠ o))).lookup o = none
  | [], _ => rfl
  | (a, q) :: rest, o => by
    by_cases h : a = o
    · simp only [List.filter, h, ne_eq, not_true_eq_false, decide_False]
      exact lookup_filter_self rest o
    · have hoa : (o == a) = false := by simp [Ne.symm h]
      simp only [List.filter, h, ne_eq, not_false_eq_true, decide_True, List.lookup, hoa]
      exact lookup_filter_self rest o

theorem lookup_filter_other : ∀ (l : List (Nat × ObjectPrivate)) (o a : Nat),
    a ≠ o → (l.filter (fun e => decide (e.1 ≠ o))).lookup a = l.lookup a
  | [], _, _, _ => rfl
  | (b, q) :: rest, o, a, h => by
    by_cases hbo : b = o
    · subst hbo
      have hab : (a == b) = false := by simp [h]
      simp only [List.filter, ne_eq, not_true_eq_false, decide_False, List.lookup, hab]
      exact lookup_filter_other rest b a h
    · simp only [List.filter, hbo, ne_eq, not_false_eq_true, decide_True, List.lookup]
      cases hab : a == b
      · exact lookup_filter_other rest o a h
      · rfl

/-- An Object that is alive after a release was alive before, with the same content. -/
theorem release_sub (held : Nat → Bool) : ∀ (fuel : Nat) (released : List Nat)
    (objects : List (Nat × ObjectPrivate)) (a : Nat) (x : ObjectPrivate),
    (release held fuel released objects).lookup a = some x → objects.lookup a = some x
  | 0, _, _, _, _, h => by simpa [release] using h
  | _ + 1, [], _, _, _, h => by simpa [release] using h
  | fuel + 1, o :: rest, objects, a, x, h => by
    rw [release] at h
    split at h
    · exact release_sub held fuel rest objects a x h
    · split at h
      · exact release_sub held fuel rest objects a x h
      · have h1 := release_sub held fuel _ _ a x h
        by_cases hao : a = o
        · rw [hao, lookup_filter_self] at h1
          exact absurd h1 (by simp)
        · rw [lookup_filter_other _ _ _ hao] at h1
          exact h1

/-- An Object that the host holds is not touched by a release. -/
theorem release_keeps (held : Nat → Bool) (a : Nat) (ha : held a = true) :
    ∀ (fuel : Nat) (released : List Nat) (objects : List (Nat × ObjectPrivate)),
    (release held fuel released objects).lookup a = objects.lookup a
  | 0, _, _ => by simp [release]
  | _ + 1, [], _ => by simp [release]
  | fuel + 1, o :: rest, objects => by
    rw [release]
    split
    · exact release_keeps held a ha fuel rest objects
    · rename_i hno
      split
      · exact release_keeps held a ha fuel rest objects
      · rw [release_keeps held a ha fuel _ _]
        have hao : a ≠ o := by
          intro e
          rw [e] at ha
          simp [ha] at hno
        exact lookup_filter_other _ _ _ hao

/-- An Object that nothing holds is destroyed when it is released. -/
theorem release_destroys (held : Nat → Bool) (fuel : Nat) (o : Nat) (rest : List Nat)
    (objects : List (Nat × ObjectPrivate)) (hh : held o = false)
    (ho : owned objects o = false) :
    (release held (fuel + 1) (o :: rest) objects).lookup o = none := by
  rw [release]
  simp only [hh, ho, Bool.or_self, Bool.false_eq_true, if_false]
  cases hl : objects.lookup o with
  | none =>
    simp only
    cases hr : (release held fuel rest objects).lookup o with
    | none => rfl
    | some x =>
      have := release_sub held fuel rest objects o x hr
      rw [hl] at this
      exact absurd this (by simp)
  | some p =>
    simp only
    cases hr : (release held fuel (p.children.map Prod.snd ++ rest)
        (objects.filter (fun e => decide (e.1 ≠ o)))).lookup o with
    | none => rfl
    | some x =>
      have := release_sub held fuel _ _ o x hr
      rw [lookup_filter_self] at this
      exact absurd this (by simp)

/-- The parent after `eraseChild`: it has lost the entry and nothing else. -/
theorem eraseChild_parent (held : Nat → Bool) (parent : Nat) (pp : ObjectPrivate)
    (name : HString) (objects : List (Nat × ObjectPrivate))
    (hpp : objects.lookup parent = some pp) :
    (eraseChild held parent pp name objects).lookup parent =
      some { pp with children := hashErase pp.children name } := by
  unfold eraseChild
  rw [release_keeps _ parent (by simp)]
  exact lookup_setPriv_self _ _ _ (by rw [hpp]; rfl)

/-- An Object that the host holds is what it was after `eraseChild`, the parent apart. -/
theorem eraseChild_held (held : Nat → Bool) (parent : Nat) (pp : ObjectPrivate)
    (name : HString) (objects : List (Nat × ObjectPrivate)) (a : Nat)
    (ha : held a = true) (hne : a ≠ parent) :
    (eraseChild held parent pp name objects).lookup a = objects.lookup a := by
  unfold eraseChild
  rw [release_keeps _ a (by simp [ha])]
  exact lookup_setPriv_other _ _ _ _ hne

/-- The Object of the erased entry is destroyed by `eraseChild` when nothing else holds
it. -/
theorem eraseChild_destroys (held : Nat → Bool) (parent : Nat) (pp : ObjectPrivate)
    (name : HString) (objects : List (Nat × ObjectPrivate)) (o : Nat)
    (hentry : pp.children.lookup name = some o) (hh : held o = false) (hne : o ≠ parent)
    (ho : owned (setPriv objects parent { pp with children := hashErase pp.children name }) o
      = false) :
    (eraseChild held parent pp name objects).lookup o = none := by
  unfold eraseChild releaseFuel
  rw [hentry]
  exact release_destroys _ _ o [] _ (by simp [hh, hne]) ho

/-! ## Claims C23, C28 -/

/-- C23: for an Object `o` that is not the global one, whose engine object carries its
`ObjectData` and whose parent holds it under its name: when the host holds no strong
reference to `o` and no other children table holds it, `ObjectWeak` returns without a
destroyed notification, `o` being destroyed by the removal of the entry before its
`ObjectData` is deleted; the notification is delivered, once, when the host still holds a
strong reference to `o`. -/
theorem C23_destroyed_notification (held : Nat → Bool) (st : Engine) (o par objData : Nat)
    (p pp : ObjectPrivate) (name : HString) (id : Nat) (callable : Bool)
    (privates : List (Nat × V8Value)) (fields : List V8Value)
    (elements : List (Nat × V8Value)) (named : List (JsString × V8Value))
    (hp : st.priv o = some p) (hk : p.customType ≠ CustomType_Global)
    (hv : p.object = some (.object id callable privates (.external objData :: fields)
      elements named))
    (hd : st.datas.lookup objData = some ⟨name, some o, some par⟩)
    (hpp : st.priv par = some pp) (hne : o ≠ par)
    (hentry : pp.children.lookup name = some o) :
    (held o = false →
      owned (setPriv st.objects par { pp with children := hashErase pp.children name }) o
        = false →
      ∃ st1, ObjectWeak held o st = .ok st1 ∧ st1.hostCalls = st.hostCalls ∧
        st1.priv o = none) ∧
    (held o = true →
      ∃ st1, ObjectWeak held o st = .ok st1 ∧
        st1.hostCalls = st.hostCalls ++ [.destroyed o]) := by
  have hlock : st.lock (some par) = some par := by
    unfold Engine.priv at hpp
    simp only [Engine.lock, hpp, Option.isSome_some, if_true]
  have hw : ObjectWeak held o st =
      .ok (ObjectData.delete objData ⟨name, some o, some par⟩
        { st with objects := eraseChild held par pp name st.objects }) := by
    unfold ObjectWeak
    simp only [hp, hk, if_false, hv, hd, hlock, hpp]
  refine ⟨?_, ?_⟩
  · intro hh ho
    have hgone : (eraseChild held par pp name st.objects).lookup o = none :=
      eraseChild_destroys held par pp name st.objects o hentry hh hne ho
    refine ⟨_, hw, ?_, ?_⟩
    · simp only [ObjectData.delete, Engine.lock, hgone, Option.isSome_none,
        Bool.false_eq_true, if_false]
    · simp only [ObjectData.delete, Engine.lock, hgone, Option.isSome_none,
        Bool.false_eq_true, if_false, Engine.priv]
  · intro hh
    have halive : (eraseChild held par pp name st.objects).lookup o = some p := by
      rw [eraseChild_held held par pp name st.objects o hh hne]
      exact hp
    refine ⟨_, hw, ?_⟩
    simp only [ObjectData.delete, Engine.lock, halive, Option.isSome_some, if_true]

/-- C23, witness: the child `x` of the global Object of a new engine. When the host holds
the global Object only, the weak callback of the child leaves no destroyed notification and
the child is gone; when the host holds the child too, there is one notification. -/
theorem C23_destroyed_notification_witness :
    (∃ st1, ObjectWeak (fun a => decide (a = 0)) 1 exampleChild = .ok st1 ∧
      st1.hostCalls = exampleChild.hostCalls ∧ st1.priv 1 = none) ∧
    (∃ st1, ObjectWeak (fun _ => true) 1 exampleChild = .ok st1 ∧
      st1.hostCalls = exampleChild.hostCalls ++ [.destroyed 1]) :=
  ⟨(C23_destroyed_notification (fun a => decide (a = 0)) exampleChild 1 0 0 _ _ [0x78] 1 false
      [(1, .number (Double.ofInt 2))] [] [] [] rfl (by decide) rfl rfl rfl (by decide) rfl).1
      rfl rfl,
   (C23_destroyed_notification (fun _ => true) exampleChild 1 0 0 _ _ [0x78] 1 false
      [(1, .number (Double.ofInt 2))] [] [] [] rfl (by decide) rfl rfl rfl (by decide) rfl).2
      rfl⟩

/-- C28: what `ObjectWeak` does to the children table of the parent. It changes nothing
for the global Object. For an Object whose engine object has no internal field, as the
function that `registerFunction` makes has none, it ends in the read of internal field 0
and erases nothing. For an Object whose engine object carries its `ObjectData` in internal
field 0 (an Object made by `child`): if the parent is gone no Object is touched; if the
parent is alive, it loses the entry stored under the name in the `ObjectData`, whichever
Object that entry refers to, and its entries under other names are what they were. -/
theorem C28_weak_erase (held : Nat → Bool) (st : Engine) (o : Nat) (p : ObjectPrivate)
    (hp : st.priv o = some p) :
    (p.customType = CustomType_Global → ObjectWeak held o st = .ok st) ∧
    (∀ (id : Nat) (callable : Bool) (privates : List (Nat × V8Value))
        (elements : List (Nat × V8Value)) (named : List (JsString × V8Value)),
      p.customType ≠ CustomType_Global →
      p.object = some (.object id callable privates [] elements named) →
      ObjectWeak held o st = .error .outOfBounds) ∧
    (∀ (objData id : Nat) (callable : Bool) (privates : List (Nat × V8Value))
        (fields : List V8Value) (elements : List (Nat × V8Value))
        (named : List (JsString × V8Value)) (d : ObjectData),
      p.customType ≠ CustomType_Global →
      p.object = some (.object id callable privates (.external objData :: fields)
        elements named) →
      st.datas.lookup objData = some d →
      (st.lock d.parent = none →
        ∃ st1, ObjectWeak held o st = .ok st1 ∧ st1.objects = st.objects) ∧
      (∀ par pp, d.parent = some par → st.priv par = some pp →
        ∃ st1, ObjectWeak held o st = .ok st1 ∧
          st1.priv par = some { pp with children := hashErase pp.children d.name } ∧
          (hashErase pp.children d.name).lookup d.name = none ∧
          ∀ y, y ≠ d.name →
            (hashErase pp.children d.name).lookup y = pp.children.lookup y)) := by
  refine ⟨?_, ?_, ?_⟩
  · intro hk
    unfold ObjectWeak
    simp only [hp, hk, if_true]
  · intro id callable privates elements named hk hv
    unfold ObjectWeak
    simp only [hp, hk, if_false, hv]
  · intro objData id callable privates fields elements named d hk hv hd
    refine ⟨?_, ?_⟩
    · intro hl
      refine ⟨ObjectData.delete objData d st, ?_, ?_⟩
      · unfold ObjectWeak
        simp only [hp, hk, if_false, hv, hd, hl]
      · unfold ObjectData.delete
        split <;> rfl
    · intro par pp hpar hpp
      have hlock : st.lock d.parent = some par := by
        unfold Engine.priv at hpp
        simp only [hpar, Engine.lock, hpp, Option.isSome_some, if_true]
      refine ⟨ObjectData.delete objData d
          { st with objects := eraseChild held par pp d.name st.objects }, ?_, ?_,
        hashErase_lookup_self _ _, fun y hy => hashErase_lookup_other _ _ _ hy⟩
      · unfold ObjectWeak
        simp only [hp, hk, if_false, hv, hd, hlock, hpp]
      · have h := eraseChild_parent held par pp d.name st.objects hpp
        unfold ObjectData.delete
        split <;> exact h

/-- C28, witness: after `registerFunction("x", ...)` twice on the global Object the entry
`x` is the second Object, and the weak callback of the first Object, a function, ends in
the read of internal field 0: the entry is not removed. After `child("x")` and then
`registerFunction("x", ...)` the entry `x` is the second Object as well, and the weak
callback of the first Object removes that entry. -/
theorem C28_weak_erase_witness :
    ((exampleTwice.priv 0).map (fun p => p.children.lookup [0x78]) = some (some 2) ∧
      (exampleTwice.priv 1).map (fun p => p.customType) = some CustomType_Function ∧
      ObjectWeak (fun _ => true) 1 exampleTwice = .error .outOfBounds) ∧
    ((exampleReplaced.priv 0).map (fun p => p.children.lookup [0x78]) = some (some 2) ∧
      ∃ st1, ObjectWeak (fun _ => true) 1 exampleReplaced = .ok st1 ∧
        (st1.priv 0).map (fun p => p.children.lookup [0x78]) = some none) := by
  refine ⟨⟨rfl, rfl, ?_⟩, rfl, ?_⟩
  · exact (C28_weak_erase (fun _ => true) exampleTwice 1 _ rfl).2.1 2 true [] [] []
      (by decide) rfl
  · obtain ⟨st1, h1, h2, _, _⟩ :=
      ((C28_weak_erase (fun _ => true) exampleReplaced 1 _ rfl).2.2 0 1 false
        [(1, .number (Double.ofInt 2))] [] [] [] ⟨[0x78], some 1, some 0⟩ (by decide) rfl
        rfl).2 0 _ rfl rfl
    exact ⟨st1, h1, by rw [h2]; rfl⟩

end Rct
namespace Rct

open CustomType

/-! ## The kinds are kept -/

theorem KindsKept.refl (st : Engine) : KindsKept st st :=
  ⟨le_refl _, fun _ p1 _ h => ⟨p1, h, rfl⟩⟩

theorem KindsKept.trans {st st1 st2 : Engine} (h1 : KindsKept st st1)
    (h2 : KindsKept st1 st2) : KindsKept st st2 := by
  refine ⟨le_trans h1.1 h2.1, ?_⟩
  intro o p2 ho hp2
  obtain ⟨p1, hp1, hk1⟩ := h2.2 o p2 (lt_of_lt_of_le ho h1.1) hp2
  obtain ⟨p, hp, hk⟩ := h1.2 o p1 ho hp1
  exact ⟨p, hp, hk1.trans hk⟩

/-- A step that leaves the Objects and the next free address alone keeps the kinds. -/
theorem KindsKept.of_eq {st st1 : Engine} (h1 : st1.objects = st.objects)
    (h2 : st1.nextObject = st.nextObject) : KindsKept st st1 := by
  refine ⟨by rw [h2], ?_⟩
  intro o p1 _ hp1
  unfold Engine.priv at hp1 ⊢
  rw [h1] at hp1
  exact ⟨p1, hp1, rfl⟩

/-- The kinds are kept from a state if they are kept from one with the same Objects and
the same next free address. -/
theorem KindsKept.from_eq {st s st1 : Engine} (k : KindsKept s st1)
    (h1 : s.objects = st.objects) (h2 : s.nextObject = st.nextObject) : KindsKept st st1 :=
  KindsKept.trans (KindsKept.of_eq h1 h2) k

/-- A step that appends an Object at the next free address keeps the kinds. -/
theorem KindsKept.of_append {st st1 : Engine} (q : ObjectPrivate)
    (h1 : st1.objects = st.objects ++ [(st.nextObject, q)])
    (h2 : st.nextObject ≤ st1.nextObject) : KindsKept st st1 := by
  refine ⟨h2, ?_⟩
  intro o p1 ho hp1
  unfold Engine.priv at hp1 ⊢
  rw [h1, lookup_append_other _ _ _ _ (Nat.ne_of_lt ho)] at hp1
  exact ⟨p1, hp1, rfl⟩

mutual

theorem toV8_helper_objects : ∀ (v : Value) (st st1 : Engine) (h : Handle),
    toV8_helper v st = .ok (h, st1) →
    st1.objects = st.objects ∧ st1.nextObject = st.nextObject
  | .invalid, st, st1, h, e => by
    simp only [toV8_helper, Except.ok.injEq, Prod.mk.injEq] at e
    rw [← e.2]; exact ⟨rfl, rfl⟩
  | .undefined, st, st1, h, e => by
    simp only [toV8_helper, Except.ok.injEq, Prod.mk.injEq] at e
    rw [← e.2]; exact ⟨rfl, rfl⟩
  | .boolean _, st, st1, h, e => by
    simp only [toV8_helper, Except.ok.injEq, Prod.mk.injEq] at e
    rw [← e.2]; exact ⟨rfl, rfl⟩
  | .integer _, st, st1, h, e => by
    simp only [toV8_helper, Except.ok.injEq, Prod.mk.injEq] at e
    rw [← e.2]; exact ⟨rfl, rfl⟩
  | .double _, st, st1, h, e => by
    simp only [toV8_helper, Except.ok.injEq, Prod.mk.injEq] at e
    rw [← e.2]; exact ⟨rfl, rfl⟩
  | .string _, st, st1, h, e => by
    simp only [toV8_helper, Except.ok.injEq, Prod.mk.injEq] at e
    rw [← e.2]; exact ⟨rfl, rfl⟩
  | .date t, st, st1, h, e => by
    simp only [toV8_helper] at e
    split at e
    · simp only [Except.ok.injEq, Prod.mk.injEq] at e
      rw [← e.2]; exact ⟨rfl, rfl⟩
    · simp at e
  | .custom c, st, st1, h, e => by
    simp only [toV8_helper] at e
    split at e
    · simp only [Except.ok.injEq, Prod.mk.injEq] at e
      rw [← e.2]; exact ⟨rfl, rfl⟩
    · split at e
      · simp only [Except.ok.injEq, Prod.mk.injEq] at e
        rw [← e.2]; exact ⟨rfl, rfl⟩
      · simp only [Except.ok.injEq, Prod.mk.injEq] at e
        rw [← e.2]; exact ⟨rfl, rfl⟩
  | .list l, st, st1, h, e => by
    simp only [toV8_helper] at e
    split at e
    · rename_i elems s hl
      simp only [Except.ok.injEq, Prod.mk.injEq] at e
      rw [← e.2]
      exact toV8_list_objects l st s elems hl
    · simp at e
  | .map m, st, st1, h, e => by
    simp only [toV8_helper] at e
    split at e
    · rename_i elements named s hm
      simp only [Except.ok.injEq, Prod.mk.injEq] at e
      rw [← e.2]
      have h2 := toV8_map_objects m [] [] _ s _ hm
      exact h2
    · simp at e

theorem toV8_list_objects : ∀ (l : List Value) (st st1 : Engine) (xs : List V8Value),
    toV8_list l st = .ok (xs, st1) →
    st1.objects = st.objects ∧ st1.nextObject = st.nextObject
  | [], st, st1, xs, e => by
    simp only [toV8_list, Except.ok.injEq, Prod.mk.injEq] at e
    rw [← e.2]; exact ⟨rfl, rfl⟩
  | v :: vs, st, st1, xs, e => by
    simp only [toV8_list] at e
    split at e
    · rename_i x s hv
      have h1 := toV8_helper_objects v st s (some x) hv
      split at e
      · rename_i ys s2 hl
        have h2 := toV8_list_objects vs s s2 ys hl
        simp only [Except.ok.injEq, Prod.mk.injEq] at e
        rw [← e.2]
        exact ⟨h2.1.trans h1.1, h2.2.trans h1.2⟩
      · simp at e
    · simp at e
    · simp at e

theorem toV8_map_objects : ∀ (m : List (HString × Value)) (elements : List (Nat × V8Value))
    (named : List (JsString × V8Value)) (st st1 : Engine)
    (r : List (Nat × V8Value) × List (JsString × V8Value)),
    toV8_map m elements named st = .ok (r, st1) →
    st1.objects = st.objects ∧ st1.nextObject = st.nextObject
  | [], elements, named, st, st1, r, e => by
    simp only [toV8_map, Except.ok.injEq, Prod.mk.injEq] at e
    rw [← e.2]; exact ⟨rfl, rfl⟩
  | (k, v) :: rest, elements, named, st, st1, r, e => by
    simp only [toV8_map] at e
    split at e
    · rename_i x s hv
      have h1 := toV8_helper_objects v st s (some x) hv
      have h2 := toV8_map_objects rest _ _ s st1 r e
      exact ⟨h2.1.trans h1.1, h2.2.trans h1.2⟩
    · simp at e
    · simp at e

end

mutual

theorem fromV8_keeps : ∀ (x : V8Value) (st st1 : Engine) (v : Value),
    fromV8 x st = .ok (v, st1) → KindsKept st st1
  | .undefined, st, st1, v, e => by
    simp only [fromV8, Except.ok.injEq, Prod.mk.injEq] at e
    rw [← e.2]; exact KindsKept.refl st
  | .null, st, st1, v, e => by
    simp only [fromV8, Except.ok.injEq, Prod.mk.injEq] at e
    rw [← e.2]; exact KindsKept.refl st
  | .boolean _, st, st1, v, e => by
    simp only [fromV8, Except.ok.injEq, Prod.mk.injEq] at e
    rw [← e.2]; exact KindsKept.refl st
  | .number d, st, st1, v, e => by
    simp only [fromV8] at e
    split at e
    · simp only [Except.ok.injEq, Prod.mk.injEq] at e
      rw [← e.2]; exact KindsKept.refl st
    · simp only [Except.ok.injEq, Prod.mk.injEq] at e
      rw [← e.2]; exact KindsKept.refl st
  | .string _, st, st1, v, e => by
    simp only [fromV8, Except.ok.injEq, Prod.mk.injEq] at e
    rw [← e.2]; exact KindsKept.refl st
  | .symbol _, st, st1, v, e => by
    simp only [fromV8, Except.ok.injEq, Prod.mk.injEq] at e
    rw [← e.2]; exact KindsKept.of_eq rfl rfl
  | .external _, st, st1, v, e => by
    simp only [fromV8, Except.ok.injEq, Prod.mk.injEq] at e
    rw [← e.2]; exact KindsKept.of_eq rfl rfl
  | .date t, st, st1, v, e => by
    simp only [fromV8] at e
    split at e
    · simp only [Except.ok.injEq, Prod.mk.injEq] at e
      rw [← e.2]; exact KindsKept.refl st
    · simp at e
  | .array elems, st, st1, v, e => by
    simp only [fromV8] at e
    split at e
    · rename_i l s hl
      simp only [Except.ok.injEq, Prod.mk.injEq] at e
      rw [← e.2]
      exact fromV8_list_keeps elems st s l hl
    · simp at e
  | .object id callable privates internalFields elements named, st, st1, v, e => by
    simp only [fromV8] at e
    split at e
    · split at e
      · simp only [Except.ok.injEq, Prod.mk.injEq] at e
        rw [← e.2]; exact KindsKept.of_eq rfl rfl
      · simp at e
      · simp at e
    · split at e
      · simp only [Except.ok.injEq, Prod.mk.injEq] at e
        rw [← e.2]
        exact KindsKept.of_append _ rfl (Nat.le_succ _)
      · split at e
        · rename_i acc s h1
          have k1 := fromV8_elements_keeps elements .invalid _ s acc h1
          have k2 := fromV8_named_keeps named acc s st1 v e
          exact (KindsKept.from_eq k1 rfl rfl).trans k2
        · simp at e

theorem fromV8_list_keeps : ∀ (xs : List V8Value) (st st1 : Engine) (l : List Value),
    fromV8_list xs st = .ok (l, st1) → KindsKept st st1
  | [], st, st1, l, e => by
    simp only [fromV8_list, Except.ok.injEq, Prod.mk.injEq] at e
    rw [← e.2]; exact KindsKept.refl st
  | x :: xs, st, st1, l, e => by
    simp only [fromV8_list] at e
    split at e
    · rename_i v s hv
      split at e
      · rename_i vs s2 hl
        simp only [Except.ok.injEq, Prod.mk.injEq] at e
        rw [← e.2]
        exact (fromV8_keeps x st s v hv).trans (fromV8_list_keeps xs s s2 vs hl)
      · simp at e
    · simp at e

theorem fromV8_elements_keeps : ∀ (es : List (Nat × V8Value)) (acc : Value)
    (st st1 : Engine) (r : Value), fromV8_elements es acc st = .ok (r, st1) → KindsKept st st1
  | [], acc, st, st1, r, e => by
    simp only [fromV8_elements, Except.ok.injEq, Prod.mk.injEq] at e
    rw [← e.2]; exact KindsKept.refl st
  | (i, x) :: es, acc, st, st1, r, e => by
    simp only [fromV8_elements] at e
    split at e
    · rename_i v s hv
      exact (fromV8_keeps x st s v hv).trans (fromV8_elements_keeps es _ s st1 r e)
    · simp at e

theorem fromV8_named_keeps : ∀ (ps : List (JsString × V8Value)) (acc : Value)
    (st st1 : Engine) (r : Value), fromV8_named ps acc st = .ok (r, st1) → KindsKept st st1
  | [], acc, st, st1, r, e => by
    simp only [fromV8_named, Except.ok.injEq, Prod.mk.injEq] at e
    rw [← e.2]; exact KindsKept.refl st
  | (k, x) :: ps, acc, st, st1, r, e => by
    simp only [fromV8_named] at e
    split at e
    · rename_i v s hv
      exact (fromV8_keeps x st s v hv).trans (fromV8_named_keeps ps _ s st1 r e)
    · simp at e

end

end Rct
namespace Rct

open CustomType

/-! ## The operations keep the kinds -/

end Rct
namespace Rct

open CustomType

/-! ## Claim C24 -/

end Rct

